import Mathlib

/-!
# Verification of the Sokoban MCTS solver core

Shallow embedding of `src/game/Sokoban.py` and `src/agent/MCTS.py`.

Conventions of the embedding:
* Grid cells are the seven `Elements` kinds (the enum lives in the repository's
  `game/GameElements.py`, outside `src/`; only the kinds matter, never the
  integer codes, so `Cell` is an inductive type).
* Positions are pairs of integers `(row, column)`, as produced by `np.where`.
* numpy indexing `level[x, y]` is partial: a negative index `≥ -n` wraps around,
  anything else raises `IndexError`; we model it with `Option`.
* Python `assert` failures and raised exceptions are modelled by `Option`
  (`none` = the Python call raises).
* Python floats are idealised as rationals (`ℚ`); the UCT formula, which needs
  `sqrt`/`log`, is stated over `ℝ` separately.
-/

/-- The seven cell kinds of `game/GameElements.Elements`. -/
inductive Cell where
  | wall
  | floor
  | goal
  | box
  | boxOnGoal
  | player
  | playerOnGoal
deriving DecidableEq, Repr

abbrev Pos := Int × Int

abbrev Grid := List (List Cell)

/-- numpy index resolution on one axis: in-range indices are used as is,
negative indices `≥ -n` wrap around, everything else is an `IndexError`. -/
def npIdx (n : Nat) (i : Int) : Option Nat :=
  if 0 ≤ i ∧ i < (n : Int) then some i.toNat
  else if -(n : Int) ≤ i ∧ i < 0 then some (i + n).toNat
  else none

/-- `level[x, y]` (numpy semantics, `none` = `IndexError`). -/
def npGet (g : Grid) (x y : Int) : Option Cell := do
  let i ← npIdx g.length x
  let row ← g[i]?
  let j ← npIdx row.length y
  row[j]?

/-- `level[x, y] = v` (numpy semantics, `none` = `IndexError`). -/
def npSet (g : Grid) (x y : Int) (v : Cell) : Option Grid := do
  let i ← npIdx g.length x
  let row ← g[i]?
  let j ← npIdx row.length y
  if j < row.length then
    pure (g.set i (row.set j v))
  else none

/-- The pair of array indices `level[x, y]` resolves to under numpy index
semantics (a proof-side helper for reasoning about `npGet`/`npSet`). -/
def npResolve (g : Grid) (x y : Int) : Option (Nat × Nat) := do
  let i ← npIdx g.length x
  let row ← g[i]?
  let j ← npIdx row.length y
  pure (i, j)

/-- `SokobanBoard.find_elements`: positions of all cells whose kind is in
`elems`, in row-major order (the order `np.where` produces). -/
def findElements (g : Grid) (elems : List Cell) : List Pos :=
  (g.enum.map (fun ir =>
    ir.2.enum.filterMap (fun jc =>
      if jc.2 ∈ elems then some ((ir.1 : Int), (jc.1 : Int)) else none))).flatten

/-- `SokobanBoard.is_valid_move`: plain bounds check (no wrap-around). -/
def isValidMove (g : Grid) (x y : Int) : Prop :=
  0 ≤ x ∧ x < (g.length : Int) ∧ 0 ≤ y ∧ y < ((g.head?.map List.length).getD 0 : Int)

instance (g : Grid) (x y : Int) : Decidable (isValidMove g x y) := by
  unfold isValidMove; infer_instance

/-- The four push directions, in the order the source lists them. -/
def dirs : List Pos := [(0, 1), (1, 0), (0, -1), (-1, 0)]

/-- A walk step of `find_interior` may enter `(x, y)`: in bounds and the cell
is neither a wall nor a box. -/
def walkable (g : Grid) (x y : Int) : Prop :=
  isValidMove g x y ∧
    npGet g x y ≠ some Cell.wall ∧
    npGet g x y ≠ some Cell.box ∧
    npGet g x y ≠ some Cell.boxOnGoal

instance (g : Grid) (x y : Int) : Decidable (walkable g x y) := by
  unfold walkable; infer_instance

/-- One dequeue step of the `find_interior` BFS: visit the four neighbours of
`(x, y)`, appending fresh walkable ones to the interior list and the queue. -/
def interiorStep (g : Grid) (x y : Int) (int q : List Pos) : List Pos × List Pos :=
  dirs.foldl
    (fun acc d =>
      let nx := x + d.1
      let ny := y + d.2
      if walkable g nx ny ∧ (nx, ny) ∉ acc.1 then
        (acc.1 ++ [(nx, ny)], acc.2 ++ [(nx, ny)])
      else acc)
    (int, q)

/-- The `find_interior` worklist loop (fuelled; the fuel below is an upper
bound on the number of dequeues, so the loop always drains the queue). -/
def interiorBFS (g : Grid) : Nat → List Pos → List Pos → List Pos
  | 0, int, _ => int
  | _ + 1, int, [] => int
  | fuel + 1, int, p :: rest =>
      let s := interiorStep g p.1 p.2 int rest
      interiorBFS g fuel s.1 s.2

/-- `SokobanBoard.find_interior`: flood fill from `(x, y)` through non-wall,
non-box cells, 4-connected, in BFS order. -/
def findInterior (g : Grid) (x y : Int) : List Pos :=
  interiorBFS g (g.length * (g.head?.map List.length).getD 0 + 2) [(x, y)] [(x, y)]

/-- Lexicographic comparison on positions: Python tuple `<=`. -/
def posLe (p q : Pos) : Bool :=
  p.1 < q.1 ∨ (p.1 = q.1 ∧ p.2 ≤ q.2)

/-- Ordered insertion into a sorted list of positions. -/
def insertPos (x : Pos) : List Pos → List Pos
  | [] => [x]
  | y :: t => if posLe x y then x :: y :: t else y :: insertPos x t

/-- Python `sorted` on a list of coordinate pairs (lexicographic; realised as
an insertion sort so that it evaluates by kernel reduction). -/
def pySorted (l : List Pos) : List Pos := l.foldr insertPos []

/-! ## Python `str` of coordinate lists (the transposition hash) -/

/-- Decimal digit character. -/
def digitChar (n : Nat) : Char := Char.ofNat (48 + n)

/-- Decimal digits of `n`, least significant first (fuelled so that the
recursion is structural; `fuel ≥` the number of digits suffices). -/
def natDigitsGo : Nat → Nat → List Char
  | 0, _ => []
  | fuel + 1, n =>
      if n < 10 then [digitChar n]
      else digitChar (n % 10) :: natDigitsGo fuel (n / 10)

/-- Decimal digits of a natural number, most significant first. -/
def natDigits (n : Nat) : List Char := (natDigitsGo (n + 1) n).reverse

/-- Numeric value of a digit character. -/
def charVal (c : Char) : Nat := c.toNat - 48

/-- Decode a least-significant-first digit string (left inverse of
`natDigitsGo`, used to prove the hash encoding injective). -/
def decodeRev : List Char → Nat
  | [] => 0
  | c :: t => charVal c + 10 * decodeRev t

/-- Python `str` of an integer, as a character list. -/
def intRepr (i : Int) : List Char :=
  if i < 0 then '-' :: natDigits (-i).toNat else natDigits i.toNat

/-- Python `str` of a coordinate pair: `"(x, y)"`. -/
def pairRepr (p : Pos) : List Char :=
  '(' :: (intRepr p.1 ++ ',' :: ' ' :: intRepr p.2 ++ [')'])

/-- The part of `pairRepr` between the parentheses. -/
def pairInner (p : Pos) : List Char := intRepr p.1 ++ ',' :: ' ' :: intRepr p.2

/-- Comma-separated body of Python `str` of a list of pairs. -/
def pairsBody : List Pos → List Char
  | [] => []
  | [p] => pairRepr p
  | p :: q :: rest => pairRepr p ++ ',' :: ' ' :: pairsBody (q :: rest)

/-- Python `str` of a list of coordinate pairs: `"[(a, b), (c, d)]"`. -/
def pairListRepr (l : List Pos) : List Char :=
  '[' :: (pairsBody l ++ [']'])

/-! ## The board -/

/-- `MAX_STEP` from `game/Sokoban.py`. -/
def MAX_STEP : Nat := 1000

/-- `SokobanBoard`: the stored state. The derived attributes (`interior`,
`box_positions`, `hash`) are deterministic functions of `level` and `player`
and are defined below rather than cached. -/
structure SokobanBoard where
  level : Grid
  player : Pos
  steps : Nat
  max_steps : Nat
deriving DecidableEq

namespace SokobanBoard

/-- `self.interior`: the sorted walk-reachable region. -/
def interior (b : SokobanBoard) : List Pos :=
  pySorted (findInterior b.level b.player.1 b.player.2)

/-- `self.box_positions`: the sorted box coordinates. -/
def box_positions (b : SokobanBoard) : List Pos :=
  pySorted (findElements b.level [Cell.box, Cell.boxOnGoal])

/-- `SokobanBoard.get_hash`: `str(self.interior) + str(self.box_positions)`. -/
def hash (b : SokobanBoard) : String :=
  String.mk (pairListRepr b.interior) ++ String.mk (pairListRepr b.box_positions)

end SokobanBoard

/-- A push `(player_x, player_y, dx, dy)`. -/
abbrev Move := Int × Int × Int × Int

namespace SokobanBoard

/-- `SokobanBoard.valid_moves`.  `none` models the `IndexError` numpy raises
when `box + d` is out of bounds on the high side (then the whole call raises
and no move list is produced).  Candidate pushes are pairwise distinct, so the
Python `set` is modelled by a plain list. -/
def valid_moves (b : SokobanBoard) : Option (List Move) := do
  let boxes := findElements b.level [Cell.box, Cell.boxOnGoal]
  let int := findInterior b.level b.player.1 b.player.2
  let cands := boxes.flatMap (fun bx =>
    dirs.filterMap (fun d =>
      if (bx.1 - d.1, bx.2 - d.2) ∈ int then some ((bx.1 - d.1, bx.2 - d.2), d, bx)
      else none))
  let checked ← cands.mapM (fun c =>
    (npGet b.level (c.2.2.1 + c.2.1.1) (c.2.2.2 + c.2.1.2)).map (fun cell => (c, cell)))
  pure (checked.filterMap (fun cc =>
    if cc.2 = Cell.box ∨ cc.2 = Cell.boxOnGoal ∨ cc.2 = Cell.wall then none
    else some (cc.1.1.1, cc.1.1.2, cc.1.2.1.1, cc.1.2.1.2)))

/-- Number of box cells (`BOX` or `BOX_ON_GOAL`) of a grid. -/
def boxCount (g : Grid) : Nat := (findElements g [Cell.box, Cell.boxOnGoal]).length

/-- Number of goal cells (`GOAL`, `BOX_ON_GOAL` or `PLAYER_ON_GOAL`) of a grid. -/
def goalCount (g : Grid) : Nat :=
  (findElements g [Cell.goal, Cell.boxOnGoal, Cell.playerOnGoal]).length

/-- Number of player cells (`PLAYER` or `PLAYER_ON_GOAL`) of a grid. -/
def playerCount (g : Grid) : Nat :=
  (findElements g [Cell.player, Cell.playerOnGoal]).length

/-- `SokobanBoard.move`: apply a push, producing a fresh board with the default
step budget.  `none` models a failed `assert` or an `IndexError`. -/
def move (b : SokobanBoard) (m : Move) : Option SokobanBoard := do
  let (px, py, dx, dy) := m
  let numBoxes := boxCount b.level
  let numGoals := goalCount b.level
  -- remove player
  let pcell ← npGet b.level b.player.1 b.player.2
  guard (pcell = Cell.player ∨ pcell = Cell.playerOnGoal)
  let lvl1 ← npSet b.level b.player.1 b.player.2
    (if pcell = Cell.player then Cell.floor else Cell.goal)
  -- move box
  let nbx := px + 2 * dx
  let nby := py + 2 * dy
  let bcell ← npGet lvl1 nbx nby
  guard (bcell = Cell.player ∨ bcell = Cell.playerOnGoal ∨
    bcell = Cell.floor ∨ bcell = Cell.goal)
  let lvl2 ← npSet lvl1 nbx nby
    (if bcell = Cell.floor ∨ bcell = Cell.player then Cell.box else Cell.boxOnGoal)
  -- move player
  let npx := px + dx
  let npy := py + dy
  let pcell2 ← npGet lvl2 npx npy
  guard (pcell2 = Cell.box ∨ pcell2 = Cell.boxOnGoal)
  let lvl3 ← npSet lvl2 npx npy
    (if pcell2 = Cell.box then Cell.player else Cell.playerOnGoal)
  let nb : SokobanBoard :=
    { level := lvl3, player := (npx, npy), steps := b.steps + 1, max_steps := MAX_STEP }
  guard (numBoxes = boxCount nb.level)
  guard (numGoals = goalCount nb.level)
  guard (playerCount nb.level = 1)
  pure nb

/-- `SokobanBoard.copy`: same level, player and steps, default step budget
(the `max_steps` argument is not forwarded). -/
def copy (b : SokobanBoard) : SokobanBoard :=
  { level := b.level, player := b.player, steps := b.steps, max_steps := MAX_STEP }

/-- Wall-pair scan of `is_deadlocked`: pairs are examined in order, stopping
at the first hit, so a later `IndexError` is not reached. -/
def deadlockPairs (b : SokobanBoard) (box : Pos) : List (Pos × Pos) → Option Bool
  | [] => some false
  | (d1, d2) :: rest => do
      let o1 ← npGet b.level (box.1 + d1.1) (box.2 + d1.2)
      let o2 ← npGet b.level (box.1 + d2.1) (box.2 + d2.2)
      if o1 = Cell.wall ∧ o2 = Cell.wall then some true else deadlockPairs b box rest

/-- `SokobanBoard.is_deadlocked`: a box not on a goal wedged between two
perpendicular walls. -/
def is_deadlocked (b : SokobanBoard) (box : Pos) : Option Bool := do
  let c ← npGet b.level box.1 box.2
  if c = Cell.boxOnGoal then pure false
  else deadlockPairs b box (dirs.zip [(1, 0), (0, -1), (-1, 0), (0, 1)])

/-- Box scan of `check_deadlock`, stopping at the first deadlocked box. -/
def deadlockBoxes (b : SokobanBoard) : List Pos → Option Bool
  | [] => some false
  | bx :: rest => do
      let d ← b.is_deadlocked bx
      if d then some true else deadlockBoxes b rest

/-- `SokobanBoard.check_deadlock`. -/
def check_deadlock (b : SokobanBoard) : Option Bool := do
  let vm ← b.valid_moves
  if vm.length = 0 then pure true
  else deadlockBoxes b (findElements b.level [Cell.box, Cell.boxOnGoal])

end SokobanBoard

/-! ## Rewards -/

/-- The three reward kinds. -/
inductive RType where
  | STEP
  | WIN
  | LOSS
deriving DecidableEq, Repr

/-- `Reward`: a scalar value with a kind.  The scalar is an integer: it is the
negated min-cost Manhattan matching, which is integral (Python carries it as a
float, compared and negated only). -/
structure Reward where
  value : ℤ
  rtype : RType
deriving DecidableEq, Repr

/-- Manhattan distance between two positions. -/
def manhattan (p q : Pos) : ℤ := ((p.1 - q.1).natAbs + (p.2 - q.2).natAbs : ℕ)

/-- All ways of inserting `x` into a list (structural permutations helper). -/
def insertsEverywhere (x : Pos) : List Pos → List (List Pos)
  | [] => [[x]]
  | y :: t => (x :: y :: t) :: (insertsEverywhere x t).map (fun l => y :: l)

/-- All permutations of a list (structurally recursive). -/
def allPerms : List Pos → List (List Pos)
  | [] => [[]]
  | x :: t => ((allPerms t).map (insertsEverywhere x)).flatten

/-- Modelled from the spec: `min_cost_matching` (the file
`reward_functions/min_cost_matching.py` is not under `src/`).  Per §4.5 it is
an oracle returning the minimum total cost of a perfect assignment from boxes
to goals under the Manhattan metric; the contract is undefined when the counts
differ (here: minimum over goal permutations, `0` when none exists). -/
def min_cost_matching (b : SokobanBoard) : ℤ :=
  let boxes := b.box_positions
  let goals := findElements b.level [Cell.goal, Cell.boxOnGoal, Cell.playerOnGoal]
  ((((allPerms goals).filter (fun gp => gp.length = boxes.length)).map
    (fun gp => ((boxes.zip gp).map (fun pq => manhattan pq.1 pq.2)).sum)).min?).getD 0

namespace SokobanBoard

/-- `SokobanBoard.reward`.  The scalar is `-mc b` where `mc` is the matching
oracle (kept as a parameter: every kind-level fact below holds for any oracle).
`none` models an exception escaping from `check_deadlock`. -/
def reward (mc : SokobanBoard → ℤ) (b : SokobanBoard) : Option Reward := do
  let r := -mc b
  if (findElements b.level [Cell.box]).length = 0 then pure ⟨r, RType.WIN⟩
  else do
    let dl ← b.check_deadlock
    if dl ∨ b.steps > b.max_steps ∨ (findElements b.level [Cell.box]).length = 0 then
      pure ⟨r, RType.LOSS⟩
    else pure ⟨r, RType.STEP⟩

end SokobanBoard


/-! ## Node statistics (`agent/MCTS.py`) -/

/-- `C_PUT` from `agent/MCTS.py` (the spec's `C_PUCT`). -/
def C_PUT : ℝ := 32

/-- `D_PUT` from `agent/MCTS.py` (the spec's `D`). -/
def D_PUT : ℝ := 8

/-- `LOOKAHEAD` from `agent/MCTS.py`. -/
def LOOKAHEAD : Nat := 7

/-- `Node.u` for a non-root node, as the source computes it:
`C_PUT * np.sqrt(2*np.log(self.parent.n)) / (self.n)
  + np.sqrt(self.sum_of_squares / (self.n) - self.q**2 + D_PUT)`. -/
noncomputable def nodeU (parentN n q ss : ℝ) : ℝ :=
  C_PUT * Real.sqrt (2 * Real.log parentN) / n + Real.sqrt (ss / n - q ^ 2 + D_PUT)

/-- The exploration bonus as the spec writes it, with the visit count dividing
inside the first radical: `C_PUCT·√(2·ln(parent.n)/n) + √(ss/n − q² + D)`. -/
noncomputable def specFormulaU (parentN n q ss : ℝ) : ℝ :=
  C_PUT * Real.sqrt (2 * Real.log parentN / n) + Real.sqrt (ss / n - q ^ 2 + D_PUT)

/-- A node's mutable statistics: `(q, n, sum_of_squares)`. -/
structure NodeStats where
  q : ℚ
  n : ℕ
  ss : ℚ
deriving DecidableEq, Repr

/-- The statistics `Node.__init__` sets up: `q = 0`, `n = 0`,
`sum_of_squares = self.reward.get_value()**2` where `r0` is the node's own
reward value. -/
def nodeInitStats (r0 : ℚ) : NodeStats := ⟨0, 0, r0 ^ 2⟩

/-- The statistics part of `Node.update`:
`q ← (q·n + value)/(n+1); n ← n+1; sum_of_squares ← sum_of_squares + value²`. -/
def nodeUpdate (s : NodeStats) (v : ℚ) : NodeStats :=
  ⟨(s.q * s.n + v) / (s.n + 1), s.n + 1, s.ss + v ^ 2⟩

/-- A sequence of scalar updates arriving at one node. -/
def nodeUpdates (s : NodeStats) (vs : List ℚ) : NodeStats :=
  vs.foldl nodeUpdate s

/-- The visited set `Node.rollout` starts from: `visited = set(state.hash)`,
i.e. the set of the **characters** of the hash string — in Python these are
the one-character strings occurring in `state.hash`. -/
def rolloutInitVisited (b : SokobanBoard) : List String :=
  b.hash.data.map (fun c => String.mk [c])

/-! ## Concrete boards used as witnesses and counterexamples -/

/-- Scenario S1: `"#####" / "#@$.#" / "#####"`. -/
def s1Board : SokobanBoard :=
  { level := [[Cell.wall, Cell.wall, Cell.wall, Cell.wall, Cell.wall],
              [Cell.wall, Cell.player, Cell.box, Cell.goal, Cell.wall],
              [Cell.wall, Cell.wall, Cell.wall, Cell.wall, Cell.wall]],
    player := (1, 1), steps := 0, max_steps := MAX_STEP }

/-- The board S1 reaches after its unique push. -/
def s1After : SokobanBoard :=
  { level := [[Cell.wall, Cell.wall, Cell.wall, Cell.wall, Cell.wall],
              [Cell.wall, Cell.floor, Cell.player, Cell.boxOnGoal, Cell.wall],
              [Cell.wall, Cell.wall, Cell.wall, Cell.wall, Cell.wall]],
    player := (1, 2), steps := 1, max_steps := MAX_STEP }

/-- Scenario S2: `"###" / "#*#" / "#@#" / "###"` — already solved, and also
deadlocked (no valid push). -/
def s2Board : SokobanBoard :=
  { level := [[Cell.wall, Cell.wall, Cell.wall],
              [Cell.wall, Cell.boxOnGoal, Cell.wall],
              [Cell.wall, Cell.player, Cell.wall],
              [Cell.wall, Cell.wall, Cell.wall]],
    player := (2, 1), steps := 0, max_steps := MAX_STEP }

/-- Scenario S3: `"####" / "#@ #" / "# $#" / "####"` — immediate deadlock. -/
def s3Board : SokobanBoard :=
  { level := [[Cell.wall, Cell.wall, Cell.wall, Cell.wall],
              [Cell.wall, Cell.player, Cell.floor, Cell.wall],
              [Cell.wall, Cell.floor, Cell.box, Cell.wall],
              [Cell.wall, Cell.wall, Cell.wall, Cell.wall]],
    player := (1, 1), steps := 0, max_steps := MAX_STEP }

/-- An open room: the box can be pushed right and then pushed back left,
returning to a state with the starting hash. -/
def roomBoard : SokobanBoard :=
  { level := [[Cell.wall, Cell.wall, Cell.wall, Cell.wall, Cell.wall, Cell.wall],
              [Cell.wall, Cell.floor, Cell.floor, Cell.floor, Cell.floor, Cell.wall],
              [Cell.wall, Cell.floor, Cell.box, Cell.floor, Cell.floor, Cell.wall],
              [Cell.wall, Cell.player, Cell.floor, Cell.floor, Cell.floor, Cell.wall],
              [Cell.wall, Cell.wall, Cell.wall, Cell.wall, Cell.wall, Cell.wall]],
    player := (3, 1), steps := 0, max_steps := MAX_STEP }

/-- `roomBoard` after pushing the box right and then back left: the same box
position and the same interior, hence the same hash, as `roomBoard`. -/
def roomBoardBack : Option SokobanBoard :=
  (roomBoard.move (2, 1, 0, 1)).bind (fun b1 => b1.move (2, 4, 0, -1))


/-! ## The MCTS tree (`agent/MCTS.py`)

The mutable object graph of `Node`/`MCTS` is embedded as a store of node
records indexed by `NodeId`.  Python exceptions are `Except PyErr`; the
`random.choice` sites and the float score comparison of `select_child` are
determinised as explicit oracle parameters (the spec mandates exposing the
random choice sites as parameters).  Reward values are integers, so every
branch the search takes is decidable; the float statistics `q` and
`sum_of_squares` are carried as rationals and never branched on.  -/

/-- Python exceptions distinguished by the embedding. -/
inductive PyErr where
  | keyError
  | assertionError
  | other
deriving DecidableEq, Repr

abbrev NodeId := Nat

/-- The fields of `Node` (children as an association list move → node). -/
structure NodeData where
  depth : Nat
  move : Option Move
  state : SokobanBoard
  parent : Option NodeId
  children : List (Move × NodeId)
  q : ℚ
  n : Nat
  reward : Reward
  max_value : Reward
  sum_of_squares : ℚ

/-- The `MCTS` object: node store plus the hash registry and deletion set. -/
structure MCTSState where
  store : List (NodeId × NodeData)
  nextId : NodeId
  root : NodeId
  nodes : List (String × NodeId)
  del_nodes : List String

/-- Store lookup (attribute access on a live object; always succeeds on the
ids the search handles). -/
def getNode (s : MCTSState) (id : NodeId) : Option NodeData :=
  (s.store.find? (fun kv => kv.1 = id)).map Prod.snd

/-- Store update. -/
def setNode (s : MCTSState) (id : NodeId) (nd : NodeData) : MCTSState :=
  { s with store := s.store.map (fun kv => if kv.1 = id then (id, nd) else kv) }

/-- Python dict assignment `d[k] = v`. -/
def dictSet (l : List (String × NodeId)) (k : String) (v : NodeId) :
    List (String × NodeId) :=
  (l.filter (fun kv => kv.1 ≠ k)) ++ [(k, v)]

/-- Python `del d[k]`: `none` models the `KeyError` on a missing key. -/
def dictDel (l : List (String × NodeId)) (k : String) :
    Option (List (String × NodeId)) :=
  if l.any (fun kv => kv.1 = k) then some (l.filter (fun kv => kv.1 ≠ k)) else none

/-- Python `set.add`. -/
def setAdd (l : List String) (h : String) : List String :=
  if h ∈ l then l else l ++ [h]

/-- `Node.__init__`: build a node record (computing the state's reward, which
may raise). -/
def mkNode (mc : SokobanBoard → ℤ) (parent : Option NodeId) (state : SokobanBoard)
    (move : Option Move) (depth : Nat) : Option NodeData := do
  let r ← state.reward mc
  pure { depth := depth, move := move, state := state, parent := parent,
         children := [], q := 0, n := 0, reward := r, max_value := r,
         sum_of_squares := ((r.value : ℚ)) ^ 2 }

/-- `MCTS.__init__`. -/
def mkMCTS (mc : SokobanBoard → ℤ) (b : SokobanBoard) : Option MCTSState := do
  let root ← mkNode mc none b none 0
  pure { store := [(0, root)], nextId := 1, root := 0,
         nodes := [(b.hash, 0)], del_nodes := [] }

/-- `Node.should_remove`: no children left and no WIN in the subtree. -/
def shouldRemove (nd : NodeData) : Prop :=
  nd.children.length = 0 ∧ nd.max_value.rtype ≠ RType.WIN

instance (nd : NodeData) : Decidable (shouldRemove nd) := by
  unfold shouldRemove; infer_instance

/-- `Node.update`: refresh the statistics and recurse to the parent.  The
recursion is fuelled; any fuel above the node's depth suffices. -/
def treeUpdate : Nat → MCTSState → NodeId → ℚ → Reward → Option MCTSState
  | 0, _, _, _, _ => none
  | fuel + 1, s, id, v, mv => do
      let nd ← getNode s id
      let nd' := { nd with
        q := (nd.q * nd.n + v) / (nd.n + 1),
        n := nd.n + 1,
        sum_of_squares := nd.sum_of_squares + v ^ 2,
        max_value := if nd.max_value.value < mv.value then mv else nd.max_value }
      let s' := setNode s id nd'
      match nd.parent with
      | none => pure s'
      | some p => treeUpdate fuel s' p v mv

/-- `Node.remove`: register the hash as deleted, drop it from the live index
(`KeyError` if it is already gone), unlink from the parent and cascade.  The
Python test `parent in mcts.del_nodes` compares a `Node` against a set of
strings and is therefore always false; the embedded condition keeps only
`parent.should_remove()`. -/
def treeRemove : Nat → MCTSState → NodeId → Except PyErr MCTSState
  | 0, _, _ => .error .other
  | fuel + 1, s, id =>
      match getNode s id with
      | none => .error .other
      | some nd =>
          match dictDel s.nodes nd.state.hash with
          | none => .error .keyError
          | some nodes' =>
              if nd.children.length = 0 then
                match nd.parent with
                | none =>
                    .ok { s with
                          nodes := nodes',
                          del_nodes := setAdd s.del_nodes nd.state.hash }
                | some pid =>
                    match getNode s pid, nd.move with
                    | none, _ => .error .other
                    | some _, none => .error .keyError
                    | some pd, some mv =>
                        if pd.children.any (fun c => c.1 = mv) then
                          if shouldRemove { pd with
                              children := pd.children.filter (fun c => c.1 ≠ mv) } then
                            treeRemove fuel
                              (setNode
                                { s with
                                  nodes := nodes',
                                  del_nodes := setAdd s.del_nodes nd.state.hash }
                                pid
                                { pd with
                                  children := pd.children.filter (fun c => c.1 ≠ mv) })
                              pid
                          else
                            .ok (setNode
                              { s with
                                nodes := nodes',
                                del_nodes := setAdd s.del_nodes nd.state.hash }
                              pid
                              { pd with
                                children := pd.children.filter (fun c => c.1 ≠ mv) })
                        else .error .keyError
              else .error .assertionError

/-- Pass 1 of `Node.expand_node`: add a child for every push whose successor
hash is registered in neither `nodes` nor `del_nodes`; returns the updated
state and the number of children added. -/
def expandAdd (mc : SokobanBoard → ℤ) (id : NodeId) :
    List Move → MCTSState → Nat → Except PyErr (MCTSState × Nat)
  | [], s, added => .ok (s, added)
  | mv :: rest, s, added =>
      match getNode s id with
      | none => .error .other
      | some nd =>
          match nd.state.move mv with
          | none => .error .assertionError
          | some newState =>
              if newState.hash ∈ s.del_nodes ∨
                  s.nodes.any (fun kv => kv.1 = newState.hash) then
                expandAdd mc id rest s added
              else
                match mkNode mc (some id) newState (some mv) (nd.depth + 1) with
                | none => .error .other
                | some child =>
                    expandAdd mc id rest
                      (setNode
                        { s with
                          store := s.store ++ [(s.nextId, child)],
                          nextId := s.nextId + 1,
                          nodes := dictSet s.nodes newState.hash s.nextId }
                        id
                        { nd with children := nd.children ++ [(mv, s.nextId)] })
                      (added + 1)

/-- Pass 2 of `Node.expand_node`: remove the children that classify `LOSS`.
The Python test `self.children[move] in mcts.del_nodes` compares a `Node`
against strings and is always false, so only the `LOSS` test remains. -/
def expandPrune (id : NodeId) :
    List Move → MCTSState → Except PyErr MCTSState
  | [], s => .ok s
  | mv :: rest, s =>
      match getNode s id with
      | none => .error .other
      | some nd =>
          match nd.children.find? (fun c => c.1 = mv) with
          | none => expandPrune id rest s
          | some c =>
              match getNode s c.2 with
              | none => .error .other
              | some cd =>
                  if cd.reward.rtype = RType.LOSS then
                    if shouldRemove cd then
                      match treeRemove (s.store.length + 1) s c.2 with
                      | .error e => .error e
                      | .ok s' => expandPrune id rest s'
                    else .error .assertionError
                  else expandPrune id rest s

/-- `Node.expand_node`.  The final Python assertion
`self.should_remove() and (not self in mcts.del_nodes)` has an always-true
second conjunct (a `Node` is never a member of a set of strings), so only
`should_remove` is checked. -/
def expandNode (mc : SokobanBoard → ℤ) (s : MCTSState) (id : NodeId)
    (valid_moves : List Move) : Except PyErr MCTSState := do
  let (s1, added) ← expandAdd mc id valid_moves s 0
  let s2 ← expandPrune id valid_moves s1
  if added = 0 then
    match getNode s2 id with
    | none => .error .other
    | some nd =>
        if shouldRemove nd then treeRemove (s2.store.length + 1) s2 id
        else .error .assertionError
  else .ok s2

/-- `Node.select_child`, determinised: `choice` stands for `random.choice`
over the unvisited children, `pickBest` for the float-score argmax with its
random tie-break.  Structurally: `none` exactly when there are no children. -/
def selectChild (choice pickBest : List NodeId → NodeId) (s : MCTSState)
    (id : NodeId) : Option NodeId := do
  let nd ← getNode s id
  if nd.children.length = 0 then none
  else
    let unvisited := (nd.children.map Prod.snd).filter (fun cid =>
      match getNode s cid with
      | some cd => cd.n = 0
      | none => false)
    if unvisited.length > 0 then some (choice unvisited)
    else some (pickBest (nd.children.map Prod.snd))

/-- `MCTS.select_leaf`: descend while the node has children and is a `STEP`
node; if `select_child` ever yields `None`, break and return `None`.  The
outer `none` is fuel exhaustion (never reached from a real tree); the inner
option is the Python result. -/
def selectLeaf (choice pickBest : List NodeId → NodeId) :
    Nat → MCTSState → NodeId → Option (Option NodeId)
  | 0, _, _ => none
  | fuel + 1, s, id => do
      let nd ← getNode s id
      if nd.children.length ≠ 0 ∧ nd.reward.rtype = RType.STEP then
        match selectChild choice pickBest s id with
        | none => some none
        | some next => selectLeaf choice pickBest fuel s next
      else some (some id)

/-- `Node.select_move`, determinised: among the children whose `max_value`
attains the maximum, `pickMove` stands for the random tie-break. -/
def selectMove (pickMove : List (Move × NodeId) → Move × NodeId) (s : MCTSState)
    (id : NodeId) : Option (Option Move) := do
  let nd ← getNode s id
  if nd.children.length = 0 then some none
  else do
    let vals ← nd.children.mapM (fun c =>
      (getNode s c.2).map (fun cd => (c, cd.max_value.value)))
    let best ← (vals.map Prod.snd).max?
    let bestChildren := (vals.filter (fun cv => cv.2 = best)).map Prod.fst
    some (some (pickMove bestChildren).1)


/-- The scan over one dequeued state's pushes in `Node.rollout`: return the
first `WIN` reward immediately; enqueue fresh `STEP` successors, tracking the
visited hashes and the running best reward. -/
def rolloutScan (mc : SokobanBoard → ℤ) (st : SokobanBoard) (depth : Nat) :
    List Move → List String → Reward → List (SokobanBoard × Nat) →
      Option (Reward ⊕ (List String × Reward × List (SokobanBoard × Nat)))
  | [], visited, maxr, queue => some (Sum.inr (visited, maxr, queue))
  | mv :: rest, visited, maxr, queue => do
      let newState ← st.move mv
      let r ← newState.reward mc
      if r.rtype = RType.WIN then some (Sum.inl r)
      else
        if r.rtype = RType.STEP ∧ newState.hash ∉ visited then
          rolloutScan mc st depth rest (visited ++ [newState.hash])
            (if maxr.value < r.value then r else maxr)
            (queue ++ [(newState, depth + 1)])
        else
          rolloutScan mc st depth rest visited maxr queue

/-- The BFS loop of `Node.rollout` (fuelled; dequeue order is FIFO, and the
loop breaks when a state of depth `LOOKAHEAD` is dequeued). -/
def rolloutLoop (mc : SokobanBoard → ℤ) :
    Nat → List (SokobanBoard × Nat) → List String → Reward → Option Reward
  | 0, _, _, _ => none
  | _ + 1, [], _, maxr => some maxr
  | fuel + 1, (st, depth) :: rest, visited, maxr =>
      if depth = LOOKAHEAD then some maxr
      else do
        let moves ← st.valid_moves
        match ← rolloutScan mc st depth moves visited maxr rest with
        | Sum.inl win => some win
        | Sum.inr (visited', maxr', queue') => rolloutLoop mc fuel queue' visited' maxr'

/-- `Node.rollout` on the node's board: copy the state, initialise the
visited set with `set(state.hash)` (the characters of the hash) and the best
reward with the state's own reward, then run the bounded BFS. -/
def nodeRollout (mc : SokobanBoard → ℤ) (fuel : Nat) (b : SokobanBoard) :
    Option Reward := do
  let st := b.copy
  let maxr ← st.reward mc
  rolloutLoop mc fuel [(st, 0)] (rolloutInitVisited st) maxr

/-- `MCTS.find`: breadth-first search for a WIN state, collecting the pushes
(the fallback used by the solution extraction).  Fuelled like the rollout. -/
def mctsFind (mc : SokobanBoard → ℤ) :
    Nat → List (SokobanBoard × List Move) → List String → Option (List Move)
  | 0, _, _ => none
  | _ + 1, [], _ => some []
  | fuel + 1, (st, moves) :: rest, visited => do
      let r ← st.reward mc
      if r.rtype = RType.WIN then some moves
      else do
        let vm ← st.valid_moves
        let next ← vm.foldlM (fun (acc : List (SokobanBoard × List Move) × List String) mv => do
          let newState ← st.move mv
          if newState.hash ∉ acc.2 then
            pure (acc.1 ++ [(newState, moves ++ [mv])], acc.2 ++ [newState.hash])
          else pure acc) (rest, visited)
        mctsFind mc fuel next.1 next.2

/-- The solution-extraction walk of `MCTS.run`: follow `select_move` from the
root until a childless node, collecting the moves. -/
def extractWalk (pickMove : List (Move × NodeId) → Move × NodeId) (s : MCTSState) :
    Nat → NodeId → List Move → Option (List Move × NodeId)
  | 0, _, _ => none
  | fuel + 1, id, acc => do
      let nd ← getNode s id
      if nd.children.length = 0 then some (acc, id)
      else do
        let mv ← selectMove pickMove s id
        match mv with
        | none => none
        | some m =>
            match nd.children.find? (fun c => c.1 = m) with
            | none => none
            | some c => extractWalk pickMove s fuel c.2 (acc ++ [m])

/-- One iteration of the `MCTS.run` loop (selection, rollout or expansion,
backpropagation).  Returns the updated state, or `Sum.inl none` when the
selection phase yielded `None` (then `run` returns `None`). -/
def runIter (mc : SokobanBoard → ℤ) (choice pickBest : List NodeId → NodeId)
    (s : MCTSState) : Except PyErr (MCTSState ⊕ Unit) :=
  match selectLeaf choice pickBest (s.store.length + 1) s s.root with
  | none => .error .other
  | some none => .ok (Sum.inr ())
  | some (some id) =>
      match getNode s id with
      | none => .error .other
      | some nd =>
          if nd.n = 0 then
            match nodeRollout mc 100000 nd.state with
            | none => .error .other
            | some r =>
                match treeUpdate (nd.depth + 1) s id ((r.value : ℚ)) r with
                | none => .error .other
                | some s' => .ok (Sum.inl s')
          else
            match nd.state.valid_moves with
            | none => .error .other
            | some vm =>
                match expandNode mc s id vm with
                | .error e => .error e
                | .ok s1 =>
                    match getNode s1 id with
                    | none => .error .other
                    | some nd1 =>
                        if nd1.children.length ≠ 0 then
                          match getNode s1 (choice (nd1.children.map Prod.snd)) with
                          | none => .error .other
                          | some cd =>
                              match nodeRollout mc 100000 cd.state with
                              | none => .error .other
                              | some r =>
                                  match treeUpdate (cd.depth + 1) s1
                                      (choice (nd1.children.map Prod.snd))
                                      ((r.value : ℚ)) r with
                                  | none => .error .other
                                  | some s' => .ok (Sum.inl s')
                        else .ok (Sum.inl s1)

/-- The `for i in range(simulations)` loop of `MCTS.run`, including the debug
trap `assert 0` at `i == 2000` and the early exit once the root's `max_value`
kind is `WIN`.  Returns the final state, plus `none` when the selection phase
yielded `None` (then `run` returns `None`). -/
def runLoop (mc : SokobanBoard → ℤ) (choice pickBest : List NodeId → NodeId) :
    Nat → Nat → MCTSState → Except PyErr (Option MCTSState)
  | 0, _, s => .ok (some s)
  | remaining + 1, i, s =>
      if i = 2000 then .error .assertionError
      else
        match runIter mc choice pickBest s with
        | .error e => .error e
        | .ok (Sum.inr ()) => .ok none
        | .ok (Sum.inl s') =>
            match getNode s' s'.root with
            | none => .error .other
            | some rootNd =>
                if rootNd.max_value.rtype = RType.WIN then .ok (some s')
                else runLoop mc choice pickBest remaining (i + 1) s'

/-- `MCTS.run`: the simulation loop followed by solution extraction.
`none` is Python's `None` result. -/
def runMCTS (mc : SokobanBoard → ℤ) (choice pickBest : List NodeId → NodeId)
    (pickMove : List (Move × NodeId) → Move × NodeId) (simulations : Nat)
    (s : MCTSState) : Except PyErr (Option (List Move)) :=
  match runLoop mc choice pickBest simulations 0 s with
  | .error e => .error e
  | .ok none => .ok none
  | .ok (some s') =>
      match getNode s' s'.root with
      | none => .error .other
      | some rootNd =>
          if rootNd.max_value.rtype = RType.WIN then
            match extractWalk pickMove s' (s'.store.length + 1) s'.root [] with
            | none => .error .other
            | some (moves, lastId) =>
                match getNode s' lastId with
                | none => .error .other
                | some lastNd =>
                    match lastNd.state.reward mc with
                    | none => .error .other
                    | some r =>
                        if r.rtype ≠ RType.WIN then
                          match mctsFind mc 100000 [(lastNd.state, [])]
                              (rolloutInitVisited lastNd.state) with
                          | none => .error .other
                          | some tail => .ok (some (moves ++ tail))
                        else .ok (some moves)
          else
            match selectMove pickMove s' s'.root with
            | none => .error .other
            | some none => .ok (some [])
            | some (some m) => .ok (some [m])


/-- The registry invariant of C10: no hash is simultaneously a key of the
live index `nodes` and a member of `del_nodes`. -/
def registryDisjoint (s : MCTSState) : Prop :=
  ∀ kv ∈ s.nodes, kv.1 ∉ s.del_nodes


/-- Apply a list of pushes in sequence. -/
def applyMoves (b : SokobanBoard) : List Move → Option SokobanBoard
  | [] => some b
  | m :: rest => (b.move m).bind (fun b2 => applyMoves b2 rest)

/-- A winning push path: each push is valid for the board it is applied to,
the final board classifies `WIN`, and every intermediate board classifies
`STEP`. -/
def stepWinPath (mc : SokobanBoard → ℤ) : SokobanBoard → List Move → Prop
  | _, [] => False
  | b, m :: ms =>
      ∃ vms b2, b.valid_moves = some vms ∧ m ∈ vms ∧ b.move m = some b2 ∧
        (match ms with
         | [] => (b2.reward mc).map Reward.rtype = some RType.WIN
         | _ :: _ =>
             (b2.reward mc).map Reward.rtype = some RType.STEP ∧
               stepWinPath mc b2 ms)

/-- A rectangular grid with at least one row and one column. -/
def rectGrid (g : Grid) : Prop :=
  0 < g.length ∧ 0 < (g.head?.map List.length).getD 0 ∧
    ∀ row ∈ g, row.length = (g.head?.map List.length).getD 0

/-- Every cell on the outer border is a wall. -/
def borderedGrid (g : Grid) : Prop :=
  ∀ (i j : Nat) (row : List Cell) (c : Cell), g[i]? = some row → row[j]? = some c →
    (i = 0 ∨ i = g.length - 1 ∨ j = 0 ∨ j = row.length - 1) → c = Cell.wall

/-- The board invariants of §3: rectangular wall-bordered level, exactly one
player cell, and `b.player` is that cell. -/
def wfBoard (b : SokobanBoard) : Prop :=
  rectGrid b.level ∧ borderedGrid b.level ∧
    (npGet b.level b.player.1 b.player.2 = some Cell.player ∨
     npGet b.level b.player.1 b.player.2 = some Cell.playerOnGoal) ∧
    SokobanBoard.playerCount b.level = 1

/-- Two grids share their static structure: same shape, and walls and goal
underlays at the same cells. -/
def sameStruct (g1 g2 : Grid) : Prop :=
  g1.length = g2.length ∧
  (∀ i : Nat, ((g1[i]?).map List.length) = ((g2[i]?).map List.length)) ∧
  (∀ x y c1 c2, npGet g1 x y = some c1 → npGet g2 x y = some c2 →
    ((c1 = Cell.wall ↔ c2 = Cell.wall) ∧
     ((c1 = Cell.goal ∨ c1 = Cell.boxOnGoal ∨ c1 = Cell.playerOnGoal) ↔
      (c2 = Cell.goal ∨ c2 = Cell.boxOnGoal ∨ c2 = Cell.playerOnGoal))))

/-- A winning push path in the claim's plain sense: each push is valid for the
board it is applied to and the final board classifies `WIN` — nothing is
required of the intermediate boards' kinds. -/
def winPath (mc : SokobanBoard → ℤ) : SokobanBoard → List Move → Prop
  | _, [] => False
  | b, m :: ms =>
      ∃ vms b2, b.valid_moves = some vms ∧ m ∈ vms ∧ b.move m = some b2 ∧
        (match ms with
         | [] => (b2.reward mc).map Reward.rtype = some RType.WIN
         | _ :: _ => winPath mc b2 ms)

/-- The board used to refute C7: the win sits two pushes away, but the step
counter already stands at the budget, so the intermediate position after one
push classifies `LOSS` and is not enqueued. -/
def c7Board : SokobanBoard :=
  { level := [[Cell.wall, Cell.wall, Cell.wall, Cell.wall, Cell.wall, Cell.wall],
              [Cell.wall, Cell.player, Cell.box, Cell.floor, Cell.goal, Cell.wall],
              [Cell.wall, Cell.wall, Cell.wall, Cell.wall, Cell.wall, Cell.wall]],
    player := (1, 1), steps := MAX_STEP, max_steps := MAX_STEP }

/-- The board after `c7Board`'s first push: over the step budget, so `LOSS`. -/
def c7Mid : SokobanBoard :=
  { level := [[Cell.wall, Cell.wall, Cell.wall, Cell.wall, Cell.wall, Cell.wall],
              [Cell.wall, Cell.floor, Cell.player, Cell.box, Cell.goal, Cell.wall],
              [Cell.wall, Cell.wall, Cell.wall, Cell.wall, Cell.wall, Cell.wall]],
    player := (1, 2), steps := MAX_STEP + 1, max_steps := MAX_STEP }

/-- The board after `c7Board`'s two pushes: the box sits on the goal, `WIN`. -/
def c7Win : SokobanBoard :=
  { level := [[Cell.wall, Cell.wall, Cell.wall, Cell.wall, Cell.wall, Cell.wall],
              [Cell.wall, Cell.floor, Cell.floor, Cell.player, Cell.boxOnGoal, Cell.wall],
              [Cell.wall, Cell.wall, Cell.wall, Cell.wall, Cell.wall, Cell.wall]],
    player := (1, 3), steps := MAX_STEP + 2, max_steps := MAX_STEP }

/-! ## Cell classes and decidability of the board invariants -/

/-- The cell holds a box (`BOX` or `BOX_ON_GOAL`). -/
def boxLike (c : Cell) : Prop := c = Cell.box ∨ c = Cell.boxOnGoal

instance (c : Cell) : Decidable (boxLike c) := by unfold boxLike; infer_instance

/-- The cell holds the player (`PLAYER` or `PLAYER_ON_GOAL`). -/
def playerLike (c : Cell) : Prop := c = Cell.player ∨ c = Cell.playerOnGoal

instance (c : Cell) : Decidable (playerLike c) := by unfold playerLike; infer_instance

/-- The cell sits on a goal square (`GOAL`, `BOX_ON_GOAL` or `PLAYER_ON_GOAL`). -/
def goalUnder (c : Cell) : Prop :=
  c = Cell.goal ∨ c = Cell.boxOnGoal ∨ c = Cell.playerOnGoal

instance (c : Cell) : Decidable (goalUnder c) := by unfold goalUnder; infer_instance

instance (g : Grid) : Decidable (rectGrid g) := by unfold rectGrid; infer_instance

instance (g : Grid) : Decidable (borderedGrid g) :=
  decidable_of_iff
    (∀ ir ∈ g.enum, ∀ jc ∈ ir.2.enum,
      (ir.1 = 0 ∨ ir.1 = g.length - 1 ∨ jc.1 = 0 ∨ jc.1 = ir.2.length - 1) →
      jc.2 = Cell.wall) <| by
  constructor
  · intro hb i j row c hrow hc hcond
    exact hb (i, row) (List.mem_enum_iff_getElem?.mpr hrow)
      (j, c) (List.mem_enum_iff_getElem?.mpr hc) hcond
  · intro hb ir hir jc hjc hcond
    exact hb ir.1 jc.1 ir.2 jc.2 (List.mem_enum_iff_getElem?.mp (by exact hir))
      (List.mem_enum_iff_getElem?.mp (by exact hjc)) hcond

instance (b : SokobanBoard) : Decidable (wfBoard b) := by unfold wfBoard; infer_instance

/-! ## Invariants of the rollout BFS -/

/-- A board sitting in the rollout frontier at depth `dep`: well-formed, same
static structure as the seed `s0`, step counter advanced by exactly `dep`,
default budget. -/
def boardInv (s0 s : SokobanBoard) (dep : Nat) : Prop :=
  wfBoard s ∧ sameStruct s0.level s.level ∧ s.steps = s0.steps + dep ∧
    s.max_steps = MAX_STEP

/-- BFS queue depths are non-decreasing and span at most two levels. -/
def depthOrdered (queue : List (SokobanBoard × Nat)) : Prop :=
  List.Pairwise (fun a b : SokobanBoard × Nat => a.2 ≤ b.2 ∧ b.2 ≤ a.2 + 1) queue

/-- Every visited entry is an initial one-character string or the hash of a
state that was enqueued (and now sits in the processed list `P` or the queue). -/
def visitedInv (P queue : List (SokobanBoard × Nat)) (visited : List String) : Prop :=
  ∀ s ∈ visited, s.length = 1 ∨ ∃ ud ∈ P ++ queue, (ud : SokobanBoard × Nat).1.hash = s

/-- Closure of the processed states: no successor classifies `WIN` (else the
scan would have returned), and every `STEP` successor has a registered twin of
bounded depth sharing its hash. -/
def procInv (mc : SokobanBoard → ℤ) (P queue : List (SokobanBoard × Nat)) : Prop :=
  ∀ te ∈ P, ∃ vms, (te : SokobanBoard × Nat).1.valid_moves = some vms ∧
    ∀ m ∈ vms, ∃ s', te.1.move m = some s' ∧
      (s'.reward mc).map Reward.rtype ≠ some RType.WIN ∧
      ((s'.reward mc).map Reward.rtype = some RType.STEP →
        ∃ ud ∈ P ++ queue, (ud : SokobanBoard × Nat).1.hash = s'.hash ∧ ud.2 ≤ te.2 + 1)

/-- The full loop invariant of `Node.rollout`'s BFS. -/
def rolloutInv (mc : SokobanBoard → ℤ) (s0 : SokobanBoard)
    (P queue : List (SokobanBoard × Nat)) (visited : List String) : Prop :=
  (∀ sd ∈ P ++ queue, boardInv s0 (sd : SokobanBoard × Nat).1 sd.2) ∧
  depthOrdered queue ∧
  (∀ te ∈ P, ∀ sd ∈ queue, (te : SokobanBoard × Nat).2 ≤ (sd : SokobanBoard × Nat).2) ∧
  visitedInv P queue visited ∧
  procInv mc P queue

/-- Some registered state still carries a `STEP`-intermediate winning path
fitting inside the depth budget. -/
def goodInv (mc : SokobanBoard → ℤ) (l : List (SokobanBoard × Nat)) : Prop :=
  ∃ gd ∈ l, ∃ ms : List Move, stepWinPath mc (gd : SokobanBoard × Nat).1 ms ∧
    gd.2 + ms.length ≤ LOOKAHEAD

/-! ## C2 — the exploration bonus formula -/

/-- C2, counterexample: at `parent.n = 3`, `n = 2`, `q = 0`, `sum_of_squares
= 0`, the code's exploration bonus differs from the spec's formula (the code
divides by `n` outside the first radical, the claim puts it inside). -/
theorem c2_u_formula_counterexample : nodeU 3 2 0 0 ≠ specFormulaU 3 2 0 0 := by
  unfold nodeU specFormulaU C_PUT D_PUT
  intro h
  have hl : (0:ℝ) < Real.log 3 := Real.log_pos (by norm_num)
  have h2 : (32:ℝ) * Real.sqrt (2 * Real.log 3) / 2 = 32 * Real.sqrt (2 * Real.log 3 / 2) :=
    add_right_cancel h
  have hhalf : 2 * Real.log 3 / 2 = Real.log 3 := by ring
  rw [hhalf] at h2
  have hsq := congrArg (fun x : ℝ => x ^ 2) h2
  simp only [div_pow, mul_pow, Real.sq_sqrt (by positivity : (0:ℝ) ≤ 2 * Real.log 3),
    Real.sq_sqrt (le_of_lt hl)] at hsq
  nlinarith [hsq, hl]

/-- C2, amended: for every non-root node the exploration bonus is
`u = C_PUCT·√(2·ln(parent.n)) / n + √(sum_of_squares/n − q² + D)` with
`C_PUCT = 32`, `D = 8` — the visit count `n` divides **outside** the first
square root. -/
theorem c2_u_formula_amended (parentN n q ss : ℝ) :
    nodeU parentN n q ss =
      32 * Real.sqrt (2 * Real.log parentN) * (1 / n) +
        Real.sqrt (ss / n - q ^ 2 + 8) := by
  unfold nodeU C_PUT D_PUT
  ring

/-! ## C3 — reward classification -/

/-- C3, counterexample: the already-solved board S2 is deadlocked (it has no
valid push), yet its reward kind is `WIN`, not `LOSS`; so "`LOSS` iff
deadlocked or over the step budget" fails as a biconditional. -/
theorem c3_loss_iff_counterexample :
    ¬ (((s2Board.reward min_cost_matching).map Reward.rtype = some RType.LOSS) ↔
       (s2Board.check_deadlock = some true ∨ s2Board.steps > s2Board.max_steps)) := by
  decide

/-- C3, amended: `reward` classifies `WIN` iff no `BOX` cell remains; `LOSS`
iff some `BOX` cell remains **and** (deadlocked or over the step budget);
`STEP` otherwise.  (The `WIN` test comes first, so a deadlocked or over-budget
solved board is `WIN`.) -/
theorem c3_reward_classification (mc : SokobanBoard → ℤ) (b : SokobanBoard) (dl : Bool)
    (h : b.check_deadlock = some dl) :
    ∃ r : Reward, b.reward mc = some r ∧
      (r.rtype = RType.WIN ↔ findElements b.level [Cell.box] = []) ∧
      (r.rtype = RType.LOSS ↔
        findElements b.level [Cell.box] ≠ [] ∧ (dl = true ∨ b.steps > b.max_steps)) ∧
      (r.rtype = RType.STEP ↔
        findElements b.level [Cell.box] ≠ [] ∧ ¬(dl = true ∨ b.steps > b.max_steps)) := by
  unfold SokobanBoard.reward
  by_cases hw : (findElements b.level [Cell.box]).length = 0
  · refine ⟨⟨-mc b, RType.WIN⟩, ?_, ?_, ?_, ?_⟩ <;>
      simp_all [List.length_eq_zero]
  · rw [List.length_eq_zero] at hw
    by_cases hl : dl = true ∨ b.steps > b.max_steps
    · refine ⟨⟨-mc b, RType.LOSS⟩, ?_, ?_, ?_, ?_⟩ <;>
        simp_all [List.length_eq_zero, Option.bind_eq_bind]
    · refine ⟨⟨-mc b, RType.STEP⟩, ?_, ?_, ?_, ?_⟩ <;>
        simp_all [List.length_eq_zero, Option.bind_eq_bind]

/-- C3, witness: the amended classification applied to the S1 board, which is
not deadlocked and classifies `STEP`. -/
theorem c3_reward_classification_witness :
    ∃ r : Reward, s1Board.reward min_cost_matching = some r ∧
      (r.rtype = RType.WIN ↔ findElements s1Board.level [Cell.box] = []) ∧
      (r.rtype = RType.LOSS ↔
        findElements s1Board.level [Cell.box] ≠ [] ∧
          (false = true ∨ s1Board.steps > s1Board.max_steps)) ∧
      (r.rtype = RType.STEP ↔
        findElements s1Board.level [Cell.box] ≠ [] ∧
          ¬(false = true ∨ s1Board.steps > s1Board.max_steps)) :=
  c3_reward_classification min_cost_matching s1Board false (by decide)

/-! ## C4 — the rollout visited set -/

/-- C4, counterexample: `visited = set(state.hash)` is the set of the
**characters** of the hash string, so the starting hash itself is not a
member; pushing the box of `roomBoard` right and then back left is a valid
two-push sequence reaching a state whose hash equals the starting hash, and
that hash fails the `not in visited` skip test. -/
theorem c4_visited_counterexample :
    roomBoard.hash ∉ rolloutInitVisited roomBoard ∧
    (2, 1, 0, 1) ∈ (roomBoard.valid_moves.getD []) ∧
    (2, 4, 0, -1) ∈ (((roomBoard.move (2, 1, 0, 1)).bind SokobanBoard.valid_moves).getD []) ∧
    roomBoardBack.map SokobanBoard.hash = some roomBoard.hash := by
  decide

/-- C4, amended: at the start of `rollout`, the visited set holds exactly the
one-character strings of the starting board's hash; the full hash is never
one of them, so a successor whose hash equals the starting hash is **not**
skipped by the `not in visited` test on the initial visited set. -/
theorem c4_visited_amended (b : SokobanBoard) :
    rolloutInitVisited b = b.hash.data.map (fun c => String.mk [c]) ∧
    b.hash ∉ rolloutInitVisited b := by
  refine ⟨rfl, ?_⟩
  intro hmem
  simp only [rolloutInitVisited, List.mem_map] at hmem
  obtain ⟨c, -, hc⟩ := hmem
  have hdata : b.hash.data = [c] := by rw [← hc]
  have hlen : b.hash.data.length = 1 := by rw [hdata]; rfl
  have : b.hash.data.length =
      (pairListRepr b.interior).length + (pairListRepr b.box_positions).length := by
    simp [SokobanBoard.hash, String.length]
  simp [pairListRepr, this] at hlen
  omega

/-! ## C5 — the backpropagation laws at a node -/

/-- C5, counterexample: the node for the S1 board has reward value `-1`, so
`sum_of_squares` starts at `(-1)² = 1`; after a single update with value `2`
it equals `5`, not `2² = 4` — `sum_of_squares` is not the sum of the squared
update values alone. -/
theorem c5_sum_of_squares_counterexample :
    (nodeUpdates
      (nodeInitStats ((((s1Board.reward min_cost_matching).map Reward.value).getD 0 : ℤ) : ℚ))
      [2]).ss ≠ (2:ℚ) ^ 2 := by
  have h : ((s1Board.reward min_cost_matching).map Reward.value).getD 0 = -1 := by decide
  rw [h]
  simp only [nodeUpdates, nodeUpdate, nodeInitStats, List.foldl_cons, List.foldl_nil]
  norm_num

/-- Unfolding one update. -/
theorem nodeUpdates_cons (s : NodeStats) (v : ℚ) (rest : List ℚ) :
    nodeUpdates s (v :: rest) = nodeUpdates (nodeUpdate s v) rest := rfl

/-- Running invariant of `nodeUpdate` from an arbitrary starting state. -/
theorem nodeUpdatesInvariant (s : NodeStats) (vs : List ℚ) :
    (nodeUpdates s vs).n = s.n + vs.length ∧
    (nodeUpdates s vs).ss = s.ss + (vs.map (fun v => v ^ 2)).sum ∧
    (nodeUpdates s vs).q * ((s.n : ℚ) + vs.length) = s.q * s.n + vs.sum := by
  induction vs generalizing s with
  | nil => simp [nodeUpdates]
  | cons v rest ih =>
      obtain ⟨hn, hss, hq⟩ := ih (nodeUpdate s v)
      rw [nodeUpdates_cons]
      refine ⟨?_, ?_, ?_⟩
      · rw [hn]; simp [nodeUpdate]; omega
      · rw [hss]; simp [nodeUpdate]; ring
      · have hne : ((s.n : ℚ) + 1) ≠ 0 := by positivity
        have hcast : (((nodeUpdate s v).n : ℚ) + rest.length) =
            ((s.n : ℚ) + (v :: rest).length) := by
          simp [nodeUpdate]; ring
        rw [hcast] at hq
        rw [hq]
        have hqn : (nodeUpdate s v).q * ((nodeUpdate s v).n : ℚ) = s.q * s.n + v := by
          simp only [nodeUpdate, Nat.cast_add, Nat.cast_one]
          rw [div_mul_cancel₀ _ hne]
        rw [hqn]
        simp
        ring

/-- C5, amended: a node created with `n = 0` and own reward value `r0` that
receives updates `v1..vk` ends with `n = k`, `q = (v1 + ... + vk)/k`, and
`sum_of_squares = r0² + v1² + ... + vk²` (the initial value is the node's own
squared reward, not zero). -/
theorem c5_backprop_laws (r0 : ℚ) (vs : List ℚ) (hne : vs ≠ []) :
    (nodeUpdates (nodeInitStats r0) vs).n = vs.length ∧
    (nodeUpdates (nodeInitStats r0) vs).q = vs.sum / vs.length ∧
    (nodeUpdates (nodeInitStats r0) vs).ss = r0 ^ 2 + (vs.map (fun v => v ^ 2)).sum := by
  obtain ⟨hn, hss, hq⟩ := nodeUpdatesInvariant (nodeInitStats r0) vs
  simp only [nodeInitStats] at hn hss hq
  refine ⟨by simpa using hn, ?_, by simpa using hss⟩
  have hlen : ((vs.length : ℚ)) ≠ 0 := by
    have : vs.length ≠ 0 := fun hvs => hne (List.length_eq_zero.mp hvs)
    exact_mod_cast this
  have hq' : (nodeUpdates (nodeInitStats r0) vs).q * (vs.length : ℚ) = vs.sum := by
    simpa using hq
  rw [eq_div_iff hlen]
  exact hq'

/-- C5, witness: two updates `[2, 3]` on a node with own reward `-1`. -/
theorem c5_backprop_laws_witness :
    (nodeUpdates (nodeInitStats (-1)) [2, 3]).n = ([2, 3] : List ℚ).length ∧
    (nodeUpdates (nodeInitStats (-1)) [2, 3]).q =
      ([2, 3] : List ℚ).sum / (([2, 3] : List ℚ).length : ℚ) ∧
    (nodeUpdates (nodeInitStats (-1)) [2, 3]).ss =
      (-1 : ℚ) ^ 2 + (([2, 3] : List ℚ).map (fun v => v ^ 2)).sum :=
  c5_backprop_laws (-1) [2, 3] (by simp)

/-! ## C6 — derived boards get the default step budget -/

/-- C6: every board produced by `move` on a valid push, and every board
produced by `copy`, has `max_steps = MAX_STEP = 1000` regardless of the
source board's budget (the constructor's `max_steps` argument is simply not
forwarded). -/
theorem c6_derived_boards_default_budget (b : SokobanBoard) (m : Move) (ms : List Move)
    (b' : SokobanBoard) (_hvm : b.valid_moves = some ms) (_hm : m ∈ ms)
    (hmv : b.move m = some b') :
    b'.max_steps = MAX_STEP ∧ b.copy.max_steps = MAX_STEP := by
  refine ⟨?_, rfl⟩
  obtain ⟨px, py, dx, dy⟩ := m
  simp only [SokobanBoard.move, bind, Option.bind_eq_some, guard, Option.pure_def,
    Option.some_inj] at hmv
  obtain ⟨c1, h1, _, _, l1, hl1, c2, h2, _, _, l2, hl2, c3, h3, _, _, l3, hl3,
    _, _, _, _, _, _, hb⟩ := hmv
  rw [← hb]

/-- C6, witness: a board with a tightened budget of `5`; its pushed successor
and its copy both carry `max_steps = 1000`. -/
theorem c6_derived_boards_default_budget_witness :
    s1After.max_steps = MAX_STEP ∧
    (SokobanBoard.copy
      { level := s1Board.level, player := s1Board.player, steps := 0,
        max_steps := 5 }).max_steps = MAX_STEP :=
  c6_derived_boards_default_budget
    { level := s1Board.level, player := s1Board.player, steps := 0, max_steps := 5 }
    (1, 1, 0, 1) [(1, 1, 0, 1)] s1After (by decide) (by decide) (by decide)

/-! ## Injectivity of the hash encoding -/

theorem charVal_digitChar {d : Nat} (h : d < 10) : charVal (digitChar d) = d := by
  interval_cases d <;> decide

theorem digitChar_class {d : Nat} (h : d < 10) :
    48 ≤ (digitChar d).toNat ∧ (digitChar d).toNat ≤ 57 := by
  interval_cases d <;> decide

theorem decodeRev_natDigitsGo {fuel n : Nat} (h : n < 10 ^ fuel) :
    decodeRev (natDigitsGo fuel n) = n := by
  induction fuel generalizing n with
  | zero => simp at h; simp [natDigitsGo, decodeRev, h]
  | succ fuel ih =>
      by_cases h10 : n < 10
      · simp [natDigitsGo, h10, decodeRev, charVal_digitChar h10]
      · have hdiv : n / 10 < 10 ^ fuel := by
          rw [Nat.div_lt_iff_lt_mul (by norm_num)]
          calc n < 10 ^ (fuel + 1) := h
          _ = 10 ^ fuel * 10 := by ring
        simp [natDigitsGo, h10, decodeRev, ih hdiv,
          charVal_digitChar (Nat.mod_lt n (by norm_num))]
        omega

theorem decodeRev_natDigits (n : Nat) : decodeRev (natDigits n).reverse = n := by
  unfold natDigits
  rw [List.reverse_reverse]
  exact decodeRev_natDigitsGo (lt_of_lt_of_le (Nat.lt_pow_self (by norm_num) n)
    (Nat.pow_le_pow_right (by norm_num) (Nat.le_succ n)))

theorem natDigits_inj {m n : Nat} (h : natDigits m = natDigits n) : m = n := by
  have := decodeRev_natDigits m
  rw [h, decodeRev_natDigits n] at this
  omega

theorem natDigitsGo_digit {fuel n : Nat} :
    ∀ c ∈ natDigitsGo fuel n, 48 ≤ c.toNat ∧ c.toNat ≤ 57 := by
  induction fuel generalizing n with
  | zero => simp [natDigitsGo]
  | succ fuel ih =>
      intro c hc
      by_cases h10 : n < 10
      · simp [natDigitsGo, h10] at hc
        subst hc
        exact digitChar_class h10
      · simp [natDigitsGo, h10] at hc
        rcases hc with hc | hc
        · subst hc
          exact digitChar_class (Nat.mod_lt n (by norm_num))
        · exact ih c hc

theorem natDigits_digit {n : Nat} : ∀ c ∈ natDigits n, 48 ≤ c.toNat ∧ c.toNat ≤ 57 := by
  intro c hc
  rw [natDigits, List.mem_reverse] at hc
  exact natDigitsGo_digit c hc

theorem natDigits_ne_nil (n : Nat) : natDigits n ≠ [] := by
  unfold natDigits natDigitsGo
  by_cases h10 : n < 10 <;> simp [h10]

theorem intRepr_class {i : Int} :
    ∀ c ∈ intRepr i, (48 ≤ c.toNat ∧ c.toNat ≤ 57) ∨ c = '-' := by
  intro c hc
  unfold intRepr at hc
  by_cases hneg : i < 0
  · simp [hneg] at hc
    rcases hc with hc | hc
    · right; exact hc
    · left; exact natDigits_digit c hc
  · simp [hneg] at hc
    left; exact natDigits_digit c hc

theorem intRepr_inj {i j : Int} (h : intRepr i = intRepr j) : i = j := by
  unfold intRepr at h
  by_cases hi : i < 0 <;> by_cases hj : j < 0 <;> simp [hi, hj] at h
  · have := natDigits_inj h
    omega
  · exfalso
    have hmem : '-' ∈ natDigits j.toNat := by rw [← h]; exact List.mem_cons_self _ _
    have hcl := natDigits_digit _ hmem
    have h45 : ('-').toNat = 45 := by decide
    omega
  · exfalso
    have hmem : '-' ∈ natDigits i.toNat := by rw [h]; exact List.mem_cons_self _ _
    have hcl := natDigits_digit _ hmem
    have h45 : ('-').toNat = 45 := by decide
    omega
  · have := natDigits_inj h
    omega

theorem append_sep_inj {sep : Char} :
    ∀ {xs ys u v : List Char}, sep ∉ xs → sep ∉ ys →
      xs ++ sep :: u = ys ++ sep :: v → xs = ys ∧ u = v := by
  intro xs
  induction xs with
  | nil =>
      intro ys u v _ hy h
      cases ys with
      | nil => simpa using h
      | cons y t =>
          simp at h
          exfalso
          exact hy (by rw [← h.1]; exact List.mem_cons_self _ _)
  | cons x xt ih =>
      intro ys u v hx hy h
      cases ys with
      | nil =>
          simp at h
          exact absurd (by rw [h.1]; exact List.mem_cons_self _ _ : sep ∈ x :: xt) hx
      | cons y t =>
          simp at h
          obtain ⟨hxy, hrest⟩ := h
          have := ih (fun hm => hx (List.mem_cons_of_mem _ hm))
            (fun hm => hy (List.mem_cons_of_mem _ hm)) hrest
          exact ⟨by rw [hxy, this.1], this.2⟩

theorem pairRepr_eq (p : Pos) : pairRepr p = '(' :: (pairInner p ++ [')']) := by
  simp [pairRepr, pairInner]

theorem pairInner_class {p : Pos} :
    ∀ c ∈ pairInner p, (48 ≤ c.toNat ∧ c.toNat ≤ 57) ∨ c = '-' ∨ c = ',' ∨ c = ' ' := by
  intro c hc
  simp [pairInner] at hc
  rcases hc with hc | hc | hc | hc
  · rcases intRepr_class c hc with h | h
    · exact Or.inl h
    · exact Or.inr (Or.inl h)
  · subst hc; exact Or.inr (Or.inr (Or.inl rfl))
  · subst hc; exact Or.inr (Or.inr (Or.inr rfl))
  · rcases intRepr_class c hc with h | h
    · exact Or.inl h
    · exact Or.inr (Or.inl h)

theorem pairInner_no_rparen {p : Pos} : ')' ∉ pairInner p := by
  intro hmem
  rcases pairInner_class _ hmem with h | h | h | h <;> simp_all

theorem comma_not_mem_intRepr {i : Int} : ',' ∉ intRepr i := by
  intro hmem
  rcases intRepr_class _ hmem with h | h <;> simp_all

theorem pairInner_inj {p q : Pos} (h : pairInner p = pairInner q) : p = q := by
  unfold pairInner at h
  have hsplit := append_sep_inj comma_not_mem_intRepr comma_not_mem_intRepr h
  obtain ⟨h1, h2⟩ := hsplit
  simp at h2
  have := intRepr_inj h1
  have := intRepr_inj h2
  cases p; cases q; simp_all

theorem pairRepr_append_inj {p q : Pos} {u v : List Char}
    (h : pairRepr p ++ u = pairRepr q ++ v) : p = q ∧ u = v := by
  rw [pairRepr_eq, pairRepr_eq] at h
  simp only [List.cons_append, List.append_assoc, List.cons_inj_right, List.nil_append] at h
  obtain ⟨h1, h2⟩ := append_sep_inj pairInner_no_rparen pairInner_no_rparen h
  exact ⟨pairInner_inj h1, h2⟩

theorem pairRepr_ne_nil (p : Pos) : pairRepr p ≠ [] := by
  rw [pairRepr_eq]; simp

theorem pairsBody_inj : ∀ {l1 l2 : List Pos}, pairsBody l1 = pairsBody l2 → l1 = l2 := by
  intro l1
  induction l1 with
  | nil =>
      intro l2 h
      cases l2 with
      | nil => rfl
      | cons p t =>
          exfalso
          cases t with
          | nil => exact pairRepr_ne_nil p (by simpa [pairsBody] using h.symm)
          | cons q r =>
              simp [pairsBody] at h
  | cons p rest ih =>
      intro l2 h
      cases l2 with
      | nil =>
          exfalso
          cases rest with
          | nil => exact pairRepr_ne_nil p (by simpa [pairsBody] using h)
          | cons q r =>
              simp [pairsBody] at h
      | cons p' rest' =>
          cases rest with
          | nil =>
              cases rest' with
              | nil =>
                  simp [pairsBody] at h
                  rw [show pairRepr p = pairRepr p ++ [] by simp,
                    show pairRepr p' = pairRepr p' ++ [] by simp] at h
                  rw [(pairRepr_append_inj h).1]
              | cons q' r' =>
                  exfalso
                  simp [pairsBody] at h
                  rw [show pairRepr p = pairRepr p ++ [] by simp] at h
                  have := (pairRepr_append_inj h).2
                  simp at this
          | cons q r =>
              cases rest' with
              | nil =>
                  exfalso
                  simp [pairsBody] at h
                  rw [show pairRepr p' = pairRepr p' ++ [] by simp] at h
                  have := (pairRepr_append_inj h).2
                  simp at this
              | cons q' r' =>
                  simp only [pairsBody] at h
                  obtain ⟨hp, hrest⟩ := pairRepr_append_inj h
                  simp only [List.cons_inj_right] at hrest
                  have := @ih (q' :: r') (by simpa using hrest)
                  rw [hp, this]

theorem pairsBody_class {l : List Pos} :
    ∀ c ∈ pairsBody l, c ≠ ']' ∧ c ≠ '[' := by
  intro c hc
  induction l with
  | nil => simp [pairsBody] at hc
  | cons p rest ih =>
      cases rest with
      | nil =>
          simp only [pairsBody] at hc
          rw [pairRepr_eq] at hc
          simp at hc
          rcases hc with hc | hc | hc
          · simp [hc]
          · rcases pairInner_class c hc with h | h | h | h <;>
              (constructor <;> (intro heq; subst heq; revert h; decide))
          · simp [hc]
      | cons q r =>
          simp only [pairsBody] at hc
          rw [pairRepr_eq] at hc
          simp at hc
          rcases hc with hc | hc | hc | hc | hc
          · simp [hc]
          · rcases pairInner_class c hc with h | h | h | h <;>
              (constructor <;> (intro heq; subst heq; revert h; decide))
          · simp [hc]
          · simp [hc]
          · rcases hc with hc | hc
            · simp [hc]
            · exact ih hc

theorem pairListRepr_split {i1 x1 i2 x2 : List Pos}
    (h : pairListRepr i1 ++ pairListRepr x1 = pairListRepr i2 ++ pairListRepr x2) :
    i1 = i2 ∧ x1 = x2 := by
  simp only [pairListRepr, List.cons_append, List.append_assoc, List.cons_inj_right,
    List.nil_append] at h
  have hno1 : ']' ∉ pairsBody i1 := fun hm => (pairsBody_class _ hm).1 rfl
  have hno2 : ']' ∉ pairsBody i2 := fun hm => (pairsBody_class _ hm).1 rfl
  obtain ⟨hb, hrest⟩ := append_sep_inj hno1 hno2 h
  refine ⟨pairsBody_inj hb, ?_⟩
  simp only [List.cons_inj_right] at hrest
  have : pairsBody x1 ++ [']'] = pairsBody x2 ++ [']'] := by
    simpa using hrest
  exact pairsBody_inj (by simpa using this)

theorem hash_data (b : SokobanBoard) :
    b.hash.data = pairListRepr b.interior ++ pairListRepr b.box_positions := rfl

theorem hash_inj_parts {b1 b2 : SokobanBoard} (h : b1.hash = b2.hash) :
    b1.interior = b2.interior ∧ b1.box_positions = b2.box_positions := by
  have hdata : b1.hash.data = b2.hash.data := by rw [h]
  rw [hash_data, hash_data] at hdata
  exact pairListRepr_split hdata

/-! ## C9 — hash canonicalisation -/

/-- C9: for two boards with the same interior (two walk-equivalent player
positions), the hashes agree iff the box position lists agree. -/
theorem c9_hash_iff_boxes (b1 b2 : SokobanBoard) (hint : b1.interior = b2.interior) :
    b1.hash = b2.hash ↔ b1.box_positions = b2.box_positions := by
  constructor
  · intro h
    exact (hash_inj_parts h).2
  · intro h
    unfold SokobanBoard.hash
    rw [hint, h]

/-- C9, witness: `roomBoard` and the same level with the player moved inside
the same interior region. -/
theorem c9_hash_iff_boxes_witness :
    roomBoard.hash =
        ({ level := roomBoard.level, player := (1, 1), steps := 0,
           max_steps := MAX_STEP } : SokobanBoard).hash ↔
      roomBoard.box_positions =
        ({ level := roomBoard.level, player := (1, 1), steps := 0,
           max_steps := MAX_STEP } : SokobanBoard).box_positions :=
  c9_hash_iff_boxes roomBoard
    { level := roomBoard.level, player := (1, 1), steps := 0, max_steps := MAX_STEP }
    (by decide)

/-! ## Grid counting and update lemmas -/

theorem filterMap_enumFrom_length (p : Cell → Prop) [DecidablePred p]
    (f : Nat × Cell → Pos) :
    ∀ (n : Nat) (row : List Cell),
      ((List.enumFrom n row).filterMap
        (fun jc => if p jc.2 then some (f jc) else none)).length =
      row.countP (fun c => decide (p c)) := by
  intro n row
  induction row generalizing n with
  | nil => simp
  | cons c t ih =>
      by_cases hp : p c <;>
        simp [List.enumFrom, List.filterMap_cons, hp, List.countP_cons, ih]

theorem findElements_length_eq (g : Grid) (elems : List Cell) :
    (findElements g elems).length =
      (g.map (fun row => row.countP (fun c => decide (c ∈ elems)))).sum := by
  unfold findElements
  rw [List.length_flatten]
  congr 1
  rw [List.map_map]
  have : ∀ ir : Nat × List Cell,
      ((fun l => l.length) ∘ (fun ir : Nat × List Cell =>
        ir.2.enum.filterMap (fun jc =>
          if jc.2 ∈ elems then some ((ir.1 : Int), (jc.1 : Int)) else none))) ir =
      ir.2.countP (fun c => decide (c ∈ elems)) := by
    intro ir
    exact filterMap_enumFrom_length (fun c => c ∈ elems) _ 0 ir.2
  rw [List.map_congr_left (fun ir _ => this ir)]
  have hsnd : g.enum.map Prod.snd = g := List.enum_map_snd g
  calc (g.enum.map fun ir => ir.2.countP (fun c => decide (c ∈ elems)))
      = (g.enum.map Prod.snd).map (fun row => row.countP (fun c => decide (c ∈ elems))) := by
        rw [List.map_map]; rfl
    _ = g.map (fun row => row.countP (fun c => decide (c ∈ elems))) := by rw [hsnd]

theorem sum_set_nat : ∀ (l : List Nat) (i : Nat) (a x : Nat), l[i]? = some a →
    (l.set i x).sum + a = l.sum + x := by
  intro l
  induction l with
  | nil => intro i a x h; simp at h
  | cons b t ih =>
      intro i a x h
      cases i with
      | zero => simp at h; subst h; simp [List.set]; omega
      | succ i =>
          simp at h
          have := ih i a x h
          simp [List.set, List.sum_cons]
          omega

theorem countP_set_cell (p : Cell → Bool) :
    ∀ (row : List Cell) (j : Nat) (c v : Cell), row[j]? = some c →
      (row.set j v).countP p + (if p c then 1 else 0) =
        row.countP p + (if p v then 1 else 0) := by
  intro row
  induction row with
  | nil => intro j c v h; simp at h
  | cons b t ih =>
      intro j c v h
      cases j with
      | zero =>
          simp at h
          subst h
          simp [List.set, List.countP_cons]
          by_cases hv : p v <;> by_cases hb : p b <;> simp [hv, hb]
      | succ j =>
          simp at h
          have := ih j c v h
          simp only [List.set, List.countP_cons]
          by_cases hb : p b <;> simp [hb] <;> omega

theorem map_set_list (f : List Cell → Nat) :
    ∀ (g : Grid) (i : Nat) (r : List Cell),
      (g.set i r).map f = (g.map f).set i (f r) := by
  intro g
  induction g with
  | nil => intro i r; simp
  | cons row t ih =>
      intro i r
      cases i with
      | zero => simp [List.set]
      | succ i => simp [List.set, ih]

/-! ## numpy indexing lemmas -/

theorem npIdx_lt {n : Nat} {i : Int} {j : Nat} (h : npIdx n i = some j) : j < n := by
  unfold npIdx at h
  split at h
  · simp at h; omega
  · split at h
    · simp at h; omega
    · simp at h

theorem npResolve_some {g : Grid} {x y : Int} {i j : Nat}
    (h : npResolve g x y = some (i, j)) :
    npIdx g.length x = some i ∧
      ∃ row, g[i]? = some row ∧ npIdx row.length y = some j := by
  unfold npResolve at h
  simp only [bind, Option.bind_eq_some, Option.pure_def, Option.some_inj] at h
  obtain ⟨i', hi, row, hrow, j', hj, hp⟩ := h
  cases hp
  exact ⟨hi, row, hrow, hj⟩

theorem npResolve_of_parts {g : Grid} {x y : Int} {i j : Nat} {row : List Cell}
    (hi : npIdx g.length x = some i) (hrow : g[i]? = some row)
    (hj : npIdx row.length y = some j) :
    npResolve g x y = some (i, j) := by
  unfold npResolve
  simp only [bind, hi, Option.bind_eq_some, Option.pure_def]
  exact ⟨i, rfl, row, hrow, j, hj, rfl⟩

theorem npGet_eq_some_iff {g : Grid} {x y : Int} {c : Cell} :
    npGet g x y = some c ↔
      ∃ i j row, npResolve g x y = some (i, j) ∧ g[i]? = some row ∧
        row[j]? = some c := by
  constructor
  · intro h
    unfold npGet at h
    simp only [bind, Option.bind_eq_some] at h
    obtain ⟨i, hi, row, hrow, j, hj, hc⟩ := h
    exact ⟨i, j, row, npResolve_of_parts hi hrow hj, hrow, hc⟩
  · intro ⟨i, j, row, hres, hrow, hc⟩
    obtain ⟨hi, row', hrow', hj⟩ := npResolve_some hres
    rw [hrow] at hrow'
    cases hrow'
    unfold npGet
    simp only [bind, hi, Option.bind_eq_some]
    exact ⟨i, rfl, row, hrow, j, hj, hc⟩

theorem npResolve_isSome_of_npGet {g : Grid} {x y : Int} {c : Cell}
    (h : npGet g x y = some c) : ∃ i j, npResolve g x y = some (i, j) := by
  obtain ⟨i, j, row, hres, -, -⟩ := npGet_eq_some_iff.mp h
  exact ⟨i, j, hres⟩

theorem npGet_of_resolve {g : Grid} {x y : Int} {i j : Nat}
    (hres : npResolve g x y = some (i, j)) :
    ∃ row c, g[i]? = some row ∧ row[j]? = some c ∧ npGet g x y = some c := by
  obtain ⟨hi, row, hrow, hj⟩ := npResolve_some hres
  have hjlt : j < row.length := npIdx_lt hj
  have hc : row[j]? = some (row.get ⟨j, hjlt⟩) := by
    rw [List.getElem?_eq_getElem hjlt]
    simp
  exact ⟨row, row.get ⟨j, hjlt⟩, hrow, hc,
    npGet_eq_some_iff.mpr ⟨i, j, row, hres, hrow, hc⟩⟩

theorem npSet_eq_of_resolve {g : Grid} {x y : Int} {i j : Nat} {row : List Cell}
    (hres : npResolve g x y = some (i, j)) (hrow : g[i]? = some row) (v : Cell) :
    npSet g x y v = some (g.set i (row.set j v)) := by
  obtain ⟨hi, row', hrow', hj⟩ := npResolve_some hres
  rw [hrow] at hrow'
  cases hrow'
  unfold npSet
  have hjlt : j < row.length := npIdx_lt hj
  simp only [bind, hi, Option.bind_eq_some]
  refine ⟨i, rfl, row, hrow, j, hj, ?_⟩
  simp [hjlt]

theorem npResolve_set {g : Grid} {i : Nat} {row : List Cell}
    (hrow : g[i]? = some row) (j : Nat) (v : Cell) (x y : Int) :
    npResolve (g.set i (row.set j v)) x y = npResolve g x y := by
  unfold npResolve
  have hlen : (g.set i (row.set j v)).length = g.length := List.length_set ..
  rw [hlen]
  cases hix : npIdx g.length x with
  | none => simp [bind, hix]
  | some i' =>
      simp only [bind, hix, Option.some_bind]
      by_cases hii : i' = i
      · subst hii
        have hilt : i' < g.length := by
          have := List.getElem?_eq_some.mp hrow
          exact this.1
        have hset : (g.set i' (row.set j v))[i']? = some (row.set j v) :=
          List.getElem?_set_eq_of_lt _ (by simpa using hilt)
        rw [hset, hrow]
        simp [List.length_set]
      · have hset : (g.set i (row.set j v))[i']? = g[i']? :=
          List.getElem?_set_ne (by omega)
        rw [hset]

theorem npGet_after_set {g : Grid} {i j : Nat} {row : List Cell}
    (hrow : g[i]? = some row) (hjlt : j < row.length) (v : Cell)
    {x y : Int} {ir jr : Nat} (hres : npResolve g x y = some (ir, jr)) {c : Cell}
    (hget : npGet g x y = some c) :
    npGet (g.set i (row.set j v)) x y =
      some (if ir = i ∧ jr = j then v else c) := by
  have hres' : npResolve (g.set i (row.set j v)) x y = some (ir, jr) := by
    rw [npResolve_set hrow j v]; exact hres
  obtain ⟨hi, rowr, hrowr, hj⟩ := npResolve_some hres
  have hirlt : ir < g.length := (List.getElem?_eq_some.mp hrowr).1
  have hilt : i < g.length := (List.getElem?_eq_some.mp hrow).1
  have hcval : rowr[jr]? = some c := by
    obtain ⟨i2, j2, row2, hres2, hrow2, hc2⟩ := npGet_eq_some_iff.mp hget
    rw [hres] at hres2
    obtain ⟨hh1, hh2⟩ := Prod.mk.injEq .. ▸ (Option.some_inj.mp hres2)
    subst hh1; subst hh2
    rw [hrowr] at hrow2
    cases hrow2
    exact hc2
  by_cases hii : ir = i
  · subst hii
    have hroweq : rowr = row := by rw [hrow] at hrowr; exact (Option.some_inj.mp hrowr).symm
    subst hroweq
    have hgetrow : (g.set ir (rowr.set j v))[ir]? = some (rowr.set j v) :=
      List.getElem?_set_eq_of_lt _ (by simpa using hirlt)
    by_cases hjj : jr = j
    · subst hjj
      refine npGet_eq_some_iff.mpr ⟨ir, jr, rowr.set jr v, hres', hgetrow, ?_⟩
      simp [List.getElem?_set_eq_of_lt _ (by simpa using hjlt)]
    · have hmid : npGet (g.set ir (rowr.set j v)) x y = some c :=
        npGet_eq_some_iff.mpr ⟨ir, jr, rowr.set j v, hres', hgetrow,
          by rw [List.getElem?_set_ne (by omega)]; exact hcval⟩
      rw [hmid]
      simp [hjj]
  · have hgetrow : (g.set i (row.set j v))[ir]? = g[ir]? :=
      List.getElem?_set_ne (by omega)
    have hmid : npGet (g.set i (row.set j v)) x y = some c :=
      npGet_eq_some_iff.mpr ⟨ir, jr, rowr, hres', by rw [hgetrow]; exact hrowr, hcval⟩
    rw [hmid]
    simp [hii]

theorem mem_findElements_iff {g : Grid} {elems : List Cell} {p : Pos} :
    p ∈ findElements g elems ↔
      ∃ (i j : Nat) (row : List Cell) (c : Cell),
        g[i]? = some row ∧ row[j]? = some c ∧ c ∈ elems ∧
        p = ((i : Int), (j : Int)) := by
  unfold findElements
  rw [List.mem_flatten]
  constructor
  · rintro ⟨s, hs, hp⟩
    rw [List.mem_map] at hs
    obtain ⟨ir, hir, hseq⟩ := hs
    subst hseq
    rw [List.mem_filterMap] at hp
    obtain ⟨jc, hjc, hval⟩ := hp
    split at hval
    · rename_i hcell
      rw [List.mem_enum_iff_getElem?] at hjc
      rw [List.mem_enum_iff_getElem?] at hir
      exact ⟨ir.1, jc.1, ir.2, jc.2, hir, hjc, hcell, (Option.some_inj.mp hval).symm⟩
    · simp at hval
  · rintro ⟨i, j, row, c, hrow, hc, hcel, hp⟩
    refine ⟨(row.enum.filterMap (fun jc =>
      if jc.2 ∈ elems then some ((i : Int), (jc.1 : Int)) else none)), ?_, ?_⟩
    · rw [List.mem_map]
      exact ⟨(i, row), List.mem_enum_iff_getElem?.mpr hrow, rfl⟩
    · rw [List.mem_filterMap]
      exact ⟨(j, c), List.mem_enum_iff_getElem?.mpr hc, by simp [hcel, hp]⟩

theorem findElements_set_count {g : Grid} {x y : Int} {v c : Cell} {g' : Grid}
    (hset : npSet g x y v = some g') (hget : npGet g x y = some c) (elems : List Cell) :
    (findElements g' elems).length + (if c ∈ elems then 1 else 0) =
      (findElements g elems).length + (if v ∈ elems then 1 else 0) := by
  obtain ⟨i, j, row, hres, hrow, hc⟩ := npGet_eq_some_iff.mp hget
  have hseq : npSet g x y v = some (g.set i (row.set j v)) :=
    npSet_eq_of_resolve hres hrow v
  rw [hset] at hseq
  have hg' : g' = g.set i (row.set j v) := Option.some_inj.mp hseq
  subst hg'
  set f := fun row : List Cell => row.countP (fun cc => decide (cc ∈ elems)) with hf
  have hmap : (g.set i (row.set j v)).map f = (g.map f).set i (f (row.set j v)) :=
    map_set_list f g i (row.set j v)
  have hmapget : (g.map f)[i]? = some (f row) := by
    rw [List.getElem?_map, hrow]
    rfl
  have hsum : ((g.map f).set i (f (row.set j v))).sum + f row =
      (g.map f).sum + f (row.set j v) :=
    sum_set_nat (g.map f) i (f row) (f (row.set j v)) hmapget
  have hcount : f (row.set j v) + (if decide (c ∈ elems) then 1 else 0) =
      f row + (if decide (v ∈ elems) then 1 else 0) :=
    countP_set_cell _ row j c v hc
  rw [findElements_length_eq, findElements_length_eq, hmap, ← hf]
  simp only [decide_eq_true_eq] at hcount
  omega

theorem findElements_pos_of_npGet {g : Grid} {x y : Int} {c : Cell} {elems : List Cell}
    (hget : npGet g x y = some c) (hc : c ∈ elems) :
    0 < (findElements g elems).length := by
  obtain ⟨i, j, row, hres, hrow, hcell⟩ := npGet_eq_some_iff.mp hget
  rw [findElements_length_eq]
  have hrowmem : row ∈ g := by
    have := List.getElem?_eq_some.mp hrow
    obtain ⟨hlt, hval⟩ := this
    exact hval ▸ List.getElem_mem hlt
  have hcmem : c ∈ row := by
    have := List.getElem?_eq_some.mp hcell
    obtain ⟨hlt, hval⟩ := this
    exact hval ▸ List.getElem_mem hlt
  have hcount : 0 < row.countP (fun cc => decide (cc ∈ elems)) := by
    rw [List.countP_pos_iff]
    exact ⟨c, hcmem, by simp [hc]⟩
  have hmem : row.countP (fun cc => decide (cc ∈ elems)) ∈
      g.map (fun row => row.countP (fun cc => decide (cc ∈ elems))) :=
    List.mem_map_of_mem _ hrowmem
  have := List.single_le_sum (fun x _ => Nat.zero_le x) _ hmem
  omega

/-! ## C8 — move conservation -/

theorem mapM_option_mem {α β : Type} (f : α → Option β) :
    ∀ {l : List α} {res : List β}, l.mapM f = some res → ∀ x ∈ res, ∃ a ∈ l, f a = some x := by
  intro l
  induction l with
  | nil =>
      intro res h x hx
      rw [List.mapM_nil] at h
      cases Option.some_inj.mp h
      simp at hx
  | cons a t ih =>
      intro res h x hx
      rw [List.mapM_cons] at h
      simp only [bind, Option.bind_eq_some, Option.pure_def, Option.some_inj] at h
      obtain ⟨b, hb, bs, hbs, hres⟩ := h
      subst hres
      rcases List.mem_cons.mp hx with hx | hx
      · exact ⟨a, List.mem_cons_self a t, hx ▸ hb⟩
      · obtain ⟨a', ha', hf⟩ := ih hbs x hx
        exact ⟨a', List.mem_cons_of_mem a ha', hf⟩

theorem npIdx_coe {n i : Nat} (h : i < n) : npIdx n (i : Int) = some i := by
  unfold npIdx
  rw [if_pos]
  · simp
  · constructor
    · exact Int.ofNat_nonneg i
    · exact_mod_cast h

theorem npGet_of_getElem {g : Grid} {i j : Nat} {row : List Cell} {c : Cell}
    (hrow : g[i]? = some row) (hc : row[j]? = some c) :
    npGet g (i : Int) (j : Int) = some c ∧ npResolve g (i : Int) (j : Int) = some (i, j) := by
  have hi : i < g.length := (List.getElem?_eq_some.mp hrow).1
  have hj : j < row.length := (List.getElem?_eq_some.mp hc).1
  have hres : npResolve g (i : Int) (j : Int) = some (i, j) :=
    npResolve_of_parts (npIdx_coe hi) hrow (npIdx_coe hj)
  exact ⟨npGet_eq_some_iff.mpr ⟨i, j, row, hres, hrow, hc⟩, hres⟩

theorem npGet_value_unique {g : Grid} {x y x' y' : Int} {i j : Nat} {a a' : Cell}
    (h1 : npResolve g x y = some (i, j)) (h2 : npResolve g x' y' = some (i, j))
    (hg1 : npGet g x y = some a) (hg2 : npGet g x' y' = some a') : a = a' := by
  obtain ⟨i1, j1, row1, hr1, hrow1, hc1⟩ := npGet_eq_some_iff.mp hg1
  obtain ⟨i2, j2, row2, hr2, hrow2, hc2⟩ := npGet_eq_some_iff.mp hg2
  rw [h1] at hr1
  rw [h2] at hr2
  obtain ⟨e1, e2⟩ := Prod.mk.injEq .. ▸ Option.some_inj.mp hr1.symm
  obtain ⟨e3, e4⟩ := Prod.mk.injEq .. ▸ Option.some_inj.mp hr2.symm
  subst e1; subst e2; subst e3; subst e4
  rw [hrow1] at hrow2
  cases hrow2
  rw [hc1] at hc2
  exact Option.some_inj.mp hc2

theorem valid_moves_spec {b : SokobanBoard} {ms : List Move} (hvm : b.valid_moves = some ms)
    {m : Move} (hm : m ∈ ms) :
    ∃ (bx d : Pos) (cell : Cell),
      bx ∈ findElements b.level [Cell.box, Cell.boxOnGoal] ∧
      d ∈ dirs ∧
      (bx.1 - d.1, bx.2 - d.2) ∈ findInterior b.level b.player.1 b.player.2 ∧
      npGet b.level (bx.1 + d.1) (bx.2 + d.2) = some cell ∧
      ¬(cell = Cell.box ∨ cell = Cell.boxOnGoal ∨ cell = Cell.wall) ∧
      m = (bx.1 - d.1, bx.2 - d.2, d.1, d.2) := by
  unfold SokobanBoard.valid_moves at hvm
  simp only [bind, Option.bind_eq_some, Option.pure_def, Option.some_inj] at hvm
  obtain ⟨checked, hchk, hms⟩ := hvm
  rw [← hms] at hm
  rw [List.mem_filterMap] at hm
  obtain ⟨cc, hccmem, hccval⟩ := hm
  split at hccval
  · exact Option.noConfusion hccval
  · rename_i hnotbad
    obtain ⟨c, hcmem, hfc⟩ := mapM_option_mem _ hchk cc hccmem
    rw [Option.map_eq_some'] at hfc
    obtain ⟨cell, hget, hccdef⟩ := hfc
    subst hccdef
    rw [List.mem_flatMap] at hcmem
    obtain ⟨bx, hbx, hcdirs⟩ := hcmem
    rw [List.mem_filterMap] at hcdirs
    obtain ⟨d, hd, hcval⟩ := hcdirs
    split at hcval
    · rename_i hint
      cases Option.some_inj.mp hcval
      refine ⟨bx, d, cell, hbx, hd, hint, hget, hnotbad, ?_⟩
      simp only [Option.some_inj] at hccval
      rw [← hccval]
    · simp at hcval

/-- C8: for every board with exactly one player cell, sitting at `b.player`,
and every push in `valid_moves`, `move` succeeds (all its assertions hold) and
conserves the box count and the goal count, leaves exactly one player cell,
and increments `steps` by one. -/
theorem c8_move_conservation (b : SokobanBoard) (m : Move) (ms : List Move)
    (hvm : b.valid_moves = some ms) (hm : m ∈ ms)
    (hpc : npGet b.level b.player.1 b.player.2 = some Cell.player ∨
           npGet b.level b.player.1 b.player.2 = some Cell.playerOnGoal)
    (hone : SokobanBoard.playerCount b.level = 1) :
    ∃ b', b.move m = some b' ∧
      SokobanBoard.boxCount b'.level = SokobanBoard.boxCount b.level ∧
      SokobanBoard.goalCount b'.level = SokobanBoard.goalCount b.level ∧
      SokobanBoard.playerCount b'.level = 1 ∧
      b'.steps = b.steps + 1 := by
  obtain ⟨bx, d, cell, hbx, hd, hint, hgetcell, hnotbad, hmdef⟩ := valid_moves_spec hvm hm
  subst hmdef
  have hpc' : ∃ pc, npGet b.level b.player.1 b.player.2 = some pc ∧
      (pc = Cell.player ∨ pc = Cell.playerOnGoal) := by
    rcases hpc with h | h
    · exact ⟨Cell.player, h, Or.inl rfl⟩
    · exact ⟨Cell.playerOnGoal, h, Or.inr rfl⟩
  obtain ⟨pc, hpcget, hpckind⟩ := hpc'
  obtain ⟨ip, jp, hresp⟩ := npResolve_isSome_of_npGet hpcget
  obtain ⟨prow, pc0, hprow, hpcell0, hpget0⟩ := npGet_of_resolve hresp
  have hpceq : pc0 = pc := Option.some_inj.mp (hpget0.symm.trans hpcget)
  rw [hpceq] at hpcell0
  have hjp : jp < prow.length := (List.getElem?_eq_some.mp hpcell0).1
  -- the box cell
  rw [mem_findElements_iff] at hbx
  obtain ⟨i1, j1, rowb, cb, hrowb, hcb, hcbkind, hbxdef⟩ := hbx
  subst hbxdef
  obtain ⟨hgetb, hresb⟩ := npGet_of_getElem hrowb hcb
  simp only at hgetb hresb hint hgetcell hnotbad
  simp only [not_or] at hnotbad
  simp only [List.mem_cons, List.not_mem_nil, or_false] at hcbkind
  -- the target cell
  obtain ⟨i2, j2, hres2⟩ := npResolve_isSome_of_npGet hgetcell
  -- distinct resolved indices
  have hbp : ¬(i1 = ip ∧ j1 = jp) := by
    rintro ⟨h1, h2⟩
    have heq : cb = pc :=
      npGet_value_unique (show npResolve b.level (i1 : Int) (j1 : Int) = some (ip, jp) by
        rw [hresb, h1, h2]) hresp hgetb hpcget
    rcases hcbkind with hk | hk <;> rcases hpckind with hk2 | hk2 <;>
      (rw [hk, hk2] at heq; exact Cell.noConfusion heq)
  have hb2 : ¬(i1 = i2 ∧ j1 = j2) := by
    rintro ⟨h1, h2⟩
    have heq : cb = cell :=
      npGet_value_unique (show npResolve b.level (i1 : Int) (j1 : Int) = some (i2, j2) by
        rw [hresb, h1, h2]) hres2 hgetb hgetcell
    rcases hcbkind with hk | hk <;> rw [hk] at heq
    · exact hnotbad.1 heq.symm
    · exact hnotbad.2.1 heq.symm
  -- step 1: remove the player
  set val1 := if pc = Cell.player then Cell.floor else Cell.goal with hval1
  set lvl1 := b.level.set ip (prow.set jp val1) with hlvl1
  have hset1 : npSet b.level b.player.1 b.player.2 val1 = some lvl1 :=
    npSet_eq_of_resolve hresp hprow val1
  have hval1kind : val1 = Cell.floor ∨ val1 = Cell.goal := by
    rw [hval1]; rcases hpckind with h | h <;> simp [h]
  -- step 2: place the box
  have hres2' : npResolve lvl1 ((i1 : Int) + d.1) ((j1 : Int) + d.2) = some (i2, j2) := by
    rw [hlvl1, npResolve_set hprow jp val1]
    exact hres2
  have hget2 : npGet lvl1 ((i1 : Int) + d.1) ((j1 : Int) + d.2) =
      some (if i2 = ip ∧ j2 = jp then val1 else cell) :=
    npGet_after_set hprow hjp val1 hres2 hgetcell
  set bcell := if i2 = ip ∧ j2 = jp then val1 else cell with hbcell
  have hbcellkind : bcell = Cell.player ∨ bcell = Cell.playerOnGoal ∨
      bcell = Cell.floor ∨ bcell = Cell.goal := by
    rw [hbcell]
    split
    · rcases hval1kind with h | h <;> simp [h]
    · cases cell <;> simp_all
  obtain ⟨row2, c2x, hrow2, hc2x, hget2x⟩ := npGet_of_resolve hres2'
  have hc2eq : c2x = bcell := Option.some_inj.mp (hget2x.symm.trans hget2)
  rw [hc2eq] at hc2x
  have hj2 : j2 < row2.length := (List.getElem?_eq_some.mp hc2x).1
  set val2 := if bcell = Cell.floor ∨ bcell = Cell.player then Cell.box else Cell.boxOnGoal
    with hval2
  set lvl2 := lvl1.set i2 (row2.set j2 val2) with hlvl2
  have hset2 : npSet lvl1 ((i1 : Int) + d.1) ((j1 : Int) + d.2) val2 = some lvl2 :=
    npSet_eq_of_resolve hres2' hrow2 val2
  -- step 3: place the player on the box's old cell
  have hresb1 : npResolve lvl1 (i1 : Int) (j1 : Int) = some (i1, j1) := by
    rw [hlvl1, npResolve_set hprow jp val1]
    exact hresb
  have hgetb1 : npGet lvl1 (i1 : Int) (j1 : Int) = some cb := by
    have := npGet_after_set hprow hjp val1 hresb hgetb
    rw [if_neg hbp] at this
    exact this
  have hresb2 : npResolve lvl2 (i1 : Int) (j1 : Int) = some (i1, j1) := by
    rw [hlvl2, npResolve_set hrow2 j2 val2]
    exact hresb1
  have hgetb2 : npGet lvl2 (i1 : Int) (j1 : Int) = some cb := by
    have := npGet_after_set hrow2 hj2 val2 hresb1 hgetb1
    rw [if_neg hb2] at this
    exact this
  obtain ⟨row3, c3x, hrow3, hc3x, hget3x⟩ := npGet_of_resolve hresb2
  have hc3eq : c3x = cb := Option.some_inj.mp (hget3x.symm.trans hgetb2)
  rw [hc3eq] at hc3x
  set val3 := if cb = Cell.box then Cell.player else Cell.playerOnGoal with hval3
  set lvl3 := lvl2.set i1 (row3.set j1 val3) with hlvl3
  have hset3 : npSet lvl2 (i1 : Int) (j1 : Int) val3 = some lvl3 :=
    npSet_eq_of_resolve hresb2 hrow3 val3
  -- counting: one application of the set-count lemma per update and per family
  have eqB1 := findElements_set_count hset1 hpcget [Cell.box, Cell.boxOnGoal]
  have eqB2 := findElements_set_count hset2 hget2 [Cell.box, Cell.boxOnGoal]
  have eqB3 := findElements_set_count hset3 hgetb2 [Cell.box, Cell.boxOnGoal]
  have eqG1 := findElements_set_count hset1 hpcget
    [Cell.goal, Cell.boxOnGoal, Cell.playerOnGoal]
  have eqG2 := findElements_set_count hset2 hget2
    [Cell.goal, Cell.boxOnGoal, Cell.playerOnGoal]
  have eqG3 := findElements_set_count hset3 hgetb2
    [Cell.goal, Cell.boxOnGoal, Cell.playerOnGoal]
  have eqP1 := findElements_set_count hset1 hpcget [Cell.player, Cell.playerOnGoal]
  have eqP2 := findElements_set_count hset2 hget2 [Cell.player, Cell.playerOnGoal]
  have eqP3 := findElements_set_count hset3 hgetb2 [Cell.player, Cell.playerOnGoal]
  unfold SokobanBoard.playerCount at hone
  -- no player cell remains after step 1
  have hPlvl1 : (findElements lvl1 [Cell.player, Cell.playerOnGoal]).length = 0 := by
    have h1 : (if pc ∈ [Cell.player, Cell.playerOnGoal] then 1 else 0) = 1 := by
      rcases hpckind with h | h <;> simp [h]
    have h2 : (if val1 ∈ [Cell.player, Cell.playerOnGoal] then 1 else 0) = 0 := by
      rcases hval1kind with h | h <;> simp [h]
    omega
  have hbfg : bcell = Cell.floor ∨ bcell = Cell.goal := by
    rcases hbcellkind with h | h | h | h
    · exfalso
      have := findElements_pos_of_npGet hget2 (show bcell ∈ [Cell.player, Cell.playerOnGoal]
        by rw [h]; simp)
      omega
    · exfalso
      have := findElements_pos_of_npGet hget2 (show bcell ∈ [Cell.player, Cell.playerOnGoal]
        by rw [h]; simp)
      omega
    · exact Or.inl h
    · exact Or.inr h
  -- box count is conserved
  have hBox : (findElements lvl3 [Cell.box, Cell.boxOnGoal]).length =
      (findElements b.level [Cell.box, Cell.boxOnGoal]).length := by
    have i1' : (if pc ∈ [Cell.box, Cell.boxOnGoal] then 1 else 0) = 0 := by
      rcases hpckind with h | h <;> simp [h]
    have i2' : (if val1 ∈ [Cell.box, Cell.boxOnGoal] then 1 else 0) = 0 := by
      rcases hval1kind with h | h <;> simp [h]
    have i3' : (if bcell ∈ [Cell.box, Cell.boxOnGoal] then 1 else 0) = 0 := by
      rcases hbfg with h | h <;> simp [h]
    have i4' : (if val2 ∈ [Cell.box, Cell.boxOnGoal] then 1 else 0) = 1 := by
      rw [hval2]; split <;> simp
    have i5' : (if cb ∈ [Cell.box, Cell.boxOnGoal] then 1 else 0) = 1 := by
      rcases hcbkind with h | h <;> simp [h]
    have i6' : (if val3 ∈ [Cell.box, Cell.boxOnGoal] then 1 else 0) = 0 := by
      rw [hval3]; split <;> simp
    omega
  -- goal count is conserved
  have hGoal : (findElements lvl3 [Cell.goal, Cell.boxOnGoal, Cell.playerOnGoal]).length =
      (findElements b.level [Cell.goal, Cell.boxOnGoal, Cell.playerOnGoal]).length := by
    have p1 : (if pc ∈ [Cell.goal, Cell.boxOnGoal, Cell.playerOnGoal] then 1 else 0) =
        (if val1 ∈ [Cell.goal, Cell.boxOnGoal, Cell.playerOnGoal] then 1 else 0) := by
      rcases hpckind with h | h <;> simp [h, hval1]
    have p2 : (if bcell ∈ [Cell.goal, Cell.boxOnGoal, Cell.playerOnGoal] then 1 else 0) =
        (if val2 ∈ [Cell.goal, Cell.boxOnGoal, Cell.playerOnGoal] then 1 else 0) := by
      rcases hbfg with h | h <;> simp [hval2, h]
    have p3 : (if cb ∈ [Cell.goal, Cell.boxOnGoal, Cell.playerOnGoal] then 1 else 0) =
        (if val3 ∈ [Cell.goal, Cell.boxOnGoal, Cell.playerOnGoal] then 1 else 0) := by
      rcases hcbkind with h | h <;> simp [hval3, h]
    omega
  -- exactly one player afterwards
  have hPlayer : (findElements lvl3 [Cell.player, Cell.playerOnGoal]).length = 1 := by
    have q1 : (if bcell ∈ [Cell.player, Cell.playerOnGoal] then 1 else 0) = 0 := by
      rcases hbfg with h | h <;> simp [h]
    have q2 : (if val2 ∈ [Cell.player, Cell.playerOnGoal] then 1 else 0) = 0 := by
      rw [hval2]; split <;> simp
    have q3 : (if cb ∈ [Cell.player, Cell.playerOnGoal] then 1 else 0) = 0 := by
      rcases hcbkind with h | h <;> simp [h]
    have q4 : (if val3 ∈ [Cell.player, Cell.playerOnGoal] then 1 else 0) = 1 := by
      rw [hval3]; split <;> simp
    omega
  -- assemble the successful move
  have e1 : (i1 : Int) - d.1 + 2 * d.1 = (i1 : Int) + d.1 := by ring
  have e2 : (j1 : Int) - d.2 + 2 * d.2 = (j1 : Int) + d.2 := by ring
  have e3 : (i1 : Int) - d.1 + d.1 = (i1 : Int) := by ring
  have e4 : (j1 : Int) - d.2 + d.2 = (j1 : Int) := by ring
  have hget2c : npGet lvl1 ((i1 : Int) - d.1 + 2 * d.1) ((j1 : Int) - d.2 + 2 * d.2) =
      some bcell := by rw [e1, e2]; exact hget2
  have hset2c : npSet lvl1 ((i1 : Int) - d.1 + 2 * d.1) ((j1 : Int) - d.2 + 2 * d.2) val2 =
      some lvl2 := by rw [e1, e2]; exact hset2
  have hgetb2c : npGet lvl2 ((i1 : Int) - d.1 + d.1) ((j1 : Int) - d.2 + d.2) =
      some cb := by rw [e3, e4]; exact hgetb2
  have hset3c : npSet lvl2 ((i1 : Int) - d.1 + d.1) ((j1 : Int) - d.2 + d.2) val3 =
      some lvl3 := by rw [e3, e4]; exact hset3
  refine ⟨{ level := lvl3, player := ((i1 : Int) - d.1 + d.1, (j1 : Int) - d.2 + d.2),
            steps := b.steps + 1, max_steps := MAX_STEP }, ?_, ?_, ?_, ?_, rfl⟩
  · simp only [SokobanBoard.move, bind, Option.bind_eq_some, guard, Option.pure_def,
      Option.some_inj]
    refine ⟨pc, hpcget, (), by rw [if_pos hpckind], lvl1, hset1, bcell, hget2c,
      (), by rw [if_pos]; exact hbcellkind, lvl2, hset2c, cb, hgetb2c,
      (), by rw [if_pos hcbkind], lvl3, hset3c,
      (), by rw [if_pos]; exact (by unfold SokobanBoard.boxCount; exact hBox.symm),
      (), by rw [if_pos]; exact (by unfold SokobanBoard.goalCount; exact hGoal.symm),
      (), by rw [if_pos]; exact (by unfold SokobanBoard.playerCount; exact hPlayer),
      rfl⟩
  · unfold SokobanBoard.boxCount
    exact hBox
  · unfold SokobanBoard.goalCount
    exact hGoal
  · unfold SokobanBoard.playerCount
    exact hPlayer

/-- C8, witness: the S1 board and its unique push. -/
theorem c8_move_conservation_witness :
    ∃ b', s1Board.move (1, 1, 0, 1) = some b' ∧
      SokobanBoard.boxCount b'.level = SokobanBoard.boxCount s1Board.level ∧
      SokobanBoard.goalCount b'.level = SokobanBoard.goalCount s1Board.level ∧
      SokobanBoard.playerCount b'.level = 1 ∧
      b'.steps = s1Board.steps + 1 :=
  c8_move_conservation s1Board (1, 1, 0, 1) [(1, 1, 0, 1)] (by decide) (by decide)
    (Or.inl (by decide)) (by decide)

/-! ## C10 — registry disjointness, and C1 — the S3 run -/

theorem treeUpdate_registry : ∀ (fuel : Nat) (s : MCTSState) (id : NodeId) (v : ℚ)
    (mv : Reward) (s' : MCTSState), treeUpdate fuel s id v mv = some s' →
    s'.nodes = s.nodes ∧ s'.del_nodes = s.del_nodes := by
  intro fuel
  induction fuel with
  | zero => intro s id v mv s' h; simp [treeUpdate] at h
  | succ fuel ih =>
      intro s id v mv s' h
      unfold treeUpdate at h
      simp only [bind, Option.bind_eq_some] at h
      obtain ⟨nd, hnd, hrest⟩ := h
      split at hrest
      · simp only [Option.pure_def, Option.some_inj] at hrest
        rw [← hrest]
        exact ⟨rfl, rfl⟩
      · obtain ⟨h1, h2⟩ := ih _ _ v mv s' hrest
        exact ⟨h1, h2⟩

theorem setAdd_mem {l : List String} {h x : String} :
    x ∈ setAdd l h ↔ x ∈ l ∨ x = h := by
  unfold setAdd
  split
  · rename_i hmem
    constructor
    · exact Or.inl
    · rintro (hx | hx)
      · exact hx
      · rw [hx]; exact hmem
  · simp [or_comm]

theorem registryDisjoint_del {s : MCTSState} (hdisj : registryDisjoint s)
    {nodes' : List (String × NodeId)} {h : String}
    (hdel : dictDel s.nodes h = some nodes') :
    registryDisjoint { s with nodes := nodes', del_nodes := setAdd s.del_nodes h } := by
  unfold dictDel at hdel
  split at hdel
  · have hnodes' : nodes' = s.nodes.filter (fun kv => kv.1 ≠ h) :=
      (Option.some_inj.mp hdel).symm
    intro kv hkv
    simp only at hkv
    rw [hnodes'] at hkv
    have hmem := List.mem_filter.mp hkv
    intro hin
    simp only at hin
    rcases setAdd_mem.mp hin with hin | hin
    · exact hdisj kv hmem.1 hin
    · simp at hmem
      exact hmem.2 hin
  · exact Option.noConfusion hdel

theorem setNode_registry (s : MCTSState) (id : NodeId) (nd : NodeData) :
    (setNode s id nd).nodes = s.nodes ∧ (setNode s id nd).del_nodes = s.del_nodes :=
  ⟨rfl, rfl⟩

theorem treeRemove_registry : ∀ (fuel : Nat) (s : MCTSState) (id : NodeId)
    (s' : MCTSState), registryDisjoint s → treeRemove fuel s id = .ok s' →
    registryDisjoint s' := by
  intro fuel
  induction fuel with
  | zero => intro s id s' _ h; simp [treeRemove] at h
  | succ fuel ih =>
      intro s id s' hdisj h
      unfold treeRemove at h
      split at h
      · exact absurd h (by simp)
      rename_i nd hnd
      split at h
      · exact absurd h (by simp)
      rename_i nodes' hdel
      split at h
      case isFalse => exact absurd h (by simp)
      case isTrue hch =>
      split at h
      · simp only [Except.ok.injEq] at h
        rw [← h]
        exact registryDisjoint_del hdisj hdel
      rename_i pid hpar
      split at h
      · exact absurd h (by simp)
      · exact absurd h (by simp)
      rename_i pd mv hpdmv
      split at h
      case isFalse => exact absurd h (by simp)
      case isTrue hhas =>
      split at h
      case isTrue hsr =>
          refine ih _ _ s' ?_ h
          intro kv hkv
          exact registryDisjoint_del hdisj hdel kv hkv
      case isFalse hsr =>
          simp only [Except.ok.injEq] at h
          rw [← h]
          intro kv hkv
          exact registryDisjoint_del hdisj hdel kv hkv

theorem expandAdd_registry (mc : SokobanBoard → ℤ) (id : NodeId) :
    ∀ (moves : List Move) (s : MCTSState) (added : Nat) (s' : MCTSState) (added' : Nat),
      registryDisjoint s → expandAdd mc id moves s added = .ok (s', added') →
      registryDisjoint s' := by
  intro moves
  induction moves with
  | nil =>
      intro s added s' added' hdisj h
      simp only [expandAdd, Except.ok.injEq] at h
      cases h
      exact hdisj
  | cons mv rest ih =>
      intro s added s' added' hdisj h
      unfold expandAdd at h
      split at h
      · exact absurd h (by simp)
      rename_i nd hnd
      split at h
      · exact absurd h (by simp)
      rename_i newState hmove
      split at h
      · exact ih _ _ s' added' hdisj h
      · rename_i hmem
        split at h
        · exact absurd h (by simp)
        rename_i child hchild
        refine ih _ _ s' added' ?_ h
        intro kv hkv
        have hkv' : kv ∈ dictSet s.nodes newState.hash s.nextId := hkv
        unfold dictSet at hkv'
        rcases List.mem_append.mp hkv' with hkv2 | hkv2
        · exact hdisj kv (List.mem_filter.mp hkv2).1
        · simp at hkv2
          rw [hkv2]
          intro hin
          exact hmem (Or.inl hin)

theorem expandPrune_registry (id : NodeId) :
    ∀ (moves : List Move) (s : MCTSState) (s' : MCTSState),
      registryDisjoint s → expandPrune id moves s = .ok s' → registryDisjoint s' := by
  intro moves
  induction moves with
  | nil =>
      intro s s' hdisj h
      simp only [expandPrune, Except.ok.injEq] at h
      rw [← h]
      exact hdisj
  | cons mv rest ih =>
      intro s s' hdisj h
      unfold expandPrune at h
      split at h
      · exact absurd h (by simp)
      rename_i nd hnd
      split at h
      · exact ih s s' hdisj h
      rename_i c hc
      split at h
      · exact absurd h (by simp)
      rename_i cd hcd
      split at h
      case isFalse => exact ih s s' hdisj h
      case isTrue =>
      split at h
      case isFalse => exact absurd h (by simp)
      case isTrue =>
      split at h
      · exact absurd h (by simp)
      rename_i s2 hs2
      exact ih s2 s' (treeRemove_registry _ s c.2 s2 hdisj hs2) h

theorem expandNode_registry (mc : SokobanBoard → ℤ) (s : MCTSState) (id : NodeId)
    (vm : List Move) (s' : MCTSState) (hdisj : registryDisjoint s)
    (h : expandNode mc s id vm = .ok s') : registryDisjoint s' := by
  unfold expandNode at h
  simp only [bind, Except.bind] at h
  cases hadd : expandAdd mc id vm s 0 with
  | error e => rw [hadd] at h; exact absurd h (by simp)
  | ok pr =>
      rw [hadd] at h
      obtain ⟨s1, added⟩ := pr
      have hdisj1 := expandAdd_registry mc id vm s 0 s1 added hdisj hadd
      simp only at h
      cases hprune : expandPrune id vm s1 with
      | error e => rw [hprune] at h; exact absurd h (by simp)
      | ok s2 =>
          rw [hprune] at h
          have hdisj2 := expandPrune_registry id vm s1 s2 hdisj1 hprune
          simp only at h
          split at h
          case isFalse =>
              simp only [Except.ok.injEq] at h
              rw [← h]
              exact hdisj2
          case isTrue =>
          split at h
          · exact absurd h (by simp)
          rename_i nd hnd
          split at h
          case isTrue => exact treeRemove_registry _ s2 id s' hdisj2 h
          case isFalse => exact absurd h (by simp)

theorem runIter_registry (mc : SokobanBoard → ℤ) (choice pickBest : List NodeId → NodeId)
    (s : MCTSState) (s' : MCTSState) (hdisj : registryDisjoint s)
    (h : runIter mc choice pickBest s = .ok (Sum.inl s')) : registryDisjoint s' := by
  unfold runIter at h
  split at h
  · exact absurd h (by simp)
  · simp at h
  rename_i oid hsel
  split at h
  · exact absurd h (by simp)
  rename_i nd hnd
  split at h
  case isTrue =>
      split at h
      · exact absurd h (by simp)
      rename_i r hro
      split at h
      · exact absurd h (by simp)
      rename_i s2 hupd
      simp only [Except.ok.injEq, Sum.inl.injEq] at h
      rw [← h]
      intro kv hkv
      obtain ⟨h1, h2⟩ := treeUpdate_registry _ s _ _ r s2 hupd
      rw [h2]
      exact hdisj kv (h1 ▸ hkv)
  case isFalse =>
      split at h
      · exact absurd h (by simp)
      rename_i vm hvm
      split at h
      · exact absurd h (by simp)
      rename_i s1 hexp
      have hdisj1 := expandNode_registry mc s _ vm s1 hdisj hexp
      split at h
      · exact absurd h (by simp)
      rename_i nd1 hnd1
      split at h
      case isTrue =>
          split at h
          · exact absurd h (by simp)
          rename_i cd hcd
          split at h
          · exact absurd h (by simp)
          rename_i r hro
          split at h
          · exact absurd h (by simp)
          rename_i s2 hupd
          simp only [Except.ok.injEq, Sum.inl.injEq] at h
          rw [← h]
          intro kv hkv
          obtain ⟨h1, h2⟩ := treeUpdate_registry _ s1 _ _ r s2 hupd
          rw [h2]
          exact hdisj1 kv (h1 ▸ hkv)
      case isFalse =>
          simp only [Except.ok.injEq, Sum.inl.injEq] at h
          rw [← h]
          exact hdisj1

/-- `MCTS.__init__` establishes the registry invariant. -/
theorem mkMCTS_registry (mc : SokobanBoard → ℤ) (b : SokobanBoard) (s : MCTSState)
    (h : mkMCTS mc b = some s) : registryDisjoint s := by
  unfold mkMCTS at h
  simp only [bind, Option.bind_eq_some, Option.pure_def, Option.some_inj] at h
  obtain ⟨root, -, hs⟩ := h
  rw [← hs]
  intro kv hkv
  simp

/-- C10: the key set of `nodes` and the set `del_nodes` are disjoint after
construction, and disjointness is preserved by every completed removal,
expansion, and run iteration. -/
theorem c10_registry_disjoint :
    (∀ (mc : SokobanBoard → ℤ) (b : SokobanBoard) (s : MCTSState),
      mkMCTS mc b = some s → registryDisjoint s) ∧
    (∀ (fuel : Nat) (s : MCTSState) (id : NodeId) (s' : MCTSState),
      registryDisjoint s → treeRemove fuel s id = .ok s' → registryDisjoint s') ∧
    (∀ (mc : SokobanBoard → ℤ) (s : MCTSState) (id : NodeId) (vm : List Move)
      (s' : MCTSState), registryDisjoint s → expandNode mc s id vm = .ok s' →
      registryDisjoint s') ∧
    (∀ (mc : SokobanBoard → ℤ) (choice pickBest : List NodeId → NodeId)
      (s s' : MCTSState), registryDisjoint s →
      runIter mc choice pickBest s = .ok (Sum.inl s') → registryDisjoint s') :=
  ⟨mkMCTS_registry, treeRemove_registry,
    fun mc s id vm s' h1 h2 => expandNode_registry mc s id vm s' h1 h2,
    fun mc choice pickBest s s' h1 h2 => runIter_registry mc choice pickBest s s' h1 h2⟩

/-- C10, witness: the invariant holds for the freshly constructed S3 tree. -/
theorem c10_registry_disjoint_witness :
    registryDisjoint ((mkMCTS min_cost_matching s3Board).getD
      ⟨[], 0, 0, [], []⟩) :=
  c10_registry_disjoint.1 min_cost_matching s3Board _ (by rfl)

/-- C1: evaluating `run` on scenario S3.  With 2 simulations the root is
rolled out, then expanded (no children), removed, and `run` returns `[]`;
with 3 simulations the third iteration selects the still-referenced root
again, expands it again, and the second `remove` raises `KeyError` on
`del mcts.nodes[hash]` — `run` never returns `None` on S3 (the `select_leaf`
`None` branch is unreachable: `select_child` yields a node whenever the loop
guard holds).  This holds for every determinisation of the random-choice
oracles, which the trace never consults. -/
theorem c1_run_s3_keyerror (choice pickBest : List NodeId → NodeId)
    (pickMove : List (Move × NodeId) → Move × NodeId) :
    (mkMCTS min_cost_matching s3Board).map
        (runMCTS min_cost_matching choice pickBest pickMove 3) =
      some (.error .keyError) ∧
    (mkMCTS min_cost_matching s3Board).map
        (runMCTS min_cost_matching choice pickBest pickMove 2) =
      some (.ok (some [])) :=
  ⟨rfl, rfl⟩

/-! ## C7 — rollout versus wins within `LOOKAHEAD` pushes -/

/-- C7, counterexample: on `c7Board` a `WIN` lies two pushes away (`2 ≤
LOOKAHEAD = 7`), yet a single rollout returns kind `STEP`, not `WIN`: the
intermediate board after the first push classifies `LOSS` (its step counter
exceeds the budget), only `STEP` successors are enqueued, so the BFS never
generates the winning board. -/
theorem c7_rollout_counterexample :
    winPath min_cost_matching c7Board [(1, 1, 0, 1), (1, 2, 0, 1)] ∧
    ([(1, 1, 0, 1), (1, 2, 0, 1)] : List Move).length ≤ LOOKAHEAD ∧
    (nodeRollout min_cost_matching (LOOKAHEAD + 2) c7Board).map Reward.rtype
      = some RType.STEP := by
  refine ⟨⟨[(1, 1, 0, 1)], c7Mid, by decide, by decide, by decide,
    [(1, 2, 0, 1)], c7Win, by decide, by decide, by decide, by decide⟩, by decide, by decide⟩

/-! ## C7 — congruence, totality and preservation lemmas, and the rollout BFS -/

theorem mem_insertPos {y x : Pos} : ∀ {l : List Pos}, y ∈ insertPos x l ↔ y = x ∨ y ∈ l := by
  intro l
  induction l with
  | nil => simp [insertPos]
  | cons a t ih =>
      unfold insertPos
      split
      · simp
      · simp only [List.mem_cons, ih]
        tauto

theorem mem_pySorted {y : Pos} {l : List Pos} : y ∈ pySorted l ↔ y ∈ l := by
  unfold pySorted
  induction l with
  | nil => simp
  | cons a t ih =>
      simp only [List.foldr_cons, mem_insertPos, List.mem_cons, ih]

theorem mapM_some_of_forall {α β : Type} (f : α → Option β) :
    ∀ {l : List α}, (∀ a ∈ l, (f a).isSome) → ∃ res, l.mapM f = some res := by
  intro l
  induction l with
  | nil => intro _; exact ⟨[], rfl⟩
  | cons a t ih =>
      intro h
      obtain ⟨b, hb⟩ := Option.isSome_iff_exists.mp (h a (List.mem_cons_self a t))
      obtain ⟨res, hres⟩ := ih (fun x hx => h x (List.mem_cons_of_mem a hx))
      refine ⟨b :: res, ?_⟩
      rw [List.mapM_cons]
      simp only [bind, hb, Option.some_bind, hres, Option.pure_def]

theorem mapM_mem_of_mem {α β : Type} (f : α → Option β) :
    ∀ {l : List α} {res : List β}, l.mapM f = some res → ∀ {a : α}, a ∈ l →
      ∀ {y : β}, f a = some y → y ∈ res := by
  intro l
  induction l with
  | nil => intro res h a ha; simp at ha
  | cons x t ih =>
      intro res h a ha y hy
      rw [List.mapM_cons] at h
      simp only [bind, Option.bind_eq_some, Option.pure_def, Option.some_inj] at h
      obtain ⟨b, hb, bs, hbs, hres⟩ := h
      subst hres
      rcases List.mem_cons.mp ha with rfl | ha
      · rw [hy] at hb
        cases Option.some_inj.mp hb
        exact List.mem_cons_self _ _
      · exact List.mem_cons_of_mem _ (ih hbs ha hy)

theorem npIdx_natCast {n i j : Nat} (h : npIdx n (i : Int) = some j) : j = i ∧ i < n := by
  unfold npIdx at h
  split at h
  · rename_i hc
    simp only [Option.some_inj] at h
    subst h
    constructor
    · simp
    · exact_mod_cast hc.2
  · split at h
    · rename_i hc
      exfalso
      have : (0 : Int) ≤ (i : Int) := Int.ofNat_nonneg i
      omega
    · exact Option.noConfusion h

theorem npGet_natCast_some {g : Grid} {i j : Nat} {c : Cell}
    (h : npGet g (i : Int) (j : Int) = some c) :
    ∃ row, g[i]? = some row ∧ row[j]? = some c := by
  obtain ⟨i', j', row, hres, hrow, hc⟩ := npGet_eq_some_iff.mp h
  obtain ⟨hi, row2, hrow2, hj⟩ := npResolve_some hres
  obtain ⟨hii, -⟩ := npIdx_natCast hi
  subst hii
  rw [hrow] at hrow2
  cases hrow2
  obtain ⟨hjj, -⟩ := npIdx_natCast hj
  subst hjj
  exact ⟨row, hrow, hc⟩

theorem rolloutInitVisited_length {b : SokobanBoard} {h : String}
    (hm : h ∈ rolloutInitVisited b) : h.length = 1 := by
  unfold rolloutInitVisited at hm
  rw [List.mem_map] at hm
  obtain ⟨c, -, hc⟩ := hm
  rw [← hc]
  rfl

theorem hash_length_two_le (b : SokobanBoard) : 2 ≤ b.hash.length := by
  have hd : b.hash.data = pairListRepr b.interior ++ pairListRepr b.box_positions :=
    hash_data b
  have hlen : b.hash.length = b.hash.data.length := rfl
  rw [hlen, hd, List.length_append]
  unfold pairListRepr
  simp only [List.length_cons, List.length_append]
  omega

theorem findElements_len_one_unique {g : Grid} {elems : List Cell} {p q : Pos}
    (hlen : (findElements g elems).length = 1)
    (hp : p ∈ findElements g elems) (hq : q ∈ findElements g elems) : p = q := by
  obtain ⟨a, ha⟩ := List.length_eq_one.mp hlen
  rw [ha] at hp hq
  simp at hp hq
  rw [hp, hq]

theorem valid_moves_congr {t p : SokobanBoard} (htl : t.level = p.level)
    (htp : t.player = p.player) : t.valid_moves = p.valid_moves := by
  unfold SokobanBoard.valid_moves
  rw [htl, htp]

theorem deadlockPairs_congr {t p : SokobanBoard} (htl : t.level = p.level) (box : Pos) :
    ∀ l : List (Pos × Pos), SokobanBoard.deadlockPairs t box l =
      SokobanBoard.deadlockPairs p box l := by
  intro l
  induction l with
  | nil => rfl
  | cons a rest ih =>
      obtain ⟨d1, d2⟩ := a
      unfold SokobanBoard.deadlockPairs
      rw [htl, ih]

theorem is_deadlocked_congr {t p : SokobanBoard} (htl : t.level = p.level) (box : Pos) :
    t.is_deadlocked box = p.is_deadlocked box := by
  unfold SokobanBoard.is_deadlocked
  rw [htl, deadlockPairs_congr htl]

theorem deadlockBoxes_congr {t p : SokobanBoard} (htl : t.level = p.level) :
    ∀ l : List Pos, SokobanBoard.deadlockBoxes t l = SokobanBoard.deadlockBoxes p l := by
  intro l
  induction l with
  | nil => rfl
  | cons a rest ih =>
      unfold SokobanBoard.deadlockBoxes
      rw [is_deadlocked_congr htl, ih]

theorem check_deadlock_congr {t p : SokobanBoard} (htl : t.level = p.level)
    (htp : t.player = p.player) : t.check_deadlock = p.check_deadlock := by
  unfold SokobanBoard.check_deadlock
  rw [valid_moves_congr htl htp, htl, deadlockBoxes_congr htl]

theorem rtype_win_iff {mc : SokobanBoard → ℤ} {b : SokobanBoard} :
    (b.reward mc).map Reward.rtype = some RType.WIN ↔
      (findElements b.level [Cell.box]).length = 0 := by
  unfold SokobanBoard.reward
  split
  · rename_i hwin
    simp only [Option.pure_def, Option.map_some']
    exact ⟨fun _ => hwin, fun _ => trivial⟩
  · rename_i hnowin
    simp only [List.length_eq_zero] at hnowin
    constructor
    · intro h
      cases hcd : b.check_deadlock with
      | none => rw [hcd] at h; simp [bind] at h
      | some dl =>
          rw [hcd] at h
          simp only [bind, Option.some_bind] at h
          split at h <;> simp at h
    · intro h
      exact absurd (List.length_eq_zero.mp h) hnowin

theorem rtype_step_congr {mc : SokobanBoard → ℤ} {t p : SokobanBoard}
    (htl : t.level = p.level) (htp : t.player = p.player)
    (htm : t.max_steps = p.max_steps) (hts : t.steps ≤ p.steps)
    (hp : (p.reward mc).map Reward.rtype = some RType.STEP) :
    (t.reward mc).map Reward.rtype = some RType.STEP := by
  unfold SokobanBoard.reward at hp ⊢
  rw [htl, check_deadlock_congr htl htp]
  split at hp
  · simp at hp
  · rename_i hnowin
    rw [if_neg hnowin]
    cases hcd : p.check_deadlock with
    | none => rw [hcd] at hp; simp [bind] at hp
    | some dl =>
        rw [hcd] at hp
        simp only [bind, Option.some_bind] at hp
        split at hp
        · simp at hp
        · rename_i hcond
          show (Option.map Reward.rtype (bind (some dl) fun dl =>
            if dl = true ∨ t.steps > t.max_steps ∨
                (findElements p.level [Cell.box]).length = 0 then
              pure { value := -mc t, rtype := RType.LOSS }
            else pure { value := -mc t, rtype := RType.STEP })) = some RType.STEP
          simp only [bind, Option.some_bind]
          rw [if_neg]
          · simp
          · push_neg at hcond ⊢
            exact ⟨hcond.1, by omega, hcond.2.2⟩

theorem move_congr {t p : SokobanBoard} (htl : t.level = p.level)
    (htp : t.player = p.player) {m : Move} {p1 : SokobanBoard}
    (hp : p.move m = some p1) :
    t.move m = some { level := p1.level, player := p1.player,
                      steps := t.steps + 1, max_steps := MAX_STEP } ∧
      p1.steps = p.steps + 1 ∧ p1.max_steps = MAX_STEP ∧
      p1.player = (m.1 + m.2.2.1, m.2.1 + m.2.2.2) := by
  obtain ⟨px, py, dx, dy⟩ := m
  simp only [SokobanBoard.move, bind, Option.bind_eq_some, guard, Option.pure_def,
    Option.some_inj] at hp ⊢
  obtain ⟨pc, hpc, u1, hg1, lvl1, hset1, bc, hbc, u2, hg2, lvl2, hset2,
    pc2, hpc2, u3, hg3, lvl3, hset3, u4, hg4, u5, hg5, u6, hg6, hdef⟩ := hp
  rw [htl, htp]
  refine ⟨⟨pc, hpc, u1, hg1, lvl1, hset1, bc, hbc, u2, hg2, lvl2, hset2,
    pc2, hpc2, u3, hg3, lvl3, hset3, u4, hg4, u5, hg5, u6, hg6, ?_⟩, ?_, ?_, ?_⟩
  · rw [← hdef]
  · rw [← hdef]
  · rw [← hdef]
  · rw [← hdef]

theorem stepWinPath_congr {mc : SokobanBoard → ℤ} :
    ∀ {ms : List Move} {t p : SokobanBoard}, t.level = p.level → t.player = p.player →
      t.steps ≤ p.steps → stepWinPath mc p ms → stepWinPath mc t ms := by
  intro ms
  induction ms with
  | nil => intro t p _ _ _ h; exact h.elim
  | cons m rest ih =>
      intro t p htl htp hts hpath
      obtain ⟨vms, p2, hvm, hm, hmove, htail⟩ := hpath
      obtain ⟨htmove, hp2s, hp2m, -⟩ := move_congr htl htp hmove
      refine ⟨vms, _, (valid_moves_congr htl htp).trans hvm, hm, htmove, ?_⟩
      cases rest with
      | nil =>
          simp only at htail ⊢
          rw [rtype_win_iff] at htail ⊢
          exact htail
      | cons m2 rest2 =>
          simp only at htail ⊢
          obtain ⟨hstep, hrest⟩ := htail
          refine ⟨?_, ?_⟩
          · exact @rtype_step_congr mc ⟨p2.level, p2.player, t.steps + 1, MAX_STEP⟩ p2
              rfl rfl hp2m.symm
              (by rw [hp2s]; exact Nat.add_le_add_right hts 1) hstep
          · exact @ih ⟨p2.level, p2.player, t.steps + 1, MAX_STEP⟩ p2 rfl rfl
              (by rw [hp2s]; exact Nat.add_le_add_right hts 1) hrest

theorem rectGrid_row_len {g : Grid} (hrect : rectGrid g) {i : Nat} {row : List Cell}
    (hrow : g[i]? = some row) :
    row.length = (g.head?.map List.length).getD 0 := by
  obtain ⟨-, -, hall⟩ := hrect
  refine hall row ?_
  obtain ⟨hlt, hval⟩ := List.getElem?_eq_some.mp hrow
  exact hval ▸ List.getElem_mem hlt

theorem nonwall_not_border {g : Grid} (_hrect : rectGrid g) (hbord : borderedGrid g)
    {i j : Nat} {row : List Cell} {c : Cell}
    (hrow : g[i]? = some row) (hc : row[j]? = some c) (hcw : c ≠ Cell.wall) :
    0 < i ∧ i + 1 < g.length ∧ 0 < j ∧ j + 1 < row.length := by
  have hi : i < g.length := (List.getElem?_eq_some.mp hrow).1
  have hj : j < row.length := (List.getElem?_eq_some.mp hc).1
  have h0 : ¬(i = 0 ∨ i = g.length - 1 ∨ j = 0 ∨ j = row.length - 1) := by
    intro hcase
    exact hcw (hbord i j row c hrow hc hcase)
  push_neg at h0
  omega

theorem npGet_total {g : Grid} (hrect : rectGrid g) {x y : Int}
    (hx0 : 0 ≤ x) (hx : x < g.length)
    (hy0 : 0 ≤ y) (hy : y < ((g.head?.map List.length).getD 0 : Nat)) :
    ∃ c, npGet g x y = some c := by
  have hxi : npIdx g.length x = some x.toNat := by
    unfold npIdx
    rw [if_pos ⟨hx0, hx⟩]
  have hxlt : x.toNat < g.length := by omega
  have hrow : g[x.toNat]? = some (g.getD x.toNat []) := by
    rw [List.getElem?_eq_getElem hxlt, List.getD_eq_getElem?_getD,
      List.getElem?_eq_getElem hxlt]
    rfl
  have hlen : (g.getD x.toNat []).length = (g.head?.map List.length).getD 0 :=
    rectGrid_row_len hrect hrow
  have hyi : npIdx (g.getD x.toNat []).length y = some y.toNat := by
    unfold npIdx
    rw [if_pos ⟨hy0, by rw [hlen]; exact_mod_cast hy⟩]
  have hylt : y.toNat < (g.getD x.toNat []).length := by
    rw [hlen]; omega
  refine ⟨(g.getD x.toNat []).get ⟨y.toNat, hylt⟩, ?_⟩
  unfold npGet
  simp only [bind, hxi, Option.some_bind, hrow, hyi]
  rw [List.getElem?_eq_getElem hylt]
  simp

theorem valid_moves_total {b : SokobanBoard} (hrect : rectGrid b.level)
    (hbord : borderedGrid b.level) : ∃ vms, b.valid_moves = some vms := by
  set g := b.level with hg
  have htot : ∀ c ∈ (findElements g [Cell.box, Cell.boxOnGoal]).flatMap (fun bx =>
      dirs.filterMap (fun d =>
        if (bx.1 - d.1, bx.2 - d.2) ∈ findInterior g b.player.1 b.player.2 then
          some ((bx.1 - d.1, bx.2 - d.2), d, bx)
        else none)),
      ((npGet g (c.2.2.1 + c.2.1.1) (c.2.2.2 + c.2.1.2)).map
        (fun cell => (c, cell))).isSome := by
    intro c hc
    rw [List.mem_flatMap] at hc
    obtain ⟨bx, hbx, hcd⟩ := hc
    rw [List.mem_filterMap] at hcd
    obtain ⟨d, hd, hval⟩ := hcd
    split at hval
    · cases Option.some_inj.mp hval
      rw [mem_findElements_iff] at hbx
      obtain ⟨i, j, row, cb, hrow, hcb, hcbmem, hbxeq⟩ := hbx
      have hcbw : cb ≠ Cell.wall := by
        simp only [List.mem_cons, List.not_mem_nil, or_false] at hcbmem
        rcases hcbmem with h | h <;> (rw [h]; intro hx; exact Cell.noConfusion hx)
      obtain ⟨hi0, hi1, hj0, hj1⟩ := nonwall_not_border hrect hbord hrow hcb hcbw
      have hrl : row.length = (g.head?.map List.length).getD 0 :=
        rectGrid_row_len hrect hrow
      have hgl : i < g.length := (List.getElem?_eq_some.mp hrow).1
      have hdmem : d = ((0 : Int), (1 : Int)) ∨ d = ((1 : Int), (0 : Int)) ∨
          d = ((0 : Int), (-1 : Int)) ∨ d = ((-1 : Int), (0 : Int)) := by
        simp only [dirs, List.mem_cons, List.not_mem_nil, or_false] at hd
        exact hd
      subst hbxeq
      have hget : ∃ cc, npGet g ((i : Int) + d.1) ((j : Int) + d.2) = some cc := by
        rcases hdmem with h | h | h | h <;> subst h <;>
          refine npGet_total hrect ?_ ?_ ?_ ?_ <;> push_cast <;> omega
      obtain ⟨cc, hcc⟩ := hget
      simp only [hcc, Option.map_some', Option.isSome_some]
    · exact Option.noConfusion hval
  obtain ⟨checked, hchk⟩ := mapM_some_of_forall _ htot
  refine ⟨checked.filterMap (fun cc =>
    if cc.2 = Cell.box ∨ cc.2 = Cell.boxOnGoal ∨ cc.2 = Cell.wall then none
    else some (cc.1.1.1, cc.1.1.2, cc.1.2.1.1, cc.1.2.1.2)), ?_⟩
  unfold SokobanBoard.valid_moves
  rw [← hg]
  simp only [bind, hchk, Option.some_bind, Option.pure_def]

theorem deadlockPairs_total {b : SokobanBoard} {box : Pos} :
    ∀ {l : List (Pos × Pos)},
      (∀ pr ∈ l, (npGet b.level (box.1 + pr.1.1) (box.2 + pr.1.2)).isSome ∧
        (npGet b.level (box.1 + pr.2.1) (box.2 + pr.2.2)).isSome) →
      ∃ v, SokobanBoard.deadlockPairs b box l = some v := by
  intro l
  induction l with
  | nil => intro _; exact ⟨false, rfl⟩
  | cons pr rest ih =>
      intro h
      obtain ⟨h1, h2⟩ := h pr (List.mem_cons_self pr rest)
      obtain ⟨o1, ho1⟩ := Option.isSome_iff_exists.mp h1
      obtain ⟨o2, ho2⟩ := Option.isSome_iff_exists.mp h2
      obtain ⟨d1, d2⟩ := pr
      obtain ⟨v, hv⟩ := ih (fun x hx => h x (List.mem_cons_of_mem _ hx))
      unfold SokobanBoard.deadlockPairs
      simp only at ho1 ho2
      simp only [bind, ho1, Option.some_bind, ho2]
      split
      · exact ⟨true, rfl⟩
      · exact ⟨v, hv⟩

theorem is_deadlocked_total {b : SokobanBoard} (hrect : rectGrid b.level)
    (hbord : borderedGrid b.level) {box : Pos}
    (hmem : box ∈ findElements b.level [Cell.box, Cell.boxOnGoal]) :
    ∃ v, b.is_deadlocked box = some v := by
  rw [mem_findElements_iff] at hmem
  obtain ⟨i, j, row, cb, hrow, hcb, hcbmem, hboxeq⟩ := hmem
  have hcbw : cb ≠ Cell.wall := by
    simp only [List.mem_cons, List.not_mem_nil, or_false] at hcbmem
    rcases hcbmem with h | h <;> (rw [h]; intro hx; exact Cell.noConfusion hx)
  obtain ⟨hi0, hi1, hj0, hj1⟩ := nonwall_not_border hrect hbord hrow hcb hcbw
  have hrl : row.length = (b.level.head?.map List.length).getD 0 :=
    rectGrid_row_len hrect hrow
  obtain ⟨hget, -⟩ := npGet_of_getElem hrow hcb
  subst hboxeq
  unfold SokobanBoard.is_deadlocked
  simp only [bind, hget, Option.some_bind]
  split
  · exact ⟨false, rfl⟩
  · refine deadlockPairs_total ?_
    intro pr hpr
    have hprmem : pr = (((0 : Int), (1 : Int)), ((1 : Int), (0 : Int))) ∨
        pr = (((1 : Int), (0 : Int)), ((0 : Int), (-1 : Int))) ∨
        pr = (((0 : Int), (-1 : Int)), ((-1 : Int), (0 : Int))) ∨
        pr = (((-1 : Int), (0 : Int)), ((0 : Int), (1 : Int))) := by
      simp only [dirs, List.zip, List.zipWith, List.mem_cons,
        List.not_mem_nil, or_false] at hpr
      exact hpr
    rcases hprmem with h | h | h | h <;> subst h <;> constructor <;>
      (refine Option.isSome_iff_exists.mpr ?_;
       refine npGet_total hrect ?_ ?_ ?_ ?_ <;> push_cast <;> omega)

theorem deadlockBoxes_total {b : SokobanBoard} (hrect : rectGrid b.level)
    (hbord : borderedGrid b.level) :
    ∀ {l : List Pos}, (∀ bx ∈ l, bx ∈ findElements b.level [Cell.box, Cell.boxOnGoal]) →
      ∃ v, SokobanBoard.deadlockBoxes b l = some v := by
  intro l
  induction l with
  | nil => intro _; exact ⟨false, rfl⟩
  | cons bx rest ih =>
      intro h
      obtain ⟨v1, hv1⟩ := is_deadlocked_total hrect hbord (h bx (List.mem_cons_self bx rest))
      obtain ⟨v, hv⟩ := ih (fun x hx => h x (List.mem_cons_of_mem _ hx))
      unfold SokobanBoard.deadlockBoxes
      simp only [bind, hv1, Option.some_bind]
      split
      · exact ⟨true, rfl⟩
      · exact ⟨v, hv⟩

theorem check_deadlock_total {b : SokobanBoard} (hrect : rectGrid b.level)
    (hbord : borderedGrid b.level) : ∃ v, b.check_deadlock = some v := by
  obtain ⟨vms, hvms⟩ := valid_moves_total hrect hbord
  unfold SokobanBoard.check_deadlock
  simp only [bind, hvms, Option.some_bind]
  split
  · exact ⟨true, rfl⟩
  · exact deadlockBoxes_total hrect hbord (fun x hx => hx)

theorem reward_total {mc : SokobanBoard → ℤ} {b : SokobanBoard} (hrect : rectGrid b.level)
    (hbord : borderedGrid b.level) :
    ∃ k, (b.reward mc).map Reward.rtype = some k := by
  unfold SokobanBoard.reward
  split
  · exact ⟨RType.WIN, rfl⟩
  · obtain ⟨dl, hdl⟩ := check_deadlock_total hrect hbord
    simp only [bind, hdl, Option.some_bind]
    split
    · exact ⟨RType.LOSS, rfl⟩
    · exact ⟨RType.STEP, rfl⟩

theorem rowlen_set {g : Grid} {i : Nat} {row : List Cell} (hrow : g[i]? = some row)
    (j : Nat) (v : Cell) (k : Nat) :
    ((g.set i (row.set j v))[k]?).map List.length = (g[k]?).map List.length := by
  by_cases hk : k = i
  · subst hk
    have hlt : k < g.length := (List.getElem?_eq_some.mp hrow).1
    rw [List.getElem?_set_eq_of_lt _ (by simpa using hlt), hrow]
    simp [List.length_set]
  · rw [List.getElem?_set_ne (by omega)]

theorem playerLike_unique {g : Grid} (hone : SokobanBoard.playerCount g = 1)
    {i j i' j' : Nat} {row row' : List Cell} {c c' : Cell}
    (hrow : g[i]? = some row) (hc : row[j]? = some c) (hpl : playerLike c)
    (hrow' : g[i']? = some row') (hc' : row'[j']? = some c')
    (hpl' : playerLike c') : i = i' ∧ j = j' := by
  unfold SokobanBoard.playerCount at hone
  have hm1 : ((i : Int), (j : Int)) ∈ findElements g [Cell.player, Cell.playerOnGoal] :=
    mem_findElements_iff.mpr ⟨i, j, row, c, hrow, hc, by
      rcases hpl with h | h <;> simp [h], rfl⟩
  have hm2 : ((i' : Int), (j' : Int)) ∈ findElements g [Cell.player, Cell.playerOnGoal] :=
    mem_findElements_iff.mpr ⟨i', j', row', c', hrow', hc', by
      rcases hpl' with h | h <;> simp [h], rfl⟩
  have := findElements_len_one_unique hone hm1 hm2
  rw [Prod.mk.injEq] at this
  exact ⟨by exact_mod_cast this.1, by exact_mod_cast this.2⟩

theorem npIdx_nonneg_val {n : Nat} {x : Int} {i : Nat}
    (h : npIdx n x = some i) (hx : 0 ≤ x) : (i : Int) = x := by
  unfold npIdx at h
  split at h
  · rename_i hc
    cases Option.some_inj.mp h
    omega
  · split at h
    · rename_i hc
      omega
    · exact Option.noConfusion h

theorem npResolve_nonneg_val {g : Grid} {x y : Int} {i j : Nat}
    (h : npResolve g x y = some (i, j)) (hx : 0 ≤ x) (hy : 0 ≤ y) :
    (i : Int) = x ∧ (j : Int) = y := by
  obtain ⟨hi, row, hrow, hj⟩ := npResolve_some h
  exact ⟨npIdx_nonneg_val hi hx, npIdx_nonneg_val hj hy⟩

theorem move_cells {b : SokobanBoard} (hrect : rectGrid b.level)
    (hbord : borderedGrid b.level) {vms : List Move} (hvm : b.valid_moves = some vms)
    {m : Move} (hm : m ∈ vms)
    (hpc : npGet b.level b.player.1 b.player.2 = some Cell.player ∨
           npGet b.level b.player.1 b.player.2 = some Cell.playerOnGoal)
    (hone : SokobanBoard.playerCount b.level = 1) :
    ∃ (b' : SokobanBoard) (i1 j1 i2 j2 : Nat),
      b.move m = some b' ∧
      (i1 : Int) = m.1 + m.2.2.1 ∧ (j1 : Int) = m.2.1 + m.2.2.2 ∧
      (i2 : Int) = m.1 + 2 * m.2.2.1 ∧ (j2 : Int) = m.2.1 + 2 * m.2.2.2 ∧
      b'.player = ((i1 : Int), (j1 : Int)) ∧
      (npGet b'.level (i1 : Int) (j1 : Int) = some Cell.player ∨
       npGet b'.level (i1 : Int) (j1 : Int) = some Cell.playerOnGoal) ∧
      b'.steps = b.steps + 1 ∧ b'.max_steps = MAX_STEP ∧
      SokobanBoard.playerCount b'.level = 1 ∧
      b'.level.length = b.level.length ∧
      (∀ k : Nat, (b'.level[k]?).map List.length = (b.level[k]?).map List.length) ∧
      (∀ (i j : Nat) (c : Cell), npGet b.level (i : Int) (j : Int) = some c →
        ∃ c', npGet b'.level (i : Int) (j : Int) = some c' ∧
          (c = Cell.wall ↔ c' = Cell.wall) ∧
          (goalUnder c ↔ goalUnder c') ∧
          (boxLike c' ↔ ((i = i2 ∧ j = j2) ∨ (boxLike c ∧ ¬(i = i1 ∧ j = j1)))) ∧
          (playerLike c' ↔ (i = i1 ∧ j = j1))) := by
  obtain ⟨bx, d, cell, hbx, hd, hint, hgetcell, hnotbad, hmdef⟩ := valid_moves_spec hvm hm
  subst hmdef
  have hpc' : ∃ pc, npGet b.level b.player.1 b.player.2 = some pc ∧
      (pc = Cell.player ∨ pc = Cell.playerOnGoal) := by
    rcases hpc with h | h
    · exact ⟨Cell.player, h, Or.inl rfl⟩
    · exact ⟨Cell.playerOnGoal, h, Or.inr rfl⟩
  obtain ⟨pc, hpcget, hpckind⟩ := hpc'
  obtain ⟨ip, jp, hresp⟩ := npResolve_isSome_of_npGet hpcget
  obtain ⟨prow, pc0, hprow, hpcell0, hpget0⟩ := npGet_of_resolve hresp
  have hpceq : pc0 = pc := Option.some_inj.mp (hpget0.symm.trans hpcget)
  rw [hpceq] at hpcell0
  have hjp : jp < prow.length := (List.getElem?_eq_some.mp hpcell0).1
  -- the box cell
  rw [mem_findElements_iff] at hbx
  obtain ⟨i1, j1, rowb, cb, hrowb, hcb, hcbkind, hbxdef⟩ := hbx
  subst hbxdef
  obtain ⟨hgetb, hresb⟩ := npGet_of_getElem hrowb hcb
  simp only at hgetb hresb hint hgetcell hnotbad
  simp only [not_or] at hnotbad
  simp only [List.mem_cons, List.not_mem_nil, or_false] at hcbkind
  -- border facts for the box cell
  have hcbw : cb ≠ Cell.wall := by
    rcases hcbkind with h | h <;> (rw [h]; intro hx; exact Cell.noConfusion hx)
  obtain ⟨hi10, hi11, hj10, hj11⟩ := nonwall_not_border hrect hbord hrowb hcb hcbw
  -- the target cell
  obtain ⟨i2, j2, hres2⟩ := npResolve_isSome_of_npGet hgetcell
  have hdmem : d = ((0 : Int), (1 : Int)) ∨ d = ((1 : Int), (0 : Int)) ∨
      d = ((0 : Int), (-1 : Int)) ∨ d = ((-1 : Int), (0 : Int)) := by
    simp only [dirs, List.mem_cons, List.not_mem_nil, or_false] at hd
    exact hd
  have hdarith : (d.1 = 0 ∧ (d.2 = 1 ∨ d.2 = -1)) ∨ (d.2 = 0 ∧ (d.1 = 1 ∨ d.1 = -1)) := by
    rcases hdmem with h | h | h | h <;> subst h <;> simp
  have htgt : (i2 : Int) = (i1 : Int) + d.1 ∧ (j2 : Int) = (j1 : Int) + d.2 :=
    npResolve_nonneg_val hres2 (by omega) (by omega)
  -- distinct resolved indices
  have hbp : ¬(i1 = ip ∧ j1 = jp) := by
    rintro ⟨h1, h2⟩
    have heq : cb = pc :=
      npGet_value_unique (show npResolve b.level (i1 : Int) (j1 : Int) = some (ip, jp) by
        rw [hresb, h1, h2]) hresp hgetb hpcget
    rcases hcbkind with hk | hk <;> rcases hpckind with hk2 | hk2 <;>
      (rw [hk, hk2] at heq; exact Cell.noConfusion heq)
  have hb2 : ¬(i1 = i2 ∧ j1 = j2) := by
    rintro ⟨h1, h2⟩
    have heq : cb = cell :=
      npGet_value_unique (show npResolve b.level (i1 : Int) (j1 : Int) = some (i2, j2) by
        rw [hresb, h1, h2]) hres2 hgetb hgetcell
    rcases hcbkind with hk | hk <;> rw [hk] at heq
    · exact hnotbad.1 heq.symm
    · exact hnotbad.2.1 heq.symm
  -- step 1: remove the player
  set val1 := if pc = Cell.player then Cell.floor else Cell.goal with hval1
  set lvl1 := b.level.set ip (prow.set jp val1) with hlvl1
  have hset1 : npSet b.level b.player.1 b.player.2 val1 = some lvl1 :=
    npSet_eq_of_resolve hresp hprow val1
  have hval1kind : val1 = Cell.floor ∨ val1 = Cell.goal := by
    rw [hval1]; rcases hpckind with h | h <;> simp [h]
  -- step 2: place the box
  have hres2' : npResolve lvl1 ((i1 : Int) + d.1) ((j1 : Int) + d.2) = some (i2, j2) := by
    rw [hlvl1, npResolve_set hprow jp val1]
    exact hres2
  have hget2 : npGet lvl1 ((i1 : Int) + d.1) ((j1 : Int) + d.2) =
      some (if i2 = ip ∧ j2 = jp then val1 else cell) :=
    npGet_after_set hprow hjp val1 hres2 hgetcell
  set bcell := if i2 = ip ∧ j2 = jp then val1 else cell with hbcell
  have hbcellkind : bcell = Cell.player ∨ bcell = Cell.playerOnGoal ∨
      bcell = Cell.floor ∨ bcell = Cell.goal := by
    rw [hbcell]
    split
    · rcases hval1kind with h | h <;> simp [h]
    · cases cell <;> simp_all
  obtain ⟨row2, c2x, hrow2, hc2x, hget2x⟩ := npGet_of_resolve hres2'
  have hc2eq : c2x = bcell := Option.some_inj.mp (hget2x.symm.trans hget2)
  rw [hc2eq] at hc2x
  have hj2 : j2 < row2.length := (List.getElem?_eq_some.mp hc2x).1
  set val2 := if bcell = Cell.floor ∨ bcell = Cell.player then Cell.box else Cell.boxOnGoal
    with hval2
  set lvl2 := lvl1.set i2 (row2.set j2 val2) with hlvl2
  have hset2 : npSet lvl1 ((i1 : Int) + d.1) ((j1 : Int) + d.2) val2 = some lvl2 :=
    npSet_eq_of_resolve hres2' hrow2 val2
  -- step 3: place the player on the box's old cell
  have hresb1 : npResolve lvl1 (i1 : Int) (j1 : Int) = some (i1, j1) := by
    rw [hlvl1, npResolve_set hprow jp val1]
    exact hresb
  have hgetb1 : npGet lvl1 (i1 : Int) (j1 : Int) = some cb := by
    have := npGet_after_set hprow hjp val1 hresb hgetb
    rw [if_neg hbp] at this
    exact this
  have hresb2 : npResolve lvl2 (i1 : Int) (j1 : Int) = some (i1, j1) := by
    rw [hlvl2, npResolve_set hrow2 j2 val2]
    exact hresb1
  have hgetb2 : npGet lvl2 (i1 : Int) (j1 : Int) = some cb := by
    have := npGet_after_set hrow2 hj2 val2 hresb1 hgetb1
    rw [if_neg hb2] at this
    exact this
  obtain ⟨row3, c3x, hrow3, hc3x, hget3x⟩ := npGet_of_resolve hresb2
  have hc3eq : c3x = cb := Option.some_inj.mp (hget3x.symm.trans hgetb2)
  rw [hc3eq] at hc3x
  have hj1r : j1 < row3.length := (List.getElem?_eq_some.mp hc3x).1
  set val3 := if cb = Cell.box then Cell.player else Cell.playerOnGoal with hval3
  set lvl3 := lvl2.set i1 (row3.set j1 val3) with hlvl3
  have hset3 : npSet lvl2 (i1 : Int) (j1 : Int) val3 = some lvl3 :=
    npSet_eq_of_resolve hresb2 hrow3 val3
  -- counting (for the assertions)
  have eqB1 := findElements_set_count hset1 hpcget [Cell.box, Cell.boxOnGoal]
  have eqB2 := findElements_set_count hset2 hget2 [Cell.box, Cell.boxOnGoal]
  have eqB3 := findElements_set_count hset3 hgetb2 [Cell.box, Cell.boxOnGoal]
  have eqG1 := findElements_set_count hset1 hpcget
    [Cell.goal, Cell.boxOnGoal, Cell.playerOnGoal]
  have eqG2 := findElements_set_count hset2 hget2
    [Cell.goal, Cell.boxOnGoal, Cell.playerOnGoal]
  have eqG3 := findElements_set_count hset3 hgetb2
    [Cell.goal, Cell.boxOnGoal, Cell.playerOnGoal]
  have eqP1 := findElements_set_count hset1 hpcget [Cell.player, Cell.playerOnGoal]
  have eqP2 := findElements_set_count hset2 hget2 [Cell.player, Cell.playerOnGoal]
  have eqP3 := findElements_set_count hset3 hgetb2 [Cell.player, Cell.playerOnGoal]
  have honeP := hone
  unfold SokobanBoard.playerCount at honeP
  have hPlvl1 : (findElements lvl1 [Cell.player, Cell.playerOnGoal]).length = 0 := by
    have h1 : (if pc ∈ [Cell.player, Cell.playerOnGoal] then 1 else 0) = 1 := by
      rcases hpckind with h | h <;> simp [h]
    have h2 : (if val1 ∈ [Cell.player, Cell.playerOnGoal] then 1 else 0) = 0 := by
      rcases hval1kind with h | h <;> simp [h]
    omega
  have hbfg : bcell = Cell.floor ∨ bcell = Cell.goal := by
    rcases hbcellkind with h | h | h | h
    · exfalso
      have := findElements_pos_of_npGet hget2 (show bcell ∈ [Cell.player, Cell.playerOnGoal]
        by rw [h]; simp)
      omega
    · exfalso
      have := findElements_pos_of_npGet hget2 (show bcell ∈ [Cell.player, Cell.playerOnGoal]
        by rw [h]; simp)
      omega
    · exact Or.inl h
    · exact Or.inr h
  have hBox : (findElements lvl3 [Cell.box, Cell.boxOnGoal]).length =
      (findElements b.level [Cell.box, Cell.boxOnGoal]).length := by
    have i1' : (if pc ∈ [Cell.box, Cell.boxOnGoal] then 1 else 0) = 0 := by
      rcases hpckind with h | h <;> simp [h]
    have i2' : (if val1 ∈ [Cell.box, Cell.boxOnGoal] then 1 else 0) = 0 := by
      rcases hval1kind with h | h <;> simp [h]
    have i3' : (if bcell ∈ [Cell.box, Cell.boxOnGoal] then 1 else 0) = 0 := by
      rcases hbfg with h | h <;> simp [h]
    have i4' : (if val2 ∈ [Cell.box, Cell.boxOnGoal] then 1 else 0) = 1 := by
      rw [hval2]; split <;> simp
    have i5' : (if cb ∈ [Cell.box, Cell.boxOnGoal] then 1 else 0) = 1 := by
      rcases hcbkind with h | h <;> simp [h]
    have i6' : (if val3 ∈ [Cell.box, Cell.boxOnGoal] then 1 else 0) = 0 := by
      rw [hval3]; split <;> simp
    omega
  have hGoal : (findElements lvl3 [Cell.goal, Cell.boxOnGoal, Cell.playerOnGoal]).length =
      (findElements b.level [Cell.goal, Cell.boxOnGoal, Cell.playerOnGoal]).length := by
    have p1 : (if pc ∈ [Cell.goal, Cell.boxOnGoal, Cell.playerOnGoal] then 1 else 0) =
        (if val1 ∈ [Cell.goal, Cell.boxOnGoal, Cell.playerOnGoal] then 1 else 0) := by
      rcases hpckind with h | h <;> simp [h, hval1]
    have p2 : (if bcell ∈ [Cell.goal, Cell.boxOnGoal, Cell.playerOnGoal] then 1 else 0) =
        (if val2 ∈ [Cell.goal, Cell.boxOnGoal, Cell.playerOnGoal] then 1 else 0) := by
      rcases hbfg with h | h <;> simp [hval2, h]
    have p3 : (if cb ∈ [Cell.goal, Cell.boxOnGoal, Cell.playerOnGoal] then 1 else 0) =
        (if val3 ∈ [Cell.goal, Cell.boxOnGoal, Cell.playerOnGoal] then 1 else 0) := by
      rcases hcbkind with h | h <;> simp [hval3, h]
    omega
  have hPlayer : (findElements lvl3 [Cell.player, Cell.playerOnGoal]).length = 1 := by
    have q1 : (if bcell ∈ [Cell.player, Cell.playerOnGoal] then 1 else 0) = 0 := by
      rcases hbfg with h | h <;> simp [h]
    have q2 : (if val2 ∈ [Cell.player, Cell.playerOnGoal] then 1 else 0) = 0 := by
      rw [hval2]; split <;> simp
    have q3 : (if cb ∈ [Cell.player, Cell.playerOnGoal] then 1 else 0) = 0 := by
      rcases hcbkind with h | h <;> simp [h]
    have q4 : (if val3 ∈ [Cell.player, Cell.playerOnGoal] then 1 else 0) = 1 := by
      rw [hval3]; split <;> simp
    omega
  have e1 : (i1 : Int) - d.1 + 2 * d.1 = (i1 : Int) + d.1 := by ring
  have e2 : (j1 : Int) - d.2 + 2 * d.2 = (j1 : Int) + d.2 := by ring
  have e3 : (i1 : Int) - d.1 + d.1 = (i1 : Int) := by ring
  have e4 : (j1 : Int) - d.2 + d.2 = (j1 : Int) := by ring
  have hget2c : npGet lvl1 ((i1 : Int) - d.1 + 2 * d.1) ((j1 : Int) - d.2 + 2 * d.2) =
      some bcell := by rw [e1, e2]; exact hget2
  have hset2c : npSet lvl1 ((i1 : Int) - d.1 + 2 * d.1) ((j1 : Int) - d.2 + 2 * d.2) val2 =
      some lvl2 := by rw [e1, e2]; exact hset2
  have hgetb2c : npGet lvl2 ((i1 : Int) - d.1 + d.1) ((j1 : Int) - d.2 + d.2) =
      some cb := by rw [e3, e4]; exact hgetb2
  have hset3c : npSet lvl2 ((i1 : Int) - d.1 + d.1) ((j1 : Int) - d.2 + d.2) val3 =
      some lvl3 := by rw [e3, e4]; exact hset3
  have hmove : SokobanBoard.move b ((i1 : Int) - d.1, (j1 : Int) - d.2, d.1, d.2) =
      some { level := lvl3, player := ((i1 : Int) - d.1 + d.1, (j1 : Int) - d.2 + d.2),
             steps := b.steps + 1, max_steps := MAX_STEP } := by
    simp only [SokobanBoard.move, bind, Option.bind_eq_some, guard, Option.pure_def,
      Option.some_inj]
    exact ⟨pc, hpcget, (), by rw [if_pos hpckind], lvl1, hset1, bcell, hget2c,
      (), by rw [if_pos]; exact hbcellkind, lvl2, hset2c, cb, hgetb2c,
      (), by rw [if_pos hcbkind], lvl3, hset3c,
      (), by rw [if_pos]; exact (by unfold SokobanBoard.boxCount; exact hBox.symm),
      (), by rw [if_pos]; exact (by unfold SokobanBoard.goalCount; exact hGoal.symm),
      (), by rw [if_pos]; exact (by unfold SokobanBoard.playerCount; exact hPlayer),
      rfl⟩
  -- class facts about the written values
  have h3b : ¬ boxLike val3 := by rw [hval3]; split <;> simp [boxLike]
  have h3p : playerLike val3 := by rw [hval3]; split <;> simp [playerLike]
  have h3w : val3 ≠ Cell.wall := by rw [hval3]; split <;> simp
  have h2bx : boxLike val2 := by rw [hval2]; split <;> simp [boxLike]
  have h2pl : ¬ playerLike val2 := by rw [hval2]; split <;> simp [playerLike]
  have h2wl : val2 ≠ Cell.wall := by rw [hval2]; split <;> simp
  have h1bx : ¬ boxLike val1 := by rcases hval1kind with h | h <;> simp [h, boxLike]
  have h1pl : ¬ playerLike val1 := by rcases hval1kind with h | h <;> simp [h, playerLike]
  have h1wl : val1 ≠ Cell.wall := by rcases hval1kind with h | h <;> simp [h]
  have hcbb : boxLike cb := by rcases hcbkind with h | h <;> simp [h, boxLike]
  have hcbp : ¬ playerLike cb := by rcases hcbkind with h | h <;> simp [h, playerLike]
  have hpcp : playerLike pc := hpckind
  have hpcb : ¬ boxLike pc := by rcases hpckind with h | h <;> simp [h, boxLike]
  have hpcw : pc ≠ Cell.wall := by rcases hpckind with h | h <;> simp [h]
  have hcellw : cell ≠ Cell.wall := fun h => hnotbad.2.2 h
  have hcellb : ¬ boxLike cell := fun h => h.elim (fun h => hnotbad.1 h)
    (fun h => hnotbad.2.1 h)
  have hgu1 : goalUnder val1 ↔ goalUnder pc := by
    rcases hpckind with h | h <;> rw [hval1, h] <;> simp [goalUnder]
  have hgu3 : goalUnder val3 ↔ goalUnder cb := by
    rcases hcbkind with h | h <;> rw [hval3, h] <;> simp [goalUnder]
  have hgu4 : goalUnder val2 ↔ goalUnder bcell := by
    rcases hbfg with h | h <;> rw [hval2, h] <;> simp [goalUnder]
  refine ⟨_, i1, j1, i2, j2, hmove, by simp, by simp, by simp; rw [htgt.1]; ring,
    by simp; rw [htgt.2]; ring,
    by show ((i1 : Int) - d.1 + d.1, (j1 : Int) - d.2 + d.2) = ((i1 : Int), (j1 : Int));
       rw [e3, e4],
    by
      have hx := npGet_after_set hrow3 hj1r val3 hresb2 hgetb2
      rw [if_pos ⟨rfl, rfl⟩] at hx
      rcases hcbkind with h | h
      · have hv : val3 = Cell.player := by rw [hval3, if_pos h]
        exact Or.inl (hx.trans (congrArg some hv))
      · have hv : val3 = Cell.playerOnGoal := by
          rw [hval3, if_neg]
          rw [h]
          intro hxx
          exact Cell.noConfusion hxx
        exact Or.inr (hx.trans (congrArg some hv)),
    rfl, rfl,
    by unfold SokobanBoard.playerCount; exact hPlayer,
    by simp only [hlvl3, hlvl2, hlvl1, List.length_set],
    ?_, ?_⟩
  · intro k
    exact ((rowlen_set hrow3 j1 val3 k).trans (rowlen_set hrow2 j2 val2 k)).trans
      (rowlen_set hprow jp val1 k)
  · intro i j c hc
    obtain ⟨rowij, hrowij, hcij⟩ := npGet_natCast_some hc
    obtain ⟨-, hresij⟩ := npGet_of_getElem hrowij hcij
    have hresij1 : npResolve lvl1 (i : Int) (j : Int) = some (i, j) := by
      rw [hlvl1, npResolve_set hprow jp val1]
      exact hresij
    have hresij2 : npResolve lvl2 (i : Int) (j : Int) = some (i, j) := by
      rw [hlvl2, npResolve_set hrow2 j2 val2]
      exact hresij1
    have hv1 : npGet lvl1 (i : Int) (j : Int) =
        some (if i = ip ∧ j = jp then val1 else c) :=
      npGet_after_set hprow hjp val1 hresij hc
    have hv2 : npGet lvl2 (i : Int) (j : Int) =
        some (if i = i2 ∧ j = j2 then val2 else if i = ip ∧ j = jp then val1 else c) :=
      npGet_after_set hrow2 hj2 val2 hresij1 hv1
    have hv3 : npGet lvl3 (i : Int) (j : Int) =
        some (if i = i1 ∧ j = j1 then val3
          else if i = i2 ∧ j = j2 then val2 else if i = ip ∧ j = jp then val1 else c) :=
      npGet_after_set hrow3 hj1r val3 hresij2 hv2
    refine ⟨_, hv3, ?_⟩
    by_cases h1 : i = i1 ∧ j = j1
    · -- the box source: the player lands here
      have hceq : c = cb := by
        have hx := hgetb
        rw [← h1.1, ← h1.2] at hx
        rw [hc] at hx
        exact Option.some_inj.mp hx
      rw [if_pos h1, hceq]
      refine ⟨iff_of_false hcbw h3w, hgu3.symm, ?_, iff_of_true h3p h1⟩
      refine iff_of_false h3b ?_
      rintro (h | h)
      · exact hb2 ⟨h1.1.symm.trans h.1, h1.2.symm.trans h.2⟩
      · exact h.2 h1
    · rw [if_neg h1]
      by_cases h2 : i = i2 ∧ j = j2
      · -- the box target
        have hres2x := hres2
        rw [← h2.1, ← h2.2] at hres2x
        have hceq : c = cell := npGet_value_unique hresij hres2x hc hgetcell
        rw [if_pos h2]
        have hbcg : goalUnder bcell ↔ goalUnder cell := by
          rw [hbcell]
          split
          · rename_i hplc
            have hrespx : npResolve b.level b.player.1 b.player.2 = some (i, j) := by
              rw [hresp]
              exact congrArg some (by
                rw [Prod.mk.injEq]
                exact ⟨(h2.1.trans hplc.1).symm, (h2.2.trans hplc.2).symm⟩)
            have hcellpc : cell = pc := npGet_value_unique hres2x hrespx hgetcell hpcget
            rw [hcellpc]
            exact hgu1
          · exact Iff.rfl
        rw [hceq]
        exact ⟨iff_of_false hcellw h2wl, (hgu4.trans hbcg).symm,
          iff_of_true h2bx (Or.inl h2), iff_of_false h2pl h1⟩
      · rw [if_neg h2]
        by_cases hp : i = ip ∧ j = jp
        · -- the old player cell
          have hcpc : c = pc := by
            refine npGet_value_unique hresij ?_ hc hpcget
            rw [hp.1, hp.2]
            exact hresp
          rw [if_pos hp, hcpc]
          refine ⟨iff_of_false hpcw h1wl, hgu1.symm, ?_, iff_of_false h1pl h1⟩
          refine iff_of_false h1bx ?_
          rintro (h | ⟨hb, -⟩)
          · exact h2 h
          · exact hpcb hb
        · -- untouched cell
          rw [if_neg hp]
          have hnpl : ¬ playerLike c := by
            intro hplc
            exact hp (playerLike_unique hone hrowij hcij hplc hprow hpcell0 hpcp)
          refine ⟨Iff.rfl, Iff.rfl, ?_, iff_of_false hnpl h1⟩
          constructor
          · intro hb
            exact Or.inr ⟨hb, h1⟩
          · rintro (h | ⟨hb, -⟩)
            · exact absurd h h2
            · exact hb

theorem npResolve_congr_shape {g1 g2 : Grid} (hlen : g1.length = g2.length)
    (hw : ∀ k : Nat, (g1[k]?).map List.length = (g2[k]?).map List.length)
    (x y : Int) : npResolve g1 x y = npResolve g2 x y := by
  unfold npResolve
  rw [hlen]
  simp only [bind]
  cases hix : npIdx g2.length x with
  | none => simp
  | some i =>
      simp only [Option.some_bind]
      have hwk := hw i
      cases h1 : g1[i]? with
      | none =>
          rw [h1] at hwk
          cases h2 : g2[i]? with
          | none => simp
          | some row2 => rw [h2] at hwk; simp at hwk
      | some row1 =>
          rw [h1] at hwk
          cases h2 : g2[i]? with
          | none => rw [h2] at hwk; simp at hwk
          | some row2 =>
              rw [h2] at hwk
              simp only [Option.map_some', Option.some_inj] at hwk
              simp only [Option.some_bind]
              rw [hwk]

theorem npGet_resolve_natCast {g : Grid} {x y : Int} {c : Cell} {i j : Nat}
    (hget : npGet g x y = some c) (hres : npResolve g x y = some (i, j)) :
    npGet g (i : Int) (j : Int) = some c := by
  obtain ⟨i', j', row, hres', hrow, hc⟩ := npGet_eq_some_iff.mp hget
  rw [hres] at hres'
  obtain ⟨e1, e2⟩ := Prod.mk.injEq .. ▸ Option.some_inj.mp hres'
  subst e1
  subst e2
  exact (npGet_of_getElem hrow hc).1

theorem boxLike_iff_mem {g : Grid} {i j : Nat} {c : Cell}
    (hget : npGet g (i : Int) (j : Int) = some c) :
    (boxLike c ↔ ((i : Int), (j : Int)) ∈ findElements g [Cell.box, Cell.boxOnGoal]) := by
  obtain ⟨row, hrow, hc⟩ := npGet_natCast_some hget
  constructor
  · intro hb
    refine mem_findElements_iff.mpr ⟨i, j, row, c, hrow, hc, ?_, rfl⟩
    rcases hb with h | h <;> simp [h]
  · intro hmem
    obtain ⟨i', j', row', c', hrow', hc', hmem', heq⟩ := mem_findElements_iff.mp hmem
    rw [Prod.mk.injEq] at heq
    have hi : i = i' := by exact_mod_cast heq.1
    have hj : j = j' := by exact_mod_cast heq.2
    subst hi
    subst hj
    rw [hrow] at hrow'
    cases hrow'
    rw [hc] at hc'
    cases hc'
    simpa [boxLike] using hmem'

theorem cell_det (c1 c2 : Cell) (hw : c1 = Cell.wall ↔ c2 = Cell.wall)
    (hb : boxLike c1 ↔ boxLike c2) (hp : playerLike c1 ↔ playerLike c2)
    (hg : goalUnder c1 ↔ goalUnder c2) : c1 = c2 := by
  cases c1 <;> cases c2 <;>
    first
      | rfl
      | simp_all [boxLike, playerLike, goalUnder]

theorem grid_ext {g1 g2 : Grid} (_hlen : g1.length = g2.length)
    (hw : ∀ k : Nat, (g1[k]?).map List.length = (g2[k]?).map List.length)
    (hc : ∀ (i j : Nat) (c1 c2 : Cell), npGet g1 (i : Int) (j : Int) = some c1 →
      npGet g2 (i : Int) (j : Int) = some c2 → c1 = c2) : g1 = g2 := by
  refine List.ext_getElem? ?_
  intro i
  have hwk := hw i
  cases h1 : g1[i]? with
  | none =>
      rw [h1] at hwk
      cases h2 : g2[i]? with
      | none => rfl
      | some row2 => rw [h2] at hwk; simp at hwk
  | some row1 =>
      rw [h1] at hwk
      cases h2 : g2[i]? with
      | none => rw [h2] at hwk; simp at hwk
      | some row2 =>
          rw [h2] at hwk
          simp only [Option.map_some', Option.some_inj] at hwk
          congr 1
          refine List.ext_getElem? ?_
          intro j
          cases hc1 : row1[j]? with
          | none =>
              cases hc2 : row2[j]? with
              | none => rfl
              | some c2 =>
                  have hj2 : j < row2.length := (List.getElem?_eq_some.mp hc2).1
                  have hj1 : ¬ j < row1.length := by
                    intro hlt
                    rw [List.getElem?_eq_getElem hlt] at hc1
                    exact Option.noConfusion hc1
                  rw [hwk] at hj1
                  omega
          | some c1 =>
              cases hc2 : row2[j]? with
              | none =>
                  have hj1 : j < row1.length := (List.getElem?_eq_some.mp hc1).1
                  have hj2 : ¬ j < row2.length := by
                    intro hlt
                    rw [List.getElem?_eq_getElem hlt] at hc2
                    exact Option.noConfusion hc2
                  rw [hwk] at hj1
                  omega
              | some c2 =>
                  have hg1 := (npGet_of_getElem h1 hc1).1
                  have hg2 := (npGet_of_getElem h2 hc2).1
                  rw [hc i j c1 c2 hg1 hg2]

theorem sameStruct_refl (g : Grid) : sameStruct g g := by
  refine ⟨rfl, fun i => rfl, ?_⟩
  intro x y c1 c2 h1 h2
  rw [h1] at h2
  cases Option.some_inj.mp h2
  exact ⟨Iff.rfl, Iff.rfl⟩

theorem sameStruct_symm {g1 g2 : Grid} (h : sameStruct g1 g2) : sameStruct g2 g1 := by
  obtain ⟨hlen, hw, hc⟩ := h
  refine ⟨hlen.symm, fun i => (hw i).symm, ?_⟩
  intro x y c1 c2 h1 h2
  obtain ⟨hcw, hcg⟩ := hc x y c2 c1 h2 h1
  exact ⟨hcw.symm, hcg.symm⟩

theorem sameStruct_trans {g1 g2 g3 : Grid} (h12 : sameStruct g1 g2)
    (h23 : sameStruct g2 g3) : sameStruct g1 g3 := by
  obtain ⟨hlen12, hw12, hc12⟩ := h12
  obtain ⟨hlen23, hw23, hc23⟩ := h23
  refine ⟨hlen12.trans hlen23, fun i => (hw12 i).trans (hw23 i), ?_⟩
  intro x y c1 c3 h1 h3
  obtain ⟨i, j, hres1⟩ := npResolve_isSome_of_npGet h1
  have hres2 : npResolve g2 x y = some (i, j) := by
    rw [← npResolve_congr_shape hlen12 hw12 x y]
    exact hres1
  obtain ⟨row, c2, hrow, hcell, hget2⟩ := npGet_of_resolve hres2
  obtain ⟨hw1, hg1⟩ := hc12 x y c1 c2 h1 hget2
  obtain ⟨hw2, hg2⟩ := hc23 x y c2 c3 hget2 h3
  exact ⟨hw1.trans hw2, hg1.trans hg2⟩

theorem head?_eq_getElem0 {α : Type} (l : List α) : l.head? = l[0]? := by
  cases l <;> simp

theorem move_pres {b : SokobanBoard} (hwf : wfBoard b) {vms : List Move}
    (hvm : b.valid_moves = some vms) {m : Move} (hm : m ∈ vms) :
    ∃ b', b.move m = some b' ∧ wfBoard b' ∧ sameStruct b.level b'.level ∧
      b'.steps = b.steps + 1 ∧ b'.max_steps = MAX_STEP := by
  obtain ⟨hrect, hbord, hpc, hone⟩ := hwf
  obtain ⟨b', i1, j1, i2, j2, hmove, hi1, hj1, hi2, hj2, hpl, hplcell, hsteps, hmax,
    honep, hlen, hww, hpt⟩ := move_cells hrect hbord hvm hm hpc hone
  have hres_congr : ∀ x y : Int, npResolve b'.level x y = npResolve b.level x y :=
    npResolve_congr_shape hlen hww
  refine ⟨b', hmove, ⟨?_, ?_, ?_, honep⟩, ⟨hlen.symm, fun k => (hww k).symm, ?_⟩,
    hsteps, hmax⟩
  · -- rectangularity
    obtain ⟨hpos, hwpos, hall⟩ := hrect
    have hheads : (b'.level.head?.map List.length).getD 0 =
        (b.level.head?.map List.length).getD 0 := by
      rw [head?_eq_getElem0, head?_eq_getElem0, hww 0]
    refine ⟨by omega, by rw [hheads]; exact hwpos, ?_⟩
    intro row hrow
    obtain ⟨k, hk⟩ := List.mem_iff_getElem?.mp hrow
    have hwk := hww k
    rw [hk] at hwk
    cases hbk : b.level[k]? with
    | none => rw [hbk] at hwk; simp at hwk
    | some rowb =>
        rw [hbk] at hwk
        simp only [Option.map_some', Option.some_inj] at hwk
        rw [hheads, hwk]
        refine hall rowb ?_
        obtain ⟨hlt, hval⟩ := List.getElem?_eq_some.mp hbk
        exact hval ▸ List.getElem_mem hlt
  · -- borderedness
    intro i j row' c' hrow' hc' hcond
    have hwk := hww i
    rw [hrow'] at hwk
    cases hbk : b.level[i]? with
    | none => rw [hbk] at hwk; simp at hwk
    | some rowb =>
        rw [hbk] at hwk
        simp only [Option.map_some', Option.some_inj] at hwk
        have hj : j < rowb.length := by
          rw [← hwk]
          exact (List.getElem?_eq_some.mp hc').1
        have hcb : rowb[j]? = some rowb[j] := List.getElem?_eq_getElem hj
        have hcbw : rowb[j] = Cell.wall := by
          refine hbord i j rowb rowb[j] hbk hcb ?_
          rcases hcond with h | h | h | h
          · exact Or.inl h
          · exact Or.inr (Or.inl (by rw [← hlen]; exact h))
          · exact Or.inr (Or.inr (Or.inl h))
          · exact Or.inr (Or.inr (Or.inr (by rw [← hwk]; exact h)))
        obtain ⟨c'', hget'', hwiff, -, -, -⟩ :=
          hpt i j rowb[j] (npGet_of_getElem hbk hcb).1
        have hc'eq : c'' = c' := by
          have hg' := (npGet_of_getElem hrow' hc').1
          rw [hget''] at hg'
          exact Option.some_inj.mp hg'
        rw [← hc'eq]
        exact hwiff.mp hcbw
  · -- the player cell
    rw [hpl]
    exact hplcell
  · -- cell structure
    intro x y c1 c2 h1 h2
    obtain ⟨i, j, hres⟩ := npResolve_isSome_of_npGet h1
    have hg1 : npGet b.level (i : Int) (j : Int) = some c1 := npGet_resolve_natCast h1 hres
    obtain ⟨c'', hget'', hwiff, hgiff, -, -⟩ := hpt i j c1 hg1
    have hres2 : npResolve b'.level x y = some (i, j) := by rw [hres_congr]; exact hres
    have hg2 : npGet b'.level (i : Int) (j : Int) = some c2 := npGet_resolve_natCast h2 hres2
    have hc2eq : c'' = c2 := by
      rw [hget''] at hg2
      exact Option.some_inj.mp hg2
    rw [← hc2eq]
    exact ⟨hwiff, hgiff⟩

theorem valid_moves_mem {b : SokobanBoard} {vms : List Move} (hvm : b.valid_moves = some vms)
    {bx d : Pos} {cell : Cell}
    (hbx : bx ∈ findElements b.level [Cell.box, Cell.boxOnGoal]) (hd : d ∈ dirs)
    (hint : (bx.1 - d.1, bx.2 - d.2) ∈ findInterior b.level b.player.1 b.player.2)
    (hcell : npGet b.level (bx.1 + d.1) (bx.2 + d.2) = some cell)
    (hnotbad : ¬(cell = Cell.box ∨ cell = Cell.boxOnGoal ∨ cell = Cell.wall)) :
    (bx.1 - d.1, bx.2 - d.2, d.1, d.2) ∈ vms := by
  unfold SokobanBoard.valid_moves at hvm
  simp only [bind, Option.bind_eq_some, Option.pure_def, Option.some_inj] at hvm
  obtain ⟨checked, hchk, hms⟩ := hvm
  rw [← hms]
  have hcand : ((bx.1 - d.1, bx.2 - d.2), d, bx) ∈
      (findElements b.level [Cell.box, Cell.boxOnGoal]).flatMap (fun bx =>
        dirs.filterMap (fun d =>
          if (bx.1 - d.1, bx.2 - d.2) ∈ findInterior b.level b.player.1 b.player.2 then
            some ((bx.1 - d.1, bx.2 - d.2), d, bx)
          else none)) := by
    refine List.mem_flatMap.mpr ⟨bx, hbx, List.mem_filterMap.mpr ⟨d, hd, ?_⟩⟩
    rw [if_pos hint]
  have hfc : (npGet b.level (bx.1 + d.1) (bx.2 + d.2)).map
      (fun cc => (((bx.1 - d.1, bx.2 - d.2), d, bx), cc)) =
      some (((bx.1 - d.1, bx.2 - d.2), d, bx), cell) := by
    rw [hcell]
    rfl
  have hmem := mapM_mem_of_mem _ hchk hcand hfc
  refine List.mem_filterMap.mpr ⟨(((bx.1 - d.1, bx.2 - d.2), d, bx), cell), hmem, ?_⟩
  rw [if_neg hnotbad]

theorem twin_transfer {mc : SokobanBoard → ℤ} {ms : List Move} {t p : SokobanBoard}
    (hwt : wfBoard t) (hwp : wfBoard p) (hst : sameStruct t.level p.level)
    (hhash : t.hash = p.hash) (hts : t.steps ≤ p.steps)
    (hpath : stepWinPath mc p ms) : stepWinPath mc t ms := by
  cases ms with
  | nil => exact hpath.elim
  | cons m rest =>
      obtain ⟨vmsp, p1, hvmp, hm, hmovep, htail⟩ := hpath
      obtain ⟨hinteq, hboxeq⟩ := hash_inj_parts hhash
      obtain ⟨hstlen, hstw, hstc⟩ := hst
      have hboxmem : ∀ pos : Pos, pos ∈ findElements t.level [Cell.box, Cell.boxOnGoal] ↔
          pos ∈ findElements p.level [Cell.box, Cell.boxOnGoal] := by
        intro pos
        have h1 : pos ∈ SokobanBoard.box_positions t ↔
            pos ∈ findElements t.level [Cell.box, Cell.boxOnGoal] := mem_pySorted
        have h2 : pos ∈ SokobanBoard.box_positions p ↔
            pos ∈ findElements p.level [Cell.box, Cell.boxOnGoal] := mem_pySorted
        rw [← h1, ← h2, hboxeq]
      have hintmem : ∀ pos : Pos,
          pos ∈ findInterior t.level t.player.1 t.player.2 ↔
          pos ∈ findInterior p.level p.player.1 p.player.2 := by
        intro pos
        have h1 : pos ∈ SokobanBoard.interior t ↔
            pos ∈ findInterior t.level t.player.1 t.player.2 := mem_pySorted
        have h2 : pos ∈ SokobanBoard.interior p ↔
            pos ∈ findInterior p.level p.player.1 p.player.2 := mem_pySorted
        rw [← h1, ← h2, hinteq]
      obtain ⟨bx, d, cell, hbxp, hd, hintp, hgetcellp, hnotbadp, hmdef⟩ :=
        valid_moves_spec hvmp hm
      obtain ⟨vmst, hvmt⟩ := valid_moves_total hwt.1 hwt.2.1
      obtain ⟨i2t, j2t, hres2p⟩ := npResolve_isSome_of_npGet hgetcellp
      have hres2t : npResolve t.level (bx.1 + d.1) (bx.2 + d.2) = some (i2t, j2t) := by
        rw [npResolve_congr_shape hstlen hstw]
        exact hres2p
      obtain ⟨rowt, cellt, hrowt, hct, hgetcellt⟩ := npGet_of_resolve hres2t
      have hwalliff := hstc (bx.1 + d.1) (bx.2 + d.2) cellt cell hgetcellt hgetcellp
      have hboxiff : boxLike cellt ↔ boxLike cell := by
        rw [boxLike_iff_mem (npGet_resolve_natCast hgetcellt hres2t),
          boxLike_iff_mem (npGet_resolve_natCast hgetcellp hres2p)]
        exact hboxmem _
      have hnotbadt : ¬(cellt = Cell.box ∨ cellt = Cell.boxOnGoal ∨ cellt = Cell.wall) := by
        rintro (h | h | h)
        · exact hnotbadp (by
            rcases hboxiff.mp (Or.inl h) with h2 | h2
            · exact Or.inl h2
            · exact Or.inr (Or.inl h2))
        · exact hnotbadp (by
            rcases hboxiff.mp (Or.inr h) with h2 | h2
            · exact Or.inl h2
            · exact Or.inr (Or.inl h2))
        · exact hnotbadp (Or.inr (Or.inr (hwalliff.1.mp h)))
      have hmt : m ∈ vmst := by
        subst hmdef
        exact valid_moves_mem hvmt ((hboxmem bx).mpr hbxp) hd
          ((hintmem _).mpr hintp) hgetcellt hnotbadt
      obtain ⟨p1', pi1, pj1, pi2, pj2, hmovep', hpi1, hpj1, hpi2, hpj2, hppl, hppc,
        hpsteps, hpmax, hpone, hplen, hpww, hppt⟩ :=
        move_cells hwp.1 hwp.2.1 hvmp hm hwp.2.2.1 hwp.2.2.2
      rw [hmovep] at hmovep'
      have hp1eq : p1 = p1' := Option.some_inj.mp hmovep'
      subst hp1eq
      obtain ⟨t1, ti1, tj1, ti2, tj2, hmovet, hti1, htj1, hti2, htj2, htpl, htpc,
        htsteps, htmax, htone, htlen, htww, htpt⟩ :=
        move_cells hwt.1 hwt.2.1 hvmt hmt hwt.2.2.1 hwt.2.2.2
      have hei1 : ti1 = pi1 := by exact_mod_cast hti1.trans hpi1.symm
      have hej1 : tj1 = pj1 := by exact_mod_cast htj1.trans hpj1.symm
      have hei2 : ti2 = pi2 := by exact_mod_cast hti2.trans hpi2.symm
      have hej2 : tj2 = pj2 := by exact_mod_cast htj2.trans hpj2.symm
      have hlvleq : t1.level = p1.level := by
        refine grid_ext (by rw [htlen, hstlen, ← hplen]) ?_ ?_
        · intro k
          rw [htww k, hstw k, ← hpww k]
        · intro i j c1 c2 hg1 hg2
          obtain ⟨i', j', hres1⟩ := npResolve_isSome_of_npGet hg1
          obtain ⟨hii, hjj⟩ := npResolve_nonneg_val hres1 (Int.ofNat_nonneg i)
            (Int.ofNat_nonneg j)
          have hii' : i = i' := by exact_mod_cast hii.symm
          have hjj' : j = j' := by exact_mod_cast hjj.symm
          subst hii'
          subst hjj'
          have hrest : npResolve t.level (i : Int) (j : Int) = some (i, j) := by
            rw [← npResolve_congr_shape htlen htww]
            exact hres1
          obtain ⟨rowti, cti, hrowti, hcti, hgetti⟩ := npGet_of_resolve hrest
          have hresp1 : npResolve p.level (i : Int) (j : Int) = some (i, j) := by
            rw [← npResolve_congr_shape hstlen hstw]
            exact hrest
          obtain ⟨rowpi, cpi, hrowpi, hcpi, hgetpi⟩ := npGet_of_resolve hresp1
          obtain ⟨c1', hget1', hw1, hgo1, hb1, hp1c⟩ := htpt i j cti hgetti
          have hc1eq : c1' = c1 := by
            rw [hget1'] at hg1
            exact Option.some_inj.mp hg1
          subst hc1eq
          obtain ⟨c2', hget2', hw2, hgo2, hb2c, hp2c⟩ := hppt i j cpi hgetpi
          have hc2eq : c2' = c2 := by
            rw [hget2'] at hg2
            exact Option.some_inj.mp hg2
          subst hc2eq
          have hsrc := hstc (i : Int) (j : Int) cti cpi hgetti hgetpi
          have hsrcbox : boxLike cti ↔ boxLike cpi := by
            rw [boxLike_iff_mem (npGet_resolve_natCast hgetti hrest),
              boxLike_iff_mem (npGet_resolve_natCast hgetpi hresp1)]
            exact hboxmem _
          refine cell_det _ _ ?_ ?_ ?_ ?_
          · rw [← hw1, ← hw2]
            exact hsrc.1
          · rw [hb1, hb2c, hei2, hej2, hei1, hej1, hsrcbox]
          · rw [hp1c, hp2c, hei1, hej1]
          · rw [← hgo1, ← hgo2]
            exact hsrc.2
      have hpleq : t1.player = p1.player := by
        rw [htpl, hppl, hei1, hej1]
      refine ⟨vmst, t1, hvmt, hmt, hmovet, ?_⟩
      cases rest with
      | nil =>
          simp only at htail ⊢
          rw [rtype_win_iff] at htail ⊢
          rw [hlvleq]
          exact htail
      | cons m2 rest2 =>
          simp only at htail ⊢
          obtain ⟨hstep, hrest⟩ := htail
          constructor
          · refine rtype_step_congr hlvleq hpleq (htmax.trans hpmax.symm) ?_ hstep
            rw [htsteps, hpsteps]
            omega
          · exact stepWinPath_congr hlvleq hpleq (by rw [htsteps, hpsteps]; omega) hrest

theorem rolloutScan_spec {mc : SokobanBoard → ℤ} {st : SokobanBoard} {depth : Nat} :
    ∀ {moves : List Move} (visited : List String) (maxr : Reward)
      (queue : List (SokobanBoard × Nat)),
      (∀ m ∈ moves, ∃ s', st.move m = some s' ∧
        ∃ k, (s'.reward mc).map Reward.rtype = some k) →
      (∃ r, rolloutScan mc st depth moves visited maxr queue = some (Sum.inl r) ∧
        r.rtype = RType.WIN) ∨
      (∃ v' mr' q' news,
        rolloutScan mc st depth moves visited maxr queue = some (Sum.inr (v', mr', q')) ∧
        q' = queue ++ news ∧
        (∀ ud ∈ news, (ud : SokobanBoard × Nat).2 = depth + 1 ∧
          ∃ m ∈ moves, st.move m = some ud.1 ∧
            (ud.1.reward mc).map Reward.rtype = some RType.STEP) ∧
        (∀ s ∈ v', s ∈ visited ∨ ∃ ud ∈ news, (ud : SokobanBoard × Nat).1.hash = s) ∧
        (∀ s ∈ visited, s ∈ v') ∧
        (∀ m ∈ moves, ∀ s', st.move m = some s' →
          (s'.reward mc).map Reward.rtype ≠ some RType.WIN) ∧
        (∀ m ∈ moves, ∀ s', st.move m = some s' →
          (s'.reward mc).map Reward.rtype = some RType.STEP → s'.hash ∈ v')) := by
  intro moves
  induction moves with
  | nil =>
      intro visited maxr queue _
      refine Or.inr ⟨visited, maxr, queue, [], rfl, by simp, ?_, ?_, ?_, ?_, ?_⟩
      · intro ud hud; simp at hud
      · intro s hs; exact Or.inl hs
      · intro s hs; exact hs
      · intro m hm; simp at hm
      · intro m hm; simp at hm
  | cons mv rest ih =>
      intro visited maxr queue hmv
      obtain ⟨s', hmove, k, hk⟩ := hmv mv (List.mem_cons_self mv rest)
      obtain ⟨r', hr', hrk⟩ := Option.map_eq_some'.mp hk
      have hrest : ∀ m ∈ rest, ∃ s', st.move m = some s' ∧
          ∃ k, (s'.reward mc).map Reward.rtype = some k :=
        fun m hm => hmv m (List.mem_cons_of_mem mv hm)
      have hunfold : rolloutScan mc st depth (mv :: rest) visited maxr queue =
          (if r'.rtype = RType.WIN then some (Sum.inl r')
           else if r'.rtype = RType.STEP ∧ s'.hash ∉ visited then
             rolloutScan mc st depth rest (visited ++ [s'.hash])
               (if maxr.value < r'.value then r' else maxr)
               (queue ++ [(s', depth + 1)])
           else rolloutScan mc st depth rest visited maxr queue) := by
        conv_lhs => unfold rolloutScan
        simp only [bind, hmove, Option.some_bind, hr']
      by_cases hwin : r'.rtype = RType.WIN
      · rw [hunfold, if_pos hwin]
        exact Or.inl ⟨r', rfl, hwin⟩
      · rw [hunfold, if_neg hwin]
        have hwinall : ∀ s'', st.move mv = some s'' →
            (s''.reward mc).map Reward.rtype ≠ some RType.WIN := by
          intro s'' hmv'' hcon
          rw [hmove] at hmv''
          cases Option.some_inj.mp hmv''
          rw [hr'] at hcon
          simp only [Option.map_some', Option.some_inj] at hcon
          exact hwin (hrk ▸ hcon)
        by_cases hstepnew : r'.rtype = RType.STEP ∧ s'.hash ∉ visited
        · rw [if_pos hstepnew]
          rcases ih (visited ++ [s'.hash]) (if maxr.value < r'.value then r' else maxr)
            (queue ++ [(s', depth + 1)]) hrest with
            ⟨r, hscan, hrt⟩ | ⟨v', mr', q', news, hscan, hq, hnews, hv, hvmono, hnowin, hstepvis⟩
          · exact Or.inl ⟨r, hscan, hrt⟩
          · refine Or.inr ⟨v', mr', q', (s', depth + 1) :: news, hscan, ?_, ?_, ?_, ?_, ?_, ?_⟩
            · rw [hq, List.append_assoc]
              rfl
            · intro ud hud
              rcases List.mem_cons.mp hud with rfl | hud
              · refine ⟨rfl, mv, List.mem_cons_self mv rest, hmove, ?_⟩
                rw [hr']
                simp only [Option.map_some', Option.some_inj]
                exact hstepnew.1
              · obtain ⟨hd, m, hm, hmv', hstep⟩ := hnews ud hud
                exact ⟨hd, m, List.mem_cons_of_mem mv hm, hmv', hstep⟩
            · intro s hs
              rcases hv s hs with hs' | ⟨ud, hud, hh⟩
              · rcases List.mem_append.mp hs' with h | h
                · exact Or.inl h
                · simp only [List.mem_singleton] at h
                  exact Or.inr ⟨(s', depth + 1), List.mem_cons_self _ _, h.symm⟩
              · exact Or.inr ⟨ud, List.mem_cons_of_mem _ hud, hh⟩
            · intro s hs
              exact hvmono s (List.mem_append_left _ hs)
            · intro m hm s'' hmv'' hcon
              rcases List.mem_cons.mp hm with rfl | hm
              · exact hwinall s'' hmv'' hcon
              · exact hnowin m hm s'' hmv'' hcon
            · intro m hm s'' hmv'' hstep
              rcases List.mem_cons.mp hm with rfl | hm
              · rw [hmove] at hmv''
                cases Option.some_inj.mp hmv''
                exact hvmono s'.hash (List.mem_append_right _ (List.mem_singleton.mpr rfl))
              · exact hstepvis m hm s'' hmv'' hstep
        · rw [if_neg hstepnew]
          rcases ih visited maxr queue hrest with
            ⟨r, hscan, hrt⟩ | ⟨v', mr', q', news, hscan, hq, hnews, hv, hvmono, hnowin, hstepvis⟩
          · exact Or.inl ⟨r, hscan, hrt⟩
          · refine Or.inr ⟨v', mr', q', news, hscan, hq, ?_, hv, hvmono, ?_, ?_⟩
            · intro ud hud
              obtain ⟨hd, m, hm, hmv', hstep⟩ := hnews ud hud
              exact ⟨hd, m, List.mem_cons_of_mem mv hm, hmv', hstep⟩
            · intro m hm s'' hmv'' hcon
              rcases List.mem_cons.mp hm with rfl | hm
              · exact hwinall s'' hmv'' hcon
              · exact hnowin m hm s'' hmv'' hcon
            · intro m hm s'' hmv'' hstep
              rcases List.mem_cons.mp hm with rfl | hm
              · rw [hmove] at hmv''
                cases Option.some_inj.mp hmv''
                rw [hr'] at hstep
                simp only [Option.map_some', Option.some_inj] at hstep
                have hsv : s'.hash ∈ visited := by
                  by_contra hnot
                  exact hstepnew ⟨hstep, hnot⟩
                exact hvmono _ hsv
              · exact hstepvis m hm s'' hmv'' hstep

theorem stepWinPath_ne_nil {mc : SokobanBoard → ℤ} {b : SokobanBoard} {ms : List Move}
    (h : stepWinPath mc b ms) : ms ≠ [] := by
  intro hnil
  subst hnil
  exact h.elim

theorem good_to_queue {mc : SokobanBoard → ℤ} {s0 : SokobanBoard}
    {P queue : List (SokobanBoard × Nat)} {visited : List String}
    (hinv : rolloutInv mc s0 P queue visited) :
    ∀ (L : Nat) (g : SokobanBoard) (dg : Nat) (ms : List Move), (g, dg) ∈ P ++ queue →
      stepWinPath mc g ms → ms.length = L → dg + L ≤ LOOKAHEAD →
      ∃ gd ∈ queue, ∃ ms' : List Move, stepWinPath mc (gd : SokobanBoard × Nat).1 ms' ∧
        gd.2 + ms'.length ≤ LOOKAHEAD := by
  obtain ⟨hA, hB, hPQ, hC, hD⟩ := hinv
  intro L
  induction L using Nat.strong_induction_on with
  | _ L ih =>
      intro g dg ms hmem hpath hlen hbound
      rcases List.mem_append.mp hmem with hP | hQ
      · -- the good element was already processed: follow its closure
        cases ms with
        | nil => exact hpath.elim
        | cons m rest =>
            obtain ⟨vms, s1, hvm, hm, hmove, htail⟩ := hpath
            obtain ⟨vmsD, hvmD, hclo⟩ := hD (g, dg) hP
            have hvmeq : vmsD = vms := by
              simp only at hvmD
              rw [hvm] at hvmD
              exact (Option.some_inj.mp hvmD).symm
            subst hvmeq
            obtain ⟨s1', hmove', hnotwin, hstepvis⟩ := hclo m hm
            have hs1eq : s1 = s1' := by
              simp only at hmove'
              rw [hmove] at hmove'
              exact Option.some_inj.mp hmove'
            subst hs1eq
            cases rest with
            | nil =>
                simp only at htail
                exact absurd htail hnotwin
            | cons m2 rest2 =>
                simp only at htail
                obtain ⟨hstep, hrest⟩ := htail
                obtain ⟨ud, hudmem, hudhash, hudd⟩ := hstepvis hstep
                -- board facts
                have hbg : boardInv s0 g dg := hA (g, dg) hmem
                have hbu : boardInv s0 ud.1 ud.2 := hA ud hudmem
                obtain ⟨s1'', hmove'', hws1, hss1, hsteps1, hmax1⟩ :=
                  move_pres hbg.1 hvm hm
                have hs1eq : s1'' = s1 := by
                  rw [hmove] at hmove''
                  exact (Option.some_inj.mp hmove'').symm
                subst hs1eq
                have htw : stepWinPath mc ud.1 (m2 :: rest2) := by
                  refine twin_transfer hbu.1 hws1 ?_ hudhash ?_ hrest
                  · exact sameStruct_trans (sameStruct_symm hbu.2.1)
                      (sameStruct_trans hbg.2.1 hss1)
                  · rw [hbu.2.2.1, hsteps1, hbg.2.2.1]
                    omega
                refine ih (rest2.length + 1) ?_ ud.1 ud.2 (m2 :: rest2) ?_ htw (by simp) ?_
                · simp only [List.length_cons] at hlen
                  omega
                · cases ud
                  exact hudmem
                · simp only [List.length_cons] at hlen ⊢
                  omega
      · refine ⟨(g, dg), hQ, ms, hpath, ?_⟩
        omega

theorem mem_shift {α : Type} {h0 : α} {P rest news : List α} {x : α}
    (hx : x ∈ P ++ (h0 :: rest)) : x ∈ (P ++ [h0]) ++ (rest ++ news) := by
  rcases List.mem_append.mp hx with h | h
  · exact List.mem_append_left _ (List.mem_append_left _ h)
  · rcases List.mem_cons.mp h with rfl | h
    · exact List.mem_append_left _ (List.mem_append_right _ (List.mem_singleton.mpr rfl))
    · exact List.mem_append_right _ (List.mem_append_left _ h)

theorem rolloutLoop_win {mc : SokobanBoard → ℤ} {s0 : SokobanBoard} :
    ∀ (fuel : Nat) (queue : List (SokobanBoard × Nat)) (visited : List String)
      (maxr : Reward) (P : List (SokobanBoard × Nat)),
      rolloutInv mc s0 P queue visited → goodInv mc (P ++ queue) →
      ∀ r, rolloutLoop mc fuel queue visited maxr = some r → r.rtype = RType.WIN := by
  intro fuel
  induction fuel with
  | zero =>
      intro queue visited maxr P hinv hgood r hr
      simp only [rolloutLoop] at hr
      exact Option.noConfusion hr
  | succ fuel ih =>
      intro queue visited maxr P hinv hgood r hr
      obtain ⟨hA, hB, hPQ, hC, hD⟩ := hinv
      cases queue with
      | nil =>
          obtain ⟨⟨gb, gdep⟩, hgd, ms, hpath, hbound⟩ := hgood
          obtain ⟨gd', hgd', -⟩ :=
            good_to_queue ⟨hA, hB, hPQ, hC, hD⟩ ms.length gb gdep ms hgd hpath rfl hbound
          exact absurd hgd' (List.not_mem_nil gd')
      | cons h0 rest =>
          obtain ⟨st, dp⟩ := h0
          simp only [rolloutLoop] at hr
          by_cases hdl : dp = LOOKAHEAD
          · exfalso
            rw [if_pos hdl] at hr
            obtain ⟨⟨gb, gdep⟩, hgd, ms, hpath, hbound⟩ := hgood
            obtain ⟨gd', hgd', ms', hpath', hbound'⟩ :=
              good_to_queue ⟨hA, hB, hPQ, hC, hD⟩ ms.length gb gdep ms hgd hpath rfl hbound
            have hlen' : 1 ≤ ms'.length :=
              List.length_pos.mpr (stepWinPath_ne_nil hpath')
            have hdple : dp ≤ gd'.2 := by
              rcases List.mem_cons.mp hgd' with rfl | hmem
              · exact le_refl dp
              · have := (List.pairwise_cons.mp hB).1 gd' hmem
                exact this.1
            have hL : LOOKAHEAD = 7 := rfl
            omega
          · rw [if_neg hdl] at hr
            have hbst : boardInv s0 st dp :=
              hA (st, dp) (List.mem_append_right _ (List.mem_cons_self _ _))
            obtain ⟨vms, hvm⟩ := valid_moves_total hbst.1.1 hbst.1.2.1
            simp only [bind, hvm, Option.some_bind] at hr
            have hmvreq : ∀ m ∈ vms, ∃ s', st.move m = some s' ∧
                ∃ k, (s'.reward mc).map Reward.rtype = some k := by
              intro m hm
              obtain ⟨s', hmove, hws', hss', hst', hmx'⟩ := move_pres hbst.1 hvm hm
              obtain ⟨k, hk⟩ := reward_total hws'.1 hws'.2.1
              exact ⟨s', hmove, k, hk⟩
            rcases rolloutScan_spec visited maxr rest hmvreq with
              ⟨rw', hscan, hrt⟩ |
              ⟨v', mr', q', news, hscan, hq, hnews, hv, hvmono, hnowin, hstepvis⟩
            · rw [hscan] at hr
              simp only [Option.some_bind] at hr
              cases Option.some_inj.mp hr
              exact hrt
            · rw [hscan] at hr
              simp only [Option.some_bind] at hr
              subst hq
              -- facts about the fresh queue entries
              have hnewsinv : ∀ ud ∈ news,
                  boardInv s0 (ud : SokobanBoard × Nat).1 ud.2 := by
                intro ud hud
                obtain ⟨hdep, m, hm, hmove, -⟩ := hnews ud hud
                obtain ⟨s', hmove', hws', hss', hst', hmx'⟩ := move_pres hbst.1 hvm hm
                rw [hmove] at hmove'
                have heq : ud.1 = s' := Option.some_inj.mp hmove'
                rw [heq, hdep]
                refine ⟨hws', sameStruct_trans hbst.2.1 hss', ?_, hmx'⟩
                rw [hst', hbst.2.2.1]
                omega
              have hBhead : ∀ x ∈ rest, dp ≤ (x : SokobanBoard × Nat).2 ∧ x.2 ≤ dp + 1 :=
                fun x hx => (List.pairwise_cons.mp hB).1 x hx
              have hBrest : depthOrdered rest := (List.pairwise_cons.mp hB).2
              have hPle : ∀ te ∈ P, (te : SokobanBoard × Nat).2 ≤ dp :=
                fun te hte => hPQ te hte (st, dp) (List.mem_cons_self _ _)
              -- depth bound on any twin currently registered
              have htwin_le : ∀ ud ∈ P ++ ((st, dp) :: rest),
                  (ud : SokobanBoard × Nat).2 ≤ dp + 1 := by
                intro ud hud
                rcases List.mem_append.mp hud with h | h
                · have := hPle ud h
                  omega
                · rcases List.mem_cons.mp h with rfl | h
                  · omega
                  · exact (hBhead ud h).2
              -- the new invariant
              have hinv' : rolloutInv mc s0 (P ++ [(st, dp)]) (rest ++ news) v' := by
                refine ⟨?_, ?_, ?_, ?_, ?_⟩
                · intro sd hsd
                  rcases List.mem_append.mp hsd with h | h
                  · rcases List.mem_append.mp h with h2 | h2
                    · exact hA sd (List.mem_append_left _ h2)
                    · simp only [List.mem_singleton] at h2
                      subst h2
                      exact hbst
                  · rcases List.mem_append.mp h with h2 | h2
                    · exact hA sd (List.mem_append_right _ (List.mem_cons_of_mem _ h2))
                    · exact hnewsinv sd h2
                · refine List.pairwise_append.mpr ⟨hBrest, ?_, ?_⟩
                  · refine List.pairwise_of_forall_mem_list ?_
                    intro a ha b hb
                    have ha2 := (hnews a ha).1
                    have hb2 := (hnews b hb).1
                    rw [ha2, hb2]
                    omega
                  · intro a ha b hb
                    have ha2 := hBhead a ha
                    have hb2 := (hnews b hb).1
                    rw [hb2]
                    omega
                · intro te hte sd hsd
                  have hted : te.2 ≤ dp := by
                    rcases List.mem_append.mp hte with h | h
                    · exact hPle te h
                    · simp only [List.mem_singleton] at h
                      subst h
                      exact le_refl dp
                  rcases List.mem_append.mp hsd with h | h
                  · have := (hBhead sd h).1
                    omega
                  · have := (hnews sd h).1
                    omega
                · intro s hs
                  rcases hv s hs with h | ⟨ud, hud, hh⟩
                  · rcases hC s h with h2 | ⟨ud, hud, hh⟩
                    · exact Or.inl h2
                    · exact Or.inr ⟨ud, mem_shift hud, hh⟩
                  · exact Or.inr ⟨ud,
                      List.mem_append_right _ (List.mem_append_right _ hud), hh⟩
                · intro te hte
                  rcases List.mem_append.mp hte with h | h
                  · obtain ⟨vmsD, hvmD, hclo⟩ := hD te h
                    refine ⟨vmsD, hvmD, ?_⟩
                    intro m hm
                    obtain ⟨s', hmove, hnw, hsv⟩ := hclo m hm
                    refine ⟨s', hmove, hnw, ?_⟩
                    intro hstep
                    obtain ⟨ud, hud, hh, hdle⟩ := hsv hstep
                    exact ⟨ud, mem_shift hud, hh, hdle⟩
                  · simp only [List.mem_singleton] at h
                    subst h
                    refine ⟨vms, hvm, ?_⟩
                    intro m hm
                    obtain ⟨s', hmove, hws', hss', hst', hmx'⟩ := move_pres hbst.1 hvm hm
                    refine ⟨s', hmove, hnowin m hm s' hmove, ?_⟩
                    intro hstep
                    have hsv : s'.hash ∈ v' := hstepvis m hm s' hmove hstep
                    rcases hv s'.hash hsv with h2 | ⟨ud, hud, hh⟩
                    · rcases hC s'.hash h2 with h3 | ⟨ud, hud, hh⟩
                      · exfalso
                        have := hash_length_two_le s'
                        omega
                      · exact ⟨ud, mem_shift hud, hh, htwin_le ud hud⟩
                    · refine ⟨ud,
                        List.mem_append_right _ (List.mem_append_right _ hud), hh, ?_⟩
                      rw [(hnews ud hud).1]
              -- the good element survives
              have hgood' : goodInv mc ((P ++ [(st, dp)]) ++ (rest ++ news)) := by
                obtain ⟨gd, hgd, ms, hpath, hbound⟩ := hgood
                rcases List.mem_append.mp hgd with h | h
                · exact ⟨gd, List.mem_append_left _ (List.mem_append_left _ h),
                    ms, hpath, hbound⟩
                · rcases List.mem_cons.mp h with heq | h
                  · -- the good element is the head being processed
                    subst heq
                    cases ms with
                    | nil => exact hpath.elim
                    | cons m restms =>
                        obtain ⟨vmsg, s1, hvmg, hmg, hmoveg, htailg⟩ := hpath
                        have hvmeq : vmsg = vms := by
                          simp only at hvmg
                          rw [hvm] at hvmg
                          exact (Option.some_inj.mp hvmg).symm
                        subst hvmeq
                        cases restms with
                        | nil =>
                            exfalso
                            simp only at htailg
                            exact hnowin m hmg s1 hmoveg htailg
                        | cons m2 rest2 =>
                            simp only at htailg
                            obtain ⟨hstep1, hrest1⟩ := htailg
                            obtain ⟨s1', hmoveg', hws1, hss1, hsteps1, hmax1⟩ :=
                              move_pres hbst.1 hvmg hmg
                            rw [hmoveg] at hmoveg'
                            have heq1 : s1 = s1' := Option.some_inj.mp hmoveg'
                            subst heq1
                            have hsv : s1.hash ∈ v' := hstepvis m hmg s1 hmoveg hstep1
                            have hs1steps : s1.steps = s0.steps + (dp + 1) := by
                              rw [hsteps1, hbst.2.2.1]
                              omega
                            have htrans : ∀ ud : SokobanBoard × Nat,
                                boardInv s0 ud.1 ud.2 → ud.1.hash = s1.hash →
                                ud.2 ≤ dp + 1 → stepWinPath mc ud.1 (m2 :: rest2) := by
                              intro ud hbud hhh hle
                              refine twin_transfer hbud.1 hws1 ?_ hhh ?_ hrest1
                              · exact sameStruct_trans (sameStruct_symm hbud.2.1)
                                  (sameStruct_trans hbst.2.1 hss1)
                              · rw [hbud.2.2.1, hs1steps]
                                omega
                            rcases hv s1.hash hsv with h2 | ⟨ud, hud, hh⟩
                            · rcases hC s1.hash h2 with h3 | ⟨ud, hud, hh⟩
                              · exfalso
                                have := hash_length_two_le s1
                                omega
                              · refine ⟨ud, mem_shift hud, m2 :: rest2,
                                  htrans ud (hA ud hud) hh (htwin_le ud hud), ?_⟩
                                have := htwin_le ud hud
                                simp only [List.length_cons] at hbound ⊢
                                omega
                            · refine ⟨ud, List.mem_append_right _
                                (List.mem_append_right _ hud), m2 :: rest2,
                                htrans ud (hnewsinv ud hud) hh (by rw [(hnews ud hud).1]), ?_⟩
                              have := (hnews ud hud).1
                              simp only [List.length_cons] at hbound ⊢
                              omega
                  · exact ⟨gd, List.mem_append_right _ (List.mem_append_left _ h),
                      ms, hpath, hbound⟩
              exact ih (rest ++ news) v' mr' (P ++ [(st, dp)]) hinv' hgood' r hr

/-- C7, amended: if the starting board satisfies the board invariants of §3 and
admits a winning push path of length at most `LOOKAHEAD = 7` whose intermediate
positions all classify `STEP`, then a single rollout returns a reward of kind
`WIN` whenever the (fuelled) BFS produces a result.  The claim's plain
reachability is not enough (see the counterexample): only `STEP` successors are
enqueued, so a winning line behind a `LOSS` intermediate is missed. -/
theorem c7_rollout_amended (mc : SokobanBoard → ℤ) (b : SokobanBoard) (ms : List Move)
    (hwf : wfBoard b) (hpath : stepWinPath mc b ms) (hlen : ms.length ≤ LOOKAHEAD)
    (fuel : Nat) (r : Reward) (hr : nodeRollout mc fuel b = some r) :
    r.rtype = RType.WIN := by
  unfold nodeRollout at hr
  simp only [bind] at hr
  cases hmr : (b.copy).reward mc with
  | none =>
      rw [hmr] at hr
      simp [bind] at hr
  | some maxr =>
      rw [hmr] at hr
      simp only [bind, Option.some_bind] at hr
      refine @rolloutLoop_win mc b.copy fuel [(b.copy, 0)] (rolloutInitVisited b.copy)
        maxr [] ⟨?_, ?_, ?_, ?_, ?_⟩ ?_ r hr
      · intro sd hsd
        simp only [List.nil_append, List.mem_singleton] at hsd
        subst hsd
        exact ⟨hwf, sameStruct_refl _, rfl, rfl⟩
      · exact List.pairwise_singleton _ _
      · intro te hte
        simp at hte
      · intro s hs
        exact Or.inl (rolloutInitVisited_length hs)
      · intro te hte
        simp at hte
      · refine ⟨(b.copy, 0), by simp, ms, ?_, by
          simp only [Nat.zero_add]
          exact hlen⟩
        exact @stepWinPath_congr mc ms b.copy b rfl rfl (le_refl b.steps) hpath

/-- C7, witness for the amended theorem: the S1 board, whose unique push wins;
the rollout (fuel 2) returns the reward `⟨0, WIN⟩`, of kind `WIN`. -/
theorem c7_rollout_amended_witness : (⟨0, RType.WIN⟩ : Reward).rtype = RType.WIN :=
  c7_rollout_amended min_cost_matching s1Board [(1, 1, 0, 1)] (by decide)
    ⟨[(1, 1, 0, 1)], s1After, by decide, by decide, by decide, by decide⟩
    (by decide) 2 ⟨0, RType.WIN⟩ (by decide)
